import Mathlib

/-! The Atomics builtins of `builtins-sharedarraybuffer-gen.cc`.

A shallow embedding of the `Atomics.*` builtins (load, store, exchange,
compareExchange, add, sub, and, or, xor) generated by
`SharedArrayBufferBuiltinsAssembler`, on targets that take the inline
(non-runtime-call) path of every builtin.

The builtins are state-passing functions on a `State` made of
* the fields of the typed array and of its buffer that the builtins read
  (`Heap`),
* the byte-addressed memory the atomic machine instructions act on, and
* a trace of the calls into the coercion engine, of the debug assertions and
  of the atomic machine instructions, in the order in which they happen.
-/

namespace Atomics

/-! ## Element kinds and machine types -/

/-- Modelled from the spec: the typed-array members of the `ElementsKind`
enumeration (declared in `elements-kind.h`, outside the source file), in their
declaration order. The spec's "ElementKind classification". -/
inductive ElementsKind
  | Uint8 | Int8 | Uint16 | Int16 | Uint32 | Int32
  | Float32 | Float64 | Uint8Clamped | BigUint64 | BigInt64
  deriving DecidableEq, Repr

/-- Modelled from the spec: the numeric value of a typed-array elements kind,
as loaded by `LoadMapElementsKind`. The values follow the declaration order of
the enumeration, which is what the `STATIC_ASSERT`s of the source rely on. -/
def ElementsKind.code : ElementsKind → Int
  | .Uint8 => 17 | .Int8 => 18 | .Uint16 => 19 | .Int16 => 20
  | .Uint32 => 21 | .Int32 => 22 | .Float32 => 23 | .Float64 => 24
  | .Uint8Clamped => 25 | .BigUint64 => 26 | .BigInt64 => 27

def UINT8_ELEMENTS : Int := ElementsKind.Uint8.code
def INT8_ELEMENTS : Int := ElementsKind.Int8.code
def UINT16_ELEMENTS : Int := ElementsKind.Uint16.code
def INT16_ELEMENTS : Int := ElementsKind.Int16.code
def UINT32_ELEMENTS : Int := ElementsKind.Uint32.code
def INT32_ELEMENTS : Int := ElementsKind.Int32.code
def FLOAT32_ELEMENTS : Int := ElementsKind.Float32.code
def FLOAT64_ELEMENTS : Int := ElementsKind.Float64.code
def UINT8_CLAMPED_ELEMENTS : Int := ElementsKind.Uint8Clamped.code
def BIGUINT64_ELEMENTS : Int := ElementsKind.BigUint64.code
def BIGINT64_ELEMENTS : Int := ElementsKind.BigInt64.code

/-- The eight integer kinds of the spec's data model. -/
def ElementsKind.isInteger : ElementsKind → Bool
  | .Float32 | .Float64 | .Uint8Clamped => false
  | _ => true

/-- Width of an element in bytes (spec: "width in bytes"). -/
def ElementsKind.bytes : ElementsKind → Nat
  | .Uint8 | .Int8 | .Uint8Clamped => 1
  | .Uint16 | .Int16 => 2
  | .Uint32 | .Int32 | .Float32 => 4
  | .Float64 | .BigUint64 | .BigInt64 => 8

/-- Signedness of an integer element kind. -/
def ElementsKind.isSigned : ElementsKind → Bool
  | .Int8 | .Int16 | .Int32 | .BigInt64 => true
  | _ => false

/-- The kinds whose values are BigInts (the 64-bit domain). -/
def ElementsKind.isBigInt : ElementsKind → Bool
  | .BigUint64 | .BigInt64 => true
  | _ => false

/-- Modelled from the spec: the `MachineType`s the builtins pass to the atomic
primitives (`machine-type.h` is outside the source file). -/
inductive MachineType
  | Int8 | Uint8 | Int16 | Uint16 | Int32 | Uint32 | Uint64
  deriving DecidableEq, Repr

def MachineType.bytes : MachineType → Nat
  | .Int8 | .Uint8 => 1
  | .Int16 | .Uint16 => 2
  | .Int32 | .Uint32 => 4
  | .Uint64 => 8

def MachineType.isSigned : MachineType → Bool
  | .Int8 | .Int16 | .Int32 => true
  | _ => false

/-- Modelled from the spec: the `MachineRepresentation`s passed to
`AtomicStore`. -/
inductive MachineRepresentation
  | kWord8 | kWord16 | kWord32 | kWord64
  deriving DecidableEq, Repr

def MachineRepresentation.bytes : MachineRepresentation → Nat
  | .kWord8 => 1 | .kWord16 => 2 | .kWord32 => 4 | .kWord64 => 8

/-! ## Managed values, operands and the coercion engine -/

/-- A value returned to the caller: a Number holding an integer, or a BigInt. -/
inductive Tagged
  | number (z : Int)
  | bigint (z : Int)
  deriving DecidableEq, Repr

/-- Modelled from the spec: what re-entrant code run by a coercion can do to
the view and its buffer ("can still detach or resize the shared buffer").
Detachment is irreversible, so there is no effect that clears the flag.
`relocate` gives the buffer another base pointer without detaching it; the
buffer's owner never does that, and the effect is there so that a base address
read before a coercion can be told from one read after it. -/
inductive Effect
  | detach
  | resize (length : Nat)
  | relocate (backing_store : Nat)
  deriving DecidableEq, Repr

/-- Result of a coercion: an integer, or an exception of the engine. -/
inductive Conversion
  | value (z : Int)
  | exception (e : Nat)
  deriving DecidableEq, Repr

/-- Modelled from the spec: one call into the coercion engine on an operand,
described by the side effects of the user code it runs and by its result
("may run arbitrary code, may fail with a type error"). -/
structure Coercion where
  effects : List Effect
  result : Conversion
  deriving DecidableEq, Repr

/-- Modelled from the spec: a caller-supplied operand, given by what each of
the two coercion paths of the engine does on it (`toInteger`, also used by
`toIndex`, and `toBigInt64`). -/
structure JSValue where
  toInteger : Coercion
  toBigInt : Coercion
  deriving DecidableEq, Repr

/-- The first argument of a builtin: a small integer, a heap object that is
not a typed array, or a typed array, whose map fixes its elements kind. -/
inductive JSObject
  | Smi (value : Int)
  | HeapObject
  | JSTypedArray (elements_kind : ElementsKind)
  deriving DecidableEq, Repr

/-- The fields of the typed array and of its buffer that the builtins load. -/
structure Heap where
  was_detached : Bool
  backing_store : Nat
  byte_offset : Nat
  length : Nat
  deriving DecidableEq, Repr

def Effect.apply : Effect → Heap → Heap
  | .detach, h => { h with was_detached := true }
  | .resize n, h => { h with length := n }
  | .relocate p, h => { h with backing_store := p }

def applyEffects : List Effect → Heap → Heap
  | [], h => h
  | e :: es, h => applyEffects es (e.apply h)

/-- An entry of the trace. -/
inductive Event
  | ToIndex (value : JSValue)
  | ToInteger (value : JSValue)
  | ToBigInt (value : JSValue)
  | CSA_ASSERT (holds : Bool)
  | atomic (bytes : Nat) (address : Nat)
  deriving DecidableEq, Repr

def Event.isAtomic : Event → Bool
  | .atomic _ _ => true
  | _ => false

def Event.isCoercion : Event → Bool
  | .ToIndex _ | .ToInteger _ | .ToBigInt _ => true
  | _ => false

/-- Byte-addressed memory; a cell is read modulo 256. -/
abbrev Memory := Nat → Nat

structure State where
  heap : Heap
  memory : Memory
  trace : List Event

/-- The atomic machine accesses recorded in a trace. -/
def accesses (t : List Event) : List Event := t.filter Event.isAtomic

/-- The coercion calls recorded in a trace. -/
def coercions (t : List Event) : List Event := t.filter Event.isCoercion

/-- Exceptions a builtin can throw. -/
inductive Exception
  | kNotIntegerTypedArray
  | kDetachedOperation (method_name : String)
  | kInvalidAtomicAccessIndex
  | propagated (e : Nat)
  deriving DecidableEq, Repr

/-- How a builtin ends. -/
inductive Completion
  | returned (v : Tagged)
  | thrown (e : Exception)
  | unreachable
  deriving DecidableEq, Repr

/-! ## Machine words and memory -/

/-- Width in bits of the host's machine word (`Is64()`). -/
def wordBits (Is64 : Bool) : Nat := if Is64 then 64 else 32

/-- Pointer-sized addition, wrapping at the machine word. -/
def RawPtrAdd (Is64 : Bool) (base offset : Nat) : Nat :=
  (base + offset) % 2 ^ wordBits Is64

/-- Pointer-sized left shift, wrapping at the machine word. -/
def WordShl (Is64 : Bool) (value shift : Nat) : Nat :=
  (value * 2 ^ shift) % 2 ^ wordBits Is64

/-- Little-endian value of the `n` bytes at `addr`. -/
def Memory.read (m : Memory) (addr : Nat) : Nat → Nat
  | 0 => 0
  | n + 1 => Memory.read m addr n + m (addr + n) % 256 * 256 ^ n

/-- Memory with the `n` low bytes of `v` written at `addr`, little-endian. -/
def Memory.write (m : Memory) (addr n v : Nat) : Memory :=
  fun a => if addr ≤ a ∧ a < addr + n then v / 256 ^ (a - addr) % 256 else m a

/-- Raw result of a machine operation: one word, or on a 32-bit host the
(low, high) pair of a 64-bit operation. -/
inductive Node
  | word (w : Nat)
  | pair (low high : Nat)
  deriving DecidableEq, Repr

/-- The word carried by a node (the low word of a pair). -/
def Node.toWord : Node → Nat
  | .word w => w
  | .pair low _ => low

def Projection (i : Nat) : Node → Nat
  | .pair low high => if i = 0 then low else high
  | .word w => if i = 0 then w else 0

/-- A 32-bit word read as a signed integer. -/
def toInt32 (w : Nat) : Int :=
  if w % 2 ^ 32 < 2 ^ 31 then ((w % 2 ^ 32 : Nat) : Int) else ((w % 2 ^ 32 : Nat) : Int) - 2 ^ 32

/-- A 64-bit word read as a signed integer. -/
def toInt64 (w : Nat) : Int :=
  if w % 2 ^ 64 < 2 ^ 63 then ((w % 2 ^ 64 : Nat) : Int) else ((w % 2 ^ 64 : Nat) : Int) - 2 ^ 64

/-- Modelled from the spec: the result node of an atomic primitive for the
`size`-byte raw contents `raw` of an element. Sub-word results are extended to
a 32-bit word, by sign for the signed machine types and by zero otherwise; a
64-bit result is one word on a 64-bit host and a (low, high) pair otherwise. -/
def resultNode (Is64 : Bool) (type : MachineType) (raw : Nat) : Node :=
  match type with
  | .Uint64 => if Is64 then .word raw else .pair (raw % 2 ^ 32) (raw / 2 ^ 32)
  | _ =>
    if type.isSigned && decide (2 ^ (8 * type.bytes - 1) ≤ raw)
    then .word (raw + 2 ^ 32 - 2 ^ (8 * type.bytes))
    else .word raw

/-- Modelled from the spec: the bit pattern, `size` bytes wide, of the operand
of an atomic primitive: the low bytes of `value`, or of the pair
(`value`, `value_high`) when the high word is passed separately. -/
def operandBits (size : Nat) (value : Nat) (value_high : Option Nat) : Nat :=
  match value_high with
  | none => value % 256 ^ size
  | some high => (value % 2 ^ 32 + 2 ^ 32 * (high % 2 ^ 32)) % 256 ^ size

/-! ## Hardware atomic primitives -/

/-- Modelled from the spec: `atomicLoad(width, address)`. -/
def AtomicLoad (Is64 : Bool) (type : MachineType) (base offset : Nat) (s : State) :
    Node × State :=
  let address := RawPtrAdd Is64 base offset
  (resultNode Is64 type (s.memory.read address type.bytes),
   { s with trace := s.trace ++ [Event.atomic type.bytes address] })

/-- Modelled from the spec: `atomicStore(width, address)`. -/
def AtomicStore (Is64 : Bool) (rep : MachineRepresentation) (base offset value : Nat)
    (value_high : Option Nat) (s : State) : State :=
  let address := RawPtrAdd Is64 base offset
  { s with
    memory := s.memory.write address rep.bytes (operandBits rep.bytes value value_high)
    trace := s.trace ++ [Event.atomic rep.bytes address] }

/-- Modelled from the spec: an atomic read-modify-write primitive: the element
becomes `f size old operand` (reduced to the element's width by the write) and
the old contents are returned. -/
def AtomicReadModifyWrite (f : Nat → Nat → Nat → Nat) (Is64 : Bool) (type : MachineType)
    (base offset value : Nat) (value_high : Option Nat) (s : State) : Node × State :=
  let address := RawPtrAdd Is64 base offset
  let old := s.memory.read address type.bytes
  (resultNode Is64 type old,
   { s with
     memory := s.memory.write address type.bytes
       (f type.bytes old (operandBits type.bytes value value_high))
     trace := s.trace ++ [Event.atomic type.bytes address] })

/-- Modelled from the spec: `atomicExchange(width, address)`. -/
def AtomicExchange : Bool → MachineType → Nat → Nat → Nat → Option Nat → State → Node × State :=
  AtomicReadModifyWrite (fun _ _ v => v)

/-- Modelled from the spec: `atomicFetchAdd(width, address)`. -/
def AtomicAdd : Bool → MachineType → Nat → Nat → Nat → Option Nat → State → Node × State :=
  AtomicReadModifyWrite (fun _ old v => old + v)

/-- Modelled from the spec: `atomicFetchSub(width, address)`. -/
def AtomicSub : Bool → MachineType → Nat → Nat → Nat → Option Nat → State → Node × State :=
  AtomicReadModifyWrite (fun size old v => old + (256 ^ size - v))

/-- Modelled from the spec: `atomicFetchAnd(width, address)`. -/
def AtomicAnd : Bool → MachineType → Nat → Nat → Nat → Option Nat → State → Node × State :=
  AtomicReadModifyWrite (fun _ old v => old &&& v)

/-- Modelled from the spec: `atomicFetchOr(width, address)`. -/
def AtomicOr : Bool → MachineType → Nat → Nat → Nat → Option Nat → State → Node × State :=
  AtomicReadModifyWrite (fun _ old v => old ||| v)

/-- Modelled from the spec: `atomicFetchXor(width, address)`. -/
def AtomicXor : Bool → MachineType → Nat → Nat → Nat → Option Nat → State → Node × State :=
  AtomicReadModifyWrite (fun _ old v => old ^^^ v)

/-- Modelled from the spec: `atomicCompareExchange(width, address)`: "compares
the full bit pattern of `expected` against the current value; on mismatch it
returns the current value unchanged and performs no write". -/
def AtomicCompareExchange (Is64 : Bool) (type : MachineType) (base offset : Nat)
    (old_value new_value : Nat) (old_high new_high : Option Nat) (s : State) :
    Node × State :=
  let address := RawPtrAdd Is64 base offset
  let old := s.memory.read address type.bytes
  (resultNode Is64 type old,
   { s with
     memory :=
       if old = operandBits type.bytes old_value old_high
       then s.memory.write address type.bytes (operandBits type.bytes new_value new_high)
       else s.memory
     trace := s.trace ++ [Event.atomic type.bytes address] })

/-! ## Conversions between machine words and managed values -/

def SmiFromInt32 (value : Node) : Tagged := .number (toInt32 value.toWord)

def ChangeInt32ToTagged (value : Node) : Tagged := .number (toInt32 value.toWord)

def ChangeUint32ToTagged (value : Node) : Tagged := .number ((value.toWord % 2 ^ 32 : Nat) : Int)

def BigIntFromInt64 (value : Nat) : Tagged := .bigint (toInt64 value)

def BigIntFromUint64 (value : Nat) : Tagged := .bigint ((value % 2 ^ 64 : Nat) : Int)

def BigIntFromInt32Pair (low high : Nat) : Tagged :=
  .bigint (toInt64 (low % 2 ^ 32 + 2 ^ 32 * (high % 2 ^ 32)))

def BigIntFromUint32Pair (low high : Nat) : Tagged :=
  .bigint ((low % 2 ^ 32 + 2 ^ 32 * (high % 2 ^ 32) : Nat) : Int)

/-- Modelled from the spec: the low 32 bits of an integer Number, in two's
complement. -/
def TruncateTaggedToWord32 (value : Int) : Nat := (value % 2 ^ 32).toNat

/-- Modelled from the spec: Word64Codec's unpacking of a BigInt into host
words: the low 64 bits, in two's complement, as one word on a 64-bit host
(high word zero) and as a (low, high) pair of 32-bit words otherwise. -/
def BigIntToRawBytes (Is64 : Bool) (bigint : Int) : Nat × Nat :=
  if Is64 then ((bigint % 2 ^ 64).toNat, 0)
  else ((bigint % 2 ^ 64).toNat % 2 ^ 32, (bigint % 2 ^ 64).toNat / 2 ^ 32)

/-! ## Calls into the coercion engine -/

/-- The state after the user code of a coercion has run and the call has been
recorded. -/
def State.afterCoercion (s : State) (c : Coercion) (e : Event) : State :=
  { s with heap := applyEffects c.effects s.heap, trace := s.trace ++ [e] }

/-- Outcome of `ToIndex` with its range-error label. -/
inductive IndexResult
  | index (index_uintptr : Nat)
  | if_range_error
  | exception (e : Nat)
  deriving DecidableEq, Repr

/-- Modelled from the spec: `toIndex(value) -> uint | Fail`: converts the
operand to an integer through the engine and jumps to the range-error label
when the integer is negative. The upper limit of `ToIndex` lies above every
typed-array length, so it is subsumed by the comparison with the length that
follows in `ValidateAtomicAccess`, which jumps to the same label. -/
def ToIndex (value : JSValue) (s : State) : IndexResult × State :=
  let s1 := s.afterCoercion value.toInteger (Event.ToIndex value)
  match value.toInteger.result with
  | .exception e => (.exception e, s1)
  | .value z => if z < 0 then (.if_range_error, s1) else (.index z.toNat, s1)

/-- Modelled from the spec: `toInteger(value) -> int | Fail`. -/
def ToInteger_Inline (value : JSValue) (s : State) : Except Exception Int × State :=
  let s1 := s.afterCoercion value.toInteger (Event.ToInteger value)
  match value.toInteger.result with
  | .exception e => (.error (.propagated e), s1)
  | .value z => (.ok z, s1)

/-- Modelled from the spec: `toBigInt64(value) -> (sign,u64) | Fail`; the
BigInt is kept exact, `BigIntToRawBytes` takes its low 64 bits. -/
def ToBigInt (value : JSValue) (s : State) : Except Exception Int × State :=
  let s1 := s.afterCoercion value.toBigInt (Event.ToBigInt value)
  match value.toBigInt.result with
  | .exception e => (.error (.propagated e), s1)
  | .value z => (.ok z, s1)

/-! ## The assembler's helpers -/

def IsDetachedBuffer (heap : Heap) : Bool := heap.was_detached

def LoadJSTypedArrayLength (heap : Heap) : Nat := heap.length

/-- Outcome of `ValidateIntegerTypedArray`: the `invalid` label (a TypeError),
the caller's `detached` label, or the `not_float_or_clamped` label with the
two out-parameters. -/
inductive Validation
  | invalid
  | detached
  | not_float_or_clamped (elements_kind : Int) (backing_store : Nat)
  deriving DecidableEq, Repr

def ValidateIntegerTypedArray (Is64 : Bool) (maybe_array : JSObject) (heap : Heap) :
    Validation :=
  match maybe_array with
  -- Fail if it is not a heap object.
  | .Smi _ => .invalid
  -- Fail if the array's instance type is not JSTypedArray.
  | .HeapObject => .invalid
  | .JSTypedArray kind =>
    -- Fail if the array's JSArrayBuffer is detached.
    if IsDetachedBuffer heap then .detached
    else
      -- Fail if the array's element type is float32, float64 or clamped.
      let elements_kind := kind.code
      if elements_kind < FLOAT32_ELEMENTS then
        .not_float_or_clamped elements_kind (RawPtrAdd Is64 heap.backing_store heap.byte_offset)
      else if elements_kind > UINT8_CLAMPED_ELEMENTS then
        .not_float_or_clamped elements_kind (RawPtrAdd Is64 heap.backing_store heap.byte_offset)
      else .invalid

def ValidateAtomicAccess (index : JSValue) (s : State) : Except Exception Nat × State :=
  -- 2. Let length be typedArray.[[ArrayLength]].
  let array_length := LoadJSTypedArrayLength s.heap
  -- 3. Let accessIndex be ? ToIndex(requestIndex).
  match ToIndex index s with
  | (.exception e, s1) => (.error (.propagated e), s1)
  | (.if_range_error, s1) => (.error .kInvalidAtomicAccessIndex, s1)
  | (.index index_uintptr, s1) =>
    -- 5. If accessIndex >= length, throw a RangeError exception.
    if index_uintptr < array_length then (.ok index_uintptr, s1)
    else (.error .kInvalidAtomicAccessIndex, s1)

/-- The two debug assertions; they are compiled out of release builds, so the
model records whether each holds and goes on. -/
def DebugSanityCheckAtomicIndex (index : Nat) (s : State) : State :=
  { s with
    trace := s.trace ++
      [Event.CSA_ASSERT (!IsDetachedBuffer s.heap),
       Event.CSA_ASSERT (decide (index < LoadJSTypedArrayLength s.heap))] }

def BigIntFromSigned64 (Is64 : Bool) (signed64 : Node) : Tagged :=
  if Is64 then BigIntFromInt64 signed64.toWord
  else BigIntFromInt32Pair (Projection 0 signed64) (Projection 1 signed64)

def BigIntFromUnsigned64 (Is64 : Bool) (unsigned64 : Node) : Tagged :=
  if Is64 then BigIntFromUint64 unsigned64.toWord
  else BigIntFromUint32Pair (Projection 0 unsigned64) (Projection 1 unsigned64)

/-- Labels of the element-kind dispatch. -/
inductive Label
  | i8 | u8 | i16 | u16 | i32 | u32 | i64 | u64 | other
  deriving DecidableEq, Repr

/-- The assembler's `Switch`: the label of the first case value equal to
`value`, the default label when there is none. -/
def Switch (value : Int) (default_label : Label) : List (Int × Label) → Label
  | [] => default_label
  | (case_value, case_label) :: rest =>
    if value = case_value then case_label else Switch value default_label rest

/-- The assembler's `Return` of a converted machine result. -/
def Return (convert : Node → Tagged) (r : Node × State) : Completion × State :=
  (.returned (convert r.1), r.2)

/-! ## The builtins -/

def AtomicsLoad (Is64 : Bool) (maybe_array : JSObject) (index : JSValue) (s : State) :
    Completion × State :=
  -- 1. Let buffer be ? ValidateIntegerTypedArray(typedArray).
  match ValidateIntegerTypedArray Is64 maybe_array s.heap with
  | .invalid => (.thrown .kNotIntegerTypedArray, s)
  | .detached => (.thrown (.kDetachedOperation "Atomics.load"), s)
  | .not_float_or_clamped elements_kind backing_store =>
    -- 2. Let i be ? ValidateAtomicAccess(typedArray, index).
    match ValidateAtomicAccess index s with
    | (.error e, s1) => (.thrown e, s1)
    | (.ok index_word, s1) =>
      -- 3. If IsDetachedBuffer(buffer) is true, throw a TypeError exception.
      if IsDetachedBuffer s1.heap then (.thrown (.kDetachedOperation "Atomics.load"), s1)
      else
        match Switch elements_kind .other
          [(INT8_ELEMENTS, .i8), (UINT8_ELEMENTS, .u8), (INT16_ELEMENTS, .i16),
           (UINT16_ELEMENTS, .u16), (INT32_ELEMENTS, .i32), (UINT32_ELEMENTS, .u32),
           (BIGINT64_ELEMENTS, .i64), (BIGUINT64_ELEMENTS, .u64)] with
        | .i8 => Return SmiFromInt32 (AtomicLoad Is64 .Int8 backing_store index_word s1)
        | .u8 => Return SmiFromInt32 (AtomicLoad Is64 .Uint8 backing_store index_word s1)
        | .i16 =>
          Return SmiFromInt32 (AtomicLoad Is64 .Int16 backing_store (WordShl Is64 index_word 1) s1)
        | .u16 =>
          Return SmiFromInt32 (AtomicLoad Is64 .Uint16 backing_store (WordShl Is64 index_word 1) s1)
        | .i32 =>
          Return ChangeInt32ToTagged
            (AtomicLoad Is64 .Int32 backing_store (WordShl Is64 index_word 2) s1)
        | .u32 =>
          Return ChangeUint32ToTagged
            (AtomicLoad Is64 .Uint32 backing_store (WordShl Is64 index_word 2) s1)
        | .i64 =>
          Return (BigIntFromSigned64 Is64)
            (AtomicLoad Is64 .Uint64 backing_store (WordShl Is64 index_word 3) s1)
        | .u64 =>
          Return (BigIntFromUnsigned64 Is64)
            (AtomicLoad Is64 .Uint64 backing_store (WordShl Is64 index_word 3) s1)
        -- This shouldn't happen, we've already validated the type.
        | .other => (.unreachable, s1)

def AtomicsStore (Is64 : Bool) (maybe_array : JSObject) (index value : JSValue) (s : State) :
    Completion × State :=
  -- 1. Let buffer be ? ValidateIntegerTypedArray(typedArray).
  match ValidateIntegerTypedArray Is64 maybe_array s.heap with
  | .invalid => (.thrown .kNotIntegerTypedArray, s)
  | .detached => (.thrown (.kDetachedOperation "Atomics.store"), s)
  | .not_float_or_clamped elements_kind backing_store =>
    -- 2. Let i be ? ValidateAtomicAccess(typedArray, index).
    match ValidateAtomicAccess index s with
    | (.error e, s1) => (.thrown e, s1)
    | (.ok index_word, s1) =>
      if elements_kind > INT32_ELEMENTS then
        -- u64: 4. let v be ? ToBigInt(value).
        match ToBigInt value s1 with
        | (.error e, s2) => (.thrown e, s2)
        | (.ok value_bigint, s2) =>
          -- 6. If IsDetachedBuffer(buffer) is true, throw a TypeError exception.
          if IsDetachedBuffer s2.heap then (.thrown (.kDetachedOperation "Atomics.store"), s2)
          else
            let s3 := DebugSanityCheckAtomicIndex index_word s2
            let var_low := (BigIntToRawBytes Is64 value_bigint).1
            let var_high := (BigIntToRawBytes Is64 value_bigint).2
            let high := if Is64 then none else some var_high
            (.returned (.bigint value_bigint),
             AtomicStore Is64 .kWord64 backing_store (WordShl Is64 index_word 3) var_low high s3)
      else
        -- 5. Otherwise, let v be ? ToInteger(value).
        match ToInteger_Inline value s1 with
        | (.error e, s2) => (.thrown e, s2)
        | (.ok value_integer, s2) =>
          -- 6. If IsDetachedBuffer(buffer) is true, throw a TypeError exception.
          if IsDetachedBuffer s2.heap then (.thrown (.kDetachedOperation "Atomics.store"), s2)
          else
            let value_word32 := TruncateTaggedToWord32 value_integer
            let s3 := DebugSanityCheckAtomicIndex index_word s2
            match Switch elements_kind .other
              [(INT8_ELEMENTS, .u8), (UINT8_ELEMENTS, .u8), (INT16_ELEMENTS, .u16),
               (UINT16_ELEMENTS, .u16), (INT32_ELEMENTS, .u32), (UINT32_ELEMENTS, .u32)] with
            | .u8 =>
              (.returned (.number value_integer),
               AtomicStore Is64 .kWord8 backing_store index_word value_word32 none s3)
            | .u16 =>
              (.returned (.number value_integer),
               AtomicStore Is64 .kWord16 backing_store (WordShl Is64 index_word 1)
                 value_word32 none s3)
            | .u32 =>
              (.returned (.number value_integer),
               AtomicStore Is64 .kWord32 backing_store (WordShl Is64 index_word 2)
                 value_word32 none s3)
            -- This shouldn't happen, we've already validated the type.
            | _ => (.unreachable, s3)

def AtomicsExchange (Is64 : Bool) (maybe_array : JSObject) (index value : JSValue)
    (s : State) : Completion × State :=
  -- 1. Let buffer be ? ValidateIntegerTypedArray(typedArray).
  match ValidateIntegerTypedArray Is64 maybe_array s.heap with
  | .invalid => (.thrown .kNotIntegerTypedArray, s)
  | .detached => (.thrown (.kDetachedOperation "Atomics.exchange"), s)
  | .not_float_or_clamped elements_kind backing_store =>
    -- 2. Let i be ? ValidateAtomicAccess(typedArray, index).
    match ValidateAtomicAccess index s with
    | (.error e, s1) => (.thrown e, s1)
    | (.ok index_word, s1) =>
      if elements_kind > INT32_ELEMENTS then
        -- big: 4. If typedArray.[[ContentType]] is BigInt, let v be ? ToBigInt(value).
        match ToBigInt value s1 with
        | (.error e, s2) => (.thrown e, s2)
        | (.ok value_bigint, s2) =>
          -- 6. If IsDetachedBuffer(buffer) is true, throw a TypeError exception.
          if IsDetachedBuffer s2.heap then
            (.thrown (.kDetachedOperation "Atomics.exchange"), s2)
          else
            let s3 := DebugSanityCheckAtomicIndex index_word s2
            let var_low := (BigIntToRawBytes Is64 value_bigint).1
            let var_high := (BigIntToRawBytes Is64 value_bigint).2
            let high := if Is64 then none else some var_high
            if elements_kind = BIGINT64_ELEMENTS then
              Return (BigIntFromSigned64 Is64)
                (AtomicExchange Is64 .Uint64 backing_store (WordShl Is64 index_word 3)
                  var_low high s3)
            else if elements_kind = BIGUINT64_ELEMENTS then
              Return (BigIntFromUnsigned64 Is64)
                (AtomicExchange Is64 .Uint64 backing_store (WordShl Is64 index_word 3)
                  var_low high s3)
            else (.unreachable, s3)
      else
        -- 5. Otherwise, let v be ? ToInteger(value).
        match ToInteger_Inline value s1 with
        | (.error e, s2) => (.thrown e, s2)
        | (.ok value_integer, s2) =>
          -- 6. If IsDetachedBuffer(buffer) is true, throw a TypeError exception.
          if IsDetachedBuffer s2.heap then
            (.thrown (.kDetachedOperation "Atomics.exchange"), s2)
          else
            let s3 := DebugSanityCheckAtomicIndex index_word s2
            let value_word32 := TruncateTaggedToWord32 value_integer
            match Switch elements_kind .other
              [(INT8_ELEMENTS, .i8), (UINT8_ELEMENTS, .u8), (INT16_ELEMENTS, .i16),
               (UINT16_ELEMENTS, .u16), (INT32_ELEMENTS, .i32), (UINT32_ELEMENTS, .u32)] with
            | .i8 =>
              Return SmiFromInt32
                (AtomicExchange Is64 .Int8 backing_store index_word value_word32 none s3)
            | .u8 =>
              Return SmiFromInt32
                (AtomicExchange Is64 .Uint8 backing_store index_word value_word32 none s3)
            | .i16 =>
              Return SmiFromInt32
                (AtomicExchange Is64 .Int16 backing_store (WordShl Is64 index_word 1)
                  value_word32 none s3)
            | .u16 =>
              Return SmiFromInt32
                (AtomicExchange Is64 .Uint16 backing_store (WordShl Is64 index_word 1)
                  value_word32 none s3)
            | .i32 =>
              Return ChangeInt32ToTagged
                (AtomicExchange Is64 .Int32 backing_store (WordShl Is64 index_word 2)
                  value_word32 none s3)
            | .u32 =>
              Return ChangeUint32ToTagged
                (AtomicExchange Is64 .Uint32 backing_store (WordShl Is64 index_word 2)
                  value_word32 none s3)
            -- This shouldn't happen, we've already validated the type.
            | _ => (.unreachable, s3)

def AtomicsCompareExchange (Is64 : Bool) (maybe_array : JSObject)
    (index old_value new_value : JSValue) (s : State) : Completion × State :=
  -- 1. Let buffer be ? ValidateIntegerTypedArray(typedArray).
  match ValidateIntegerTypedArray Is64 maybe_array s.heap with
  | .invalid => (.thrown .kNotIntegerTypedArray, s)
  | .detached => (.thrown (.kDetachedOperation "Atomics.store"), s)
  | .not_float_or_clamped elements_kind backing_store =>
    -- 2. Let i be ? ValidateAtomicAccess(typedArray, index).
    match ValidateAtomicAccess index s with
    | (.error e, s1) => (.thrown e, s1)
    | (.ok index_word, s1) =>
      if elements_kind > INT32_ELEMENTS then
        -- big: a. Let expected be ? ToBigInt(expectedValue).
        match ToBigInt old_value s1 with
        | (.error e, s2) => (.thrown e, s2)
        | (.ok old_value_bigint, s2) =>
          -- b. Let replacement be ? ToBigInt(replacementValue).
          match ToBigInt new_value s2 with
          | (.error e, s3) => (.thrown e, s3)
          | (.ok new_value_bigint, s3) =>
            -- 6. If IsDetachedBuffer(buffer) is true, throw a TypeError exception.
            if IsDetachedBuffer s3.heap then
              (.thrown (.kDetachedOperation "Atomics.store"), s3)
            else
              let s4 := DebugSanityCheckAtomicIndex index_word s3
              let var_old_low := (BigIntToRawBytes Is64 old_value_bigint).1
              let var_old_high := (BigIntToRawBytes Is64 old_value_bigint).2
              let var_new_low := (BigIntToRawBytes Is64 new_value_bigint).1
              let var_new_high := (BigIntToRawBytes Is64 new_value_bigint).2
              let old_high := if Is64 then none else some var_old_high
              let new_high := if Is64 then none else some var_new_high
              if elements_kind = BIGINT64_ELEMENTS then
                Return (BigIntFromSigned64 Is64)
                  (AtomicCompareExchange Is64 .Uint64 backing_store (WordShl Is64 index_word 3)
                    var_old_low var_new_low old_high new_high s4)
              else if elements_kind = BIGUINT64_ELEMENTS then
                Return (BigIntFromUnsigned64 Is64)
                  (AtomicCompareExchange Is64 .Uint64 backing_store (WordShl Is64 index_word 3)
                    var_old_low var_new_low old_high new_high s4)
              else (.unreachable, s4)
      else
        -- 5. a. Let expected be ? ToInteger(expectedValue).
        match ToInteger_Inline old_value s1 with
        | (.error e, s2) => (.thrown e, s2)
        | (.ok old_value_integer, s2) =>
          -- b. Let replacement be ? ToInteger(replacementValue).
          match ToInteger_Inline new_value s2 with
          | (.error e, s3) => (.thrown e, s3)
          | (.ok new_value_integer, s3) =>
            -- 6. If IsDetachedBuffer(buffer) is true, throw a TypeError exception.
            if IsDetachedBuffer s3.heap then
              (.thrown (.kDetachedOperation "Atomics.store"), s3)
            else
              let s4 := DebugSanityCheckAtomicIndex index_word s3
              let old_value_word32 := TruncateTaggedToWord32 old_value_integer
              let new_value_word32 := TruncateTaggedToWord32 new_value_integer
              match Switch elements_kind .other
                [(INT8_ELEMENTS, .i8), (UINT8_ELEMENTS, .u8), (INT16_ELEMENTS, .i16),
                 (UINT16_ELEMENTS, .u16), (INT32_ELEMENTS, .i32), (UINT32_ELEMENTS, .u32)] with
              | .i8 =>
                Return SmiFromInt32
                  (AtomicCompareExchange Is64 .Int8 backing_store index_word
                    old_value_word32 new_value_word32 none none s4)
              | .u8 =>
                Return SmiFromInt32
                  (AtomicCompareExchange Is64 .Uint8 backing_store index_word
                    old_value_word32 new_value_word32 none none s4)
              | .i16 =>
                Return SmiFromInt32
                  (AtomicCompareExchange Is64 .Int16 backing_store (WordShl Is64 index_word 1)
                    old_value_word32 new_value_word32 none none s4)
              | .u16 =>
                Return SmiFromInt32
                  (AtomicCompareExchange Is64 .Uint16 backing_store (WordShl Is64 index_word 1)
                    old_value_word32 new_value_word32 none none s4)
              | .i32 =>
                Return ChangeInt32ToTagged
                  (AtomicCompareExchange Is64 .Int32 backing_store (WordShl Is64 index_word 2)
                    old_value_word32 new_value_word32 none none s4)
              | .u32 =>
                Return ChangeUint32ToTagged
                  (AtomicCompareExchange Is64 .Uint32 backing_store (WordShl Is64 index_word 2)
                    old_value_word32 new_value_word32 none none s4)
              -- This shouldn't happen, we've already validated the type.
              | _ => (.unreachable, s4)

/-- The type of the pointer to an assembler member passed to
`AtomicBinopBuiltinCommon`. -/
abbrev AssemblerFunction :=
  Bool → MachineType → Nat → Nat → Nat → Option Nat → State → Node × State

def AtomicBinopBuiltinCommon (Is64 : Bool) (maybe_array : JSObject) (index value : JSValue)
    (function : AssemblerFunction) (method_name : String) (s : State) :
    Completion × State :=
  -- 1. Let buffer be ? ValidateIntegerTypedArray(typedArray).
  match ValidateIntegerTypedArray Is64 maybe_array s.heap with
  | .invalid => (.thrown .kNotIntegerTypedArray, s)
  | .detached => (.thrown (.kDetachedOperation method_name), s)
  | .not_float_or_clamped elements_kind backing_store =>
    -- 2. Let i be ? ValidateAtomicAccess(typedArray, index).
    match ValidateAtomicAccess index s with
    | (.error e, s1) => (.thrown e, s1)
    | (.ok index_word, s1) =>
      if elements_kind > INT32_ELEMENTS then
        -- big: 4. If typedArray.[[ContentType]] is BigInt, let v be ? ToBigInt(value).
        match ToBigInt value s1 with
        | (.error e, s2) => (.thrown e, s2)
        | (.ok value_bigint, s2) =>
          -- 6. If IsDetachedBuffer(buffer) is true, throw a TypeError exception.
          if IsDetachedBuffer s2.heap then (.thrown (.kDetachedOperation method_name), s2)
          else
            let s3 := DebugSanityCheckAtomicIndex index_word s2
            let var_low := (BigIntToRawBytes Is64 value_bigint).1
            let var_high := (BigIntToRawBytes Is64 value_bigint).2
            let high := if Is64 then none else some var_high
            if elements_kind = BIGINT64_ELEMENTS then
              Return (BigIntFromSigned64 Is64)
                (function Is64 .Uint64 backing_store (WordShl Is64 index_word 3) var_low high s3)
            else if elements_kind = BIGUINT64_ELEMENTS then
              Return (BigIntFromUnsigned64 Is64)
                (function Is64 .Uint64 backing_store (WordShl Is64 index_word 3) var_low high s3)
            else (.unreachable, s3)
      else
        -- 5. Otherwise, let v be ? ToInteger(value).
        match ToInteger_Inline value s1 with
        | (.error e, s2) => (.thrown e, s2)
        | (.ok value_integer, s2) =>
          -- 6. If IsDetachedBuffer(buffer) is true, throw a TypeError exception.
          if IsDetachedBuffer s2.heap then (.thrown (.kDetachedOperation method_name), s2)
          else
            let s3 := DebugSanityCheckAtomicIndex index_word s2
            let value_word32 := TruncateTaggedToWord32 value_integer
            match Switch elements_kind .other
              [(INT8_ELEMENTS, .i8), (UINT8_ELEMENTS, .u8), (INT16_ELEMENTS, .i16),
               (UINT16_ELEMENTS, .u16), (INT32_ELEMENTS, .i32), (UINT32_ELEMENTS, .u32)] with
            | .i8 =>
              Return SmiFromInt32
                (function Is64 .Int8 backing_store index_word value_word32 none s3)
            | .u8 =>
              Return SmiFromInt32
                (function Is64 .Uint8 backing_store index_word value_word32 none s3)
            | .i16 =>
              Return SmiFromInt32
                (function Is64 .Int16 backing_store (WordShl Is64 index_word 1)
                  value_word32 none s3)
            | .u16 =>
              Return SmiFromInt32
                (function Is64 .Uint16 backing_store (WordShl Is64 index_word 1)
                  value_word32 none s3)
            | .i32 =>
              Return ChangeInt32ToTagged
                (function Is64 .Int32 backing_store (WordShl Is64 index_word 2)
                  value_word32 none s3)
            | .u32 =>
              Return ChangeUint32ToTagged
                (function Is64 .Uint32 backing_store (WordShl Is64 index_word 2)
                  value_word32 none s3)
            -- This shouldn't happen, we've already validated the type.
            | _ => (.unreachable, s3)

def AtomicsAdd (Is64 : Bool) (array : JSObject) (index value : JSValue) :
    State → Completion × State :=
  AtomicBinopBuiltinCommon Is64 array index value AtomicAdd "Atomics.add"

def AtomicsSub (Is64 : Bool) (array : JSObject) (index value : JSValue) :
    State → Completion × State :=
  AtomicBinopBuiltinCommon Is64 array index value AtomicSub "Atomics.sub"

def AtomicsAnd (Is64 : Bool) (array : JSObject) (index value : JSValue) :
    State → Completion × State :=
  AtomicBinopBuiltinCommon Is64 array index value AtomicAnd "Atomics.and"

def AtomicsOr (Is64 : Bool) (array : JSObject) (index value : JSValue) :
    State → Completion × State :=
  AtomicBinopBuiltinCommon Is64 array index value AtomicOr "Atomics.or"

def AtomicsXor (Is64 : Bool) (array : JSObject) (index value : JSValue) :
    State → Completion × State :=
  AtomicBinopBuiltinCommon Is64 array index value AtomicXor "Atomics.xor"

/-! ## Vocabulary of the specification -/

/-- The nine public operations. -/
inductive Operation
  | Load | Store | Exchange | CompareExchange | Add | Sub | And | Or | Xor
  deriving DecidableEq, Repr

/-- Runs the builtin of an operation. `value` is the operand of Store,
Exchange and the five binops and the expected value of CompareExchange;
`replacement` is only used by CompareExchange. -/
def Operation.run (Is64 : Bool) (op : Operation) (maybe_array : JSObject)
    (index value replacement : JSValue) (s : State) : Completion × State :=
  match op with
  | .Load => AtomicsLoad Is64 maybe_array index s
  | .Store => AtomicsStore Is64 maybe_array index value s
  | .Exchange => AtomicsExchange Is64 maybe_array index value s
  | .CompareExchange => AtomicsCompareExchange Is64 maybe_array index value replacement s
  | .Add => AtomicsAdd Is64 maybe_array index value s
  | .Sub => AtomicsSub Is64 maybe_array index value s
  | .And => AtomicsAnd Is64 maybe_array index value s
  | .Or => AtomicsOr Is64 maybe_array index value s
  | .Xor => AtomicsXor Is64 maybe_array index value s

/-- The five fetch-and-op operations. -/
inductive BinOp
  | Add | Sub | And | Or | Xor
  deriving DecidableEq, Repr

def BinOp.toOperation : BinOp → Operation
  | .Add => .Add | .Sub => .Sub | .And => .And | .Or => .Or | .Xor => .Xor

/-- The integer operation a binop stands for (bitwise operations act on the
two's complement representation). -/
def BinOp.eval : BinOp → Int → Int → Int
  | .Add, x, d => x + d
  | .Sub, x, d => x - d
  | .And, x, d => Int.land x d
  | .Or, x, d => Int.lor x d
  | .Xor, x, d => Int.xor x d

/-- Whether the user code of a coercion detaches the buffer. -/
def detaches (effects : List Effect) : Bool := effects.contains Effect.detach

/-- Whether the user code of a coercion gives the buffer another base pointer. -/
def relocates : List Effect → Bool
  | [] => false
  | .relocate _ :: _ => true
  | _ :: rest => relocates rest

/-- Width of an element in bits. -/
def ElementsKind.bits (kind : ElementsKind) : Nat := 8 * kind.bytes

/-- The integer an element's bit pattern stands for: the pattern itself for an
unsigned kind, its two's complement reading for a signed kind. -/
def ElementsKind.decode (kind : ElementsKind) (raw : Nat) : Int :=
  if kind.isSigned && decide (2 ^ (kind.bits - 1) ≤ raw)
  then (raw : Int) - 2 ^ kind.bits else (raw : Int)

/-- The bit pattern of an integer in an element: the integer modulo
`2 ^ width`. -/
def ElementsKind.encode (kind : ElementsKind) (v : Int) : Nat := (v % 2 ^ kind.bits).toNat

/-- The spec's `canonicalize`: "the coerced integer reduced modulo 2^width(k)
and read back as signed or unsigned according to k". -/
def canonicalize (kind : ElementsKind) (v : Int) : Int := kind.decode (kind.encode v)

/-- The managed value of an integer for a kind: a BigInt for the 64-bit kinds,
a Number otherwise. -/
def ElementsKind.tag (kind : ElementsKind) (z : Int) : Tagged :=
  if kind.isBigInt then .bigint z else .number z

/-- The coercion path of a kind: "for kinds requiring a 64-bit domain, coerces
via the 64-bit-integer coercion path; for all other kinds, via the
bounded-integer coercion path". -/
def ElementsKind.coercion (kind : ElementsKind) (value : JSValue) : Coercion :=
  if kind.isBigInt then value.toBigInt else value.toInteger

/-- The trace entry of the value coercion of a kind. -/
def ElementsKind.coercionEvent (kind : ElementsKind) (value : JSValue) : Event :=
  if kind.isBigInt then .ToBigInt value else .ToInteger value

/-- Address of element `i` of the view: `buffer.base + view.byteOffset + i * W`,
in the machine's address arithmetic. -/
def elementAddress (Is64 : Bool) (heap : Heap) (kind : ElementsKind) (i : Nat) : Nat :=
  (heap.backing_store + heap.byte_offset + i * kind.bytes) % 2 ^ wordBits Is64

/-- Bit pattern of element `i` of the view. -/
def elementBits (Is64 : Bool) (kind : ElementsKind) (i : Nat) (s : State) : Nat :=
  s.memory.read (elementAddress Is64 s.heap kind i) kind.bytes

/-- Value of element `i` of the view, signed or unsigned per its kind. -/
def elementValue (Is64 : Bool) (kind : ElementsKind) (i : Nat) (s : State) : Int :=
  kind.decode (elementBits Is64 kind i s)

/-- A Number operand holding the integer `z`: the bounded-integer path yields
`z`, the 64-bit-integer path throws; no user code runs. -/
def JSValue.number (z : Int) : JSValue :=
  { toInteger := { effects := [], result := .value z }
    toBigInt := { effects := [], result := .exception 0 } }

/-- A BigInt operand `z`: the 64-bit-integer path yields `z`, the
bounded-integer path throws; no user code runs. -/
def JSValue.bigint (z : Int) : JSValue :=
  { toInteger := { effects := [], result := .exception 0 }
    toBigInt := { effects := [], result := .value z } }

/-! ## The common shape of the builtins

Every builtin validates the array, validates the index, coerces its value
operands in order, re-checks detachment and only then runs its atomic
primitive. `pipeline` is that control flow written once; the builtins are
proved equal to it below (`Operation.run_eq_pipeline`). -/

/-- Runs the value coercions of an operation in order on the path of the kind,
stopping at the first one that throws. -/
def coerceAll (kind : ElementsKind) : List JSValue → State → Except Nat (List Int) × State
  | [], s => (.ok [], s)
  | value :: rest, s =>
    let s1 := s.afterCoercion (kind.coercion value) (kind.coercionEvent value)
    match (kind.coercion value).result with
    | .exception e => (.error e, s1)
    | .value z =>
      match coerceAll kind rest s1 with
      | (.error e, s2) => (.error e, s2)
      | (.ok zs, s2) => (.ok (z :: zs), s2)

/-- The control flow shared by the builtins, for the method name passed to the
Detached error, the value operands and the final atomic step. The atomic step
is given the fields of the view as they were read at validation, before any
coercion: the builtins compute the base address once, there. -/
def pipeline (method_name : String) (operands : List JSValue)
    (execute : ElementsKind → Heap → Nat → List Int → State → Completion × State)
    (maybe_array : JSObject) (index : JSValue) (s : State) : Completion × State :=
  match maybe_array with
  | .JSTypedArray kind =>
    if s.heap.was_detached then (.thrown (.kDetachedOperation method_name), s)
    else if kind.isInteger = false then (.thrown .kNotIntegerTypedArray, s)
    else
      let s1 := s.afterCoercion index.toInteger (.ToIndex index)
      match index.toInteger.result with
      | .exception e => (.thrown (.propagated e), s1)
      | .value z =>
        if z < 0 ∨ s.heap.length ≤ z.toNat then (.thrown .kInvalidAtomicAccessIndex, s1)
        else
          match coerceAll kind operands s1 with
          | (.error e, s2) => (.thrown (.propagated e), s2)
          | (.ok zs, s2) =>
            if s2.heap.was_detached then (.thrown (.kDetachedOperation method_name), s2)
            else execute kind s.heap z.toNat zs s2
  | _ => (.thrown .kNotIntegerTypedArray, s)

/-- The state with the fields of the view as they were read at validation. -/
def State.withView (s : State) (view : Heap) : State := { s with heap := view }

/-- The trace entry of the atomic access to element `i`. -/
def accessEvent (Is64 : Bool) (kind : ElementsKind) (i : Nat) (s : State) : Event :=
  Event.atomic kind.bytes (elementAddress Is64 s.heap kind i)

/-- The atomic step of Load: returns the element. -/
def executeLoad (Is64 : Bool) (kind : ElementsKind) (view : Heap) (i : Nat) (_zs : List Int)
    (s : State) : Completion × State :=
  (.returned (kind.tag (elementValue Is64 kind i (s.withView view))),
   { s with trace := s.trace ++ [accessEvent Is64 kind i (s.withView view)] })

/-- The atomic step of Store: writes the operand's bit pattern and returns the
operand as coerced. -/
def executeStore (Is64 : Bool) (kind : ElementsKind) (view : Heap) (i : Nat) (zs : List Int)
    (s : State) : Completion × State :=
  (.returned (kind.tag (zs.getD 0 0)),
   { s with
     memory := s.memory.write (elementAddress Is64 view kind i) kind.bytes
       (kind.encode (zs.getD 0 0))
     trace := (DebugSanityCheckAtomicIndex i s).trace ++
       [accessEvent Is64 kind i (s.withView view)] })

/-- The atomic step of Exchange and of the binops: the element becomes
`f size old operand` and the old element is returned. -/
def executeReadModifyWrite (f : Nat → Nat → Nat → Nat) (Is64 : Bool) (kind : ElementsKind)
    (view : Heap) (i : Nat) (zs : List Int) (s : State) : Completion × State :=
  (.returned (kind.tag (elementValue Is64 kind i (s.withView view))),
   { s with
     memory := s.memory.write (elementAddress Is64 view kind i) kind.bytes
       (f kind.bytes (elementBits Is64 kind i (s.withView view)) (kind.encode (zs.getD 0 0)))
     trace := (DebugSanityCheckAtomicIndex i s).trace ++
       [accessEvent Is64 kind i (s.withView view)] })

/-- The atomic step of CompareExchange: the element becomes the replacement's
bit pattern when it holds the expected one; the old element is returned. -/
def executeCompareExchange (Is64 : Bool) (kind : ElementsKind) (view : Heap) (i : Nat)
    (zs : List Int) (s : State) : Completion × State :=
  (.returned (kind.tag (elementValue Is64 kind i (s.withView view))),
   { s with
     memory :=
       if elementBits Is64 kind i (s.withView view) = kind.encode (zs.getD 0 0)
       then s.memory.write (elementAddress Is64 view kind i) kind.bytes
         (kind.encode (zs.getD 1 0))
       else s.memory
     trace := (DebugSanityCheckAtomicIndex i s).trace ++
       [accessEvent Is64 kind i (s.withView view)] })

/-- The method name each builtin passes to its Detached error. -/
def Operation.method_name : Operation → String
  | .Load => "Atomics.load"
  | .Store => "Atomics.store"
  | .Exchange => "Atomics.exchange"
  | .CompareExchange => "Atomics.store"
  | .Add => "Atomics.add"
  | .Sub => "Atomics.sub"
  | .And => "Atomics.and"
  | .Or => "Atomics.or"
  | .Xor => "Atomics.xor"

/-- The value operands an operation coerces, in order. -/
def Operation.operands (op : Operation) (value replacement : JSValue) : List JSValue :=
  match op with
  | .Load => []
  | .CompareExchange => [value, replacement]
  | _ => [value]

/-- The bit-pattern function of the machine primitive of a binop. -/
def BinOp.machine : BinOp → Nat → Nat → Nat → Nat
  | .Add => fun _ old v => old + v
  | .Sub => fun size old v => old + (256 ^ size - v)
  | .And => fun _ old v => old &&& v
  | .Or => fun _ old v => old ||| v
  | .Xor => fun _ old v => old ^^^ v

/-- The atomic step of an operation. -/
def Operation.execute (Is64 : Bool) :
    Operation → ElementsKind → Heap → Nat → List Int → State → Completion × State
  | .Load => executeLoad Is64
  | .Store => executeStore Is64
  | .Exchange => executeReadModifyWrite (fun _ _ v => v) Is64
  | .CompareExchange => executeCompareExchange Is64
  | .Add => executeReadModifyWrite (BinOp.machine .Add) Is64
  | .Sub => executeReadModifyWrite (BinOp.machine .Sub) Is64
  | .And => executeReadModifyWrite (BinOp.machine .And) Is64
  | .Or => executeReadModifyWrite (BinOp.machine .Or) Is64
  | .Xor => executeReadModifyWrite (BinOp.machine .Xor) Is64

/-- A view of `length` elements at byte offset 16 of an attached buffer whose
backing store is at address 4096, over zeroed memory, with an empty trace. -/
def State.initial (length : Nat) : State :=
  { heap := { was_detached := false, backing_store := 4096, byte_offset := 16, length := length }
    memory := fun _ => 0
    trace := [] }

/-- The operand of kind-appropriate type holding `z`: a BigInt for the 64-bit
kinds and a Number otherwise. -/
def JSValue.ofKind (kind : ElementsKind) (z : Int) : JSValue :=
  if kind.isBigInt then JSValue.bigint z else JSValue.number z

/-- The initial four-element view after `Store(view, 0, z)` on a 64-bit host. -/
def State.afterStore (kind : ElementsKind) (z : Int) : State :=
  (AtomicsStore true (.JSTypedArray kind) (JSValue.number 0) (JSValue.ofKind kind z)
    (State.initial 4)).2

/-- A step that leaves the memory alone and performs no atomic access. -/
def Quiet (s s1 : State) : Prop :=
  s1.memory = s.memory ∧ accesses s1.trace = accesses s.trace

/-- A view of `length` elements of a buffer that has been detached. -/
def State.detached (length : Nat) : State :=
  { heap := { was_detached := true, backing_store := 0, byte_offset := 16, length := length }
    memory := fun _ => 0
    trace := [] }

/-- An operand whose bounded-integer coercion runs user code that detaches the
buffer and then yields `z`. -/
def JSValue.detaching (z : Int) : JSValue :=
  { toInteger := { effects := [.detach], result := .value z }
    toBigInt := { effects := [], result := .exception 0 } }

/-- An operand whose coercion throws the exception `e` on both paths. -/
def JSValue.throwing (e : Nat) : JSValue :=
  { toInteger := { effects := [], result := .exception e }
    toBigInt := { effects := [], result := .exception e } }

/-- Whether a builtin ended without returning a value. -/
def Completion.isFailure : Completion → Bool
  | .returned _ => false
  | _ => true

/-- Whether the user code of a coercion changes the length of the view. -/
def resizes : List Effect → Bool
  | [] => false
  | .resize _ :: _ => true
  | _ :: rest => resizes rest

/-- The collaborator guarantee on the user code of a coercion: "length cannot
change without detachment". -/
def lengthStable (effects : List Effect) : Bool := detaches effects || !resizes effects

/-- The heap after the value coercions of an operation have all run. -/
def heapAfter (kind : ElementsKind) : List JSValue → Heap → Heap
  | [], h => h
  | value :: rest, h => heapAfter kind rest (applyEffects (kind.coercion value).effects h)

/-- The trace entries of `DebugSanityCheckAtomicIndex` in an operation: Load
does not call it, the other operations call it once, after their last
coercion. -/
def Operation.debugChecks (op : Operation) (i : Nat) (heap : Heap) : List Event :=
  match op with
  | .Load => []
  | _ => [Event.CSA_ASSERT (!heap.was_detached), Event.CSA_ASSERT (decide (i < heap.length))]

/-- The value an operation returns on success: Store returns its operand as
coerced, the other operations the element as it was before the atomic step. -/
def Operation.result (Is64 : Bool) (op : Operation) (kind : ElementsKind) (i : Nat)
    (zs : List Int) (s : State) : Tagged :=
  match op with
  | .Store => kind.tag (zs.getD 0 0)
  | _ => kind.tag (elementValue Is64 kind i s)

/-- An operand whose bounded-integer coercion runs user code that gives the
buffer the base pointer `p`, without detaching it, and then yields `z`. -/
def JSValue.relocating (z : Int) (p : Nat) : JSValue :=
  { toInteger := { effects := [.relocate p], result := .value z }
    toBigInt := { effects := [], result := .exception 0 } }

/-- The name under which scripts call an operation, which is the name a
Detached error of that operation is expected to carry; to be compared with
`Operation.method_name`, the name the builtin passes. -/
def Operation.ownName : Operation → String
  | .Load => "Atomics.load"
  | .Store => "Atomics.store"
  | .Exchange => "Atomics.exchange"
  | .CompareExchange => "Atomics.compareExchange"
  | .Add => "Atomics.add"
  | .Sub => "Atomics.sub"
  | .And => "Atomics.and"
  | .Or => "Atomics.or"
  | .Xor => "Atomics.xor"

/-! ## Lemmas on the heap, the memory and the conversions -/

@[simp] theorem applyEffects_was_detached (es : List Effect) (h : Heap) :
    (applyEffects es h).was_detached = (h.was_detached || detaches es) := by
  induction es generalizing h with
  | nil => simp [applyEffects, detaches]
  | cons e es ih =>
    cases e <;> simp [applyEffects, Effect.apply, ih, detaches, List.contains_cons]

theorem applyEffects_backing_store (es : List Effect) (h : Heap)
    (hr : relocates es = false) : (applyEffects es h).backing_store = h.backing_store := by
  induction es generalizing h with
  | nil => rfl
  | cons e es ih =>
    cases e <;> simp [relocates] at hr <;> simp [applyEffects, Effect.apply, ih, hr]

@[simp] theorem applyEffects_byte_offset (es : List Effect) (h : Heap) :
    (applyEffects es h).byte_offset = h.byte_offset := by
  induction es generalizing h with
  | nil => rfl
  | cons e es ih => cases e <;> simp [applyEffects, Effect.apply, ih]

theorem elementAddress_congr (Is64 : Bool) (h1 h2 : Heap) (kind : ElementsKind) (i : Nat)
    (hb : h1.backing_store = h2.backing_store) (ho : h1.byte_offset = h2.byte_offset) :
    elementAddress Is64 h1 kind i = elementAddress Is64 h2 kind i := by
  simp [elementAddress, hb, ho]

theorem Memory.read_lt (m : Memory) (a n : Nat) : m.read a n < 256 ^ n := by
  induction n with
  | zero => simp [Memory.read]
  | succ n ih =>
    have h1 : m (a + n) % 256 ≤ 255 := by omega
    have h2 := Nat.mul_le_mul_right (256 ^ n) h1
    simp only [Memory.read, pow_succ]
    omega

theorem Memory.read_of_bytes (m : Memory) (a v : Nat) :
    ∀ n, (∀ k, k < n → m (a + k) % 256 = v / 256 ^ k % 256) → m.read a n = v % 256 ^ n := by
  intro n
  induction n with
  | zero => intro _; simp [Memory.read, Nat.mod_one]
  | succ n ih =>
    intro h
    rw [Memory.read, ih (fun k hk => h k (by omega)), h n (by omega), Nat.mod_pow_succ,
      Nat.mul_comm]

theorem Memory.read_write_same (m : Memory) (a n v : Nat) :
    (m.write a n v).read a n = v % 256 ^ n := by
  apply Memory.read_of_bytes
  intro k hk
  have h : a ≤ a + k ∧ a + k < a + n := by omega
  simp [Memory.write, h]

theorem Memory.read_congr (m1 m2 : Memory) (a : Nat) :
    ∀ n, (∀ k, k < n → m1 (a + k) = m2 (a + k)) → m1.read a n = m2.read a n := by
  intro n
  induction n with
  | zero => intro _; rfl
  | succ n ih =>
    intro h
    rw [Memory.read, Memory.read, ih (fun k hk => h k (by omega)), h n (by omega)]

theorem Memory.write_outside (m : Memory) (a n v b : Nat) (h : b < a ∨ a + n ≤ b) :
    (m.write a n v) b = m b := by
  have : ¬ (a ≤ b ∧ b < a + n) := by omega
  simp [Memory.write, this]

theorem Memory.read_write_disjoint (m : Memory) (a n v b k : Nat)
    (h : b + k ≤ a ∨ a + n ≤ b) : (m.write a n v).read b k = m.read b k := by
  apply Memory.read_congr
  intro j hj
  apply Memory.write_outside
  omega

theorem pow256 (n : Nat) : 256 ^ n = 2 ^ (8 * n) := by
  rw [pow_mul]; norm_num

theorem Memory.read_lt_1 (m : Memory) (a : Nat) : m.read a 1 < 256 := Memory.read_lt m a 1
theorem Memory.read_lt_2 (m : Memory) (a : Nat) : m.read a 2 < 65536 := Memory.read_lt m a 2
theorem Memory.read_lt_4 (m : Memory) (a : Nat) : m.read a 4 < 4294967296 := Memory.read_lt m a 4
theorem Memory.read_lt_8 (m : Memory) (a : Nat) : m.read a 8 < 18446744073709551616 :=
  Memory.read_lt m a 8

theorem convert_Int8 (Is64 : Bool) (raw : Nat) (h : raw < 256) :
    SmiFromInt32 (resultNode Is64 .Int8 raw) = .number (ElementsKind.Int8.decode raw) := by
  simp only [SmiFromInt32, resultNode, MachineType.isSigned, MachineType.bytes, toInt32,
    ElementsKind.decode, ElementsKind.isSigned, ElementsKind.bits, ElementsKind.bytes,
    Bool.true_and, Bool.false_and, Node.toWord]
  norm_num
  split <;> simp [Node.toWord] <;> omega

theorem convert_Uint8 (Is64 : Bool) (raw : Nat) (h : raw < 256) :
    SmiFromInt32 (resultNode Is64 .Uint8 raw) = .number (ElementsKind.Uint8.decode raw) := by
  simp only [SmiFromInt32, ChangeInt32ToTagged, ChangeUint32ToTagged, resultNode,
    MachineType.isSigned, MachineType.bytes, toInt32,
    ElementsKind.decode, ElementsKind.isSigned, ElementsKind.bits, ElementsKind.bytes,
    Bool.true_and, Bool.false_and, Node.toWord]
  norm_num
  omega

theorem convert_Int16 (Is64 : Bool) (raw : Nat) (h : raw < 65536) :
    SmiFromInt32 (resultNode Is64 .Int16 raw) = .number (ElementsKind.Int16.decode raw) := by
  simp only [SmiFromInt32, ChangeInt32ToTagged, ChangeUint32ToTagged, resultNode,
    MachineType.isSigned, MachineType.bytes, toInt32,
    ElementsKind.decode, ElementsKind.isSigned, ElementsKind.bits, ElementsKind.bytes,
    Bool.true_and, Bool.false_and, Node.toWord]
  norm_num
  split <;> simp [Node.toWord] <;> omega

theorem convert_Uint16 (Is64 : Bool) (raw : Nat) (h : raw < 65536) :
    SmiFromInt32 (resultNode Is64 .Uint16 raw) = .number (ElementsKind.Uint16.decode raw) := by
  simp only [SmiFromInt32, ChangeInt32ToTagged, ChangeUint32ToTagged, resultNode,
    MachineType.isSigned, MachineType.bytes, toInt32,
    ElementsKind.decode, ElementsKind.isSigned, ElementsKind.bits, ElementsKind.bytes,
    Bool.true_and, Bool.false_and, Node.toWord]
  norm_num
  omega

theorem convert_Int32 (Is64 : Bool) (raw : Nat) (h : raw < 4294967296) :
    ChangeInt32ToTagged (resultNode Is64 .Int32 raw) = .number (ElementsKind.Int32.decode raw) := by
  simp only [SmiFromInt32, ChangeInt32ToTagged, ChangeUint32ToTagged, resultNode,
    MachineType.isSigned, MachineType.bytes, toInt32,
    ElementsKind.decode, ElementsKind.isSigned, ElementsKind.bits, ElementsKind.bytes,
    Bool.true_and, Bool.false_and, Node.toWord]
  norm_num
  omega

theorem convert_Uint32 (Is64 : Bool) (raw : Nat) (h : raw < 4294967296) :
    ChangeUint32ToTagged (resultNode Is64 .Uint32 raw) = .number (ElementsKind.Uint32.decode raw) := by
  simp only [SmiFromInt32, ChangeInt32ToTagged, ChangeUint32ToTagged, resultNode,
    MachineType.isSigned, MachineType.bytes, toInt32,
    ElementsKind.decode, ElementsKind.isSigned, ElementsKind.bits, ElementsKind.bytes,
    Bool.true_and, Bool.false_and, Node.toWord]
  norm_num
  omega

theorem convert_BigInt64 (Is64 : Bool) (raw : Nat) (h : raw < 18446744073709551616) :
    BigIntFromSigned64 Is64 (resultNode Is64 .Uint64 raw)
      = .bigint (ElementsKind.BigInt64.decode raw) := by
  cases Is64 <;>
  simp only [BigIntFromSigned64, BigIntFromInt64, BigIntFromInt32Pair, Projection, resultNode,
    toInt64, ElementsKind.decode, ElementsKind.isSigned, ElementsKind.bits, ElementsKind.bytes,
    Bool.true_and, Node.toWord] <;> norm_num <;> (split <;> split <;> omega)

theorem convert_BigUint64 (Is64 : Bool) (raw : Nat) (h : raw < 18446744073709551616) :
    BigIntFromUnsigned64 Is64 (resultNode Is64 .Uint64 raw)
      = .bigint (ElementsKind.BigUint64.decode raw) := by
  cases Is64 <;>
  simp only [BigIntFromUnsigned64, BigIntFromUint64, BigIntFromUint32Pair, Projection,
    resultNode, ElementsKind.decode, ElementsKind.isSigned, ElementsKind.bits,
    ElementsKind.bytes, Bool.false_and, Node.toWord] <;> norm_num <;> omega

/-! ## The builtins on a valid access whose coercions succeed without detaching -/

theorem RawPtrAdd_RawPtrAdd (Is64 : Bool) (b o x : Nat) :
    RawPtrAdd Is64 (RawPtrAdd Is64 b o) x = (b + o + x) % 2 ^ wordBits Is64 := by
  simp only [RawPtrAdd]
  rw [Nat.add_mod, Nat.mod_mod, ← Nat.add_mod]

theorem AtomicsLoad_ok (Is64 : Bool) (kind : ElementsKind) (index : JSValue) (s : State)
    (i : Nat) (hk : kind.isInteger = true) (hnd : s.heap.was_detached = false)
    (hi : index.toInteger.result = .value (i : Int)) (hlt : i < s.heap.length)
    (hd : detaches index.toInteger.effects = false) :
    AtomicsLoad Is64 (.JSTypedArray kind) index s =
      (.returned (kind.tag (elementValue Is64 kind i s)),
       { heap := applyEffects index.toInteger.effects s.heap
         memory := s.memory
         trace := s.trace ++ [Event.ToIndex index,
           Event.atomic kind.bytes (elementAddress Is64 s.heap kind i)] }) := by
  have hneg : ¬ ((i : Int) < 0) := by omega
  cases kind <;> simp [ElementsKind.isInteger] at hk <;>
    simp [AtomicsLoad, ValidateIntegerTypedArray, ValidateAtomicAccess, ToIndex, hi, hlt,
      IsDetachedBuffer, hnd, hd, LoadJSTypedArrayLength, State.afterCoercion, ElementsKind.code,
      FLOAT32_ELEMENTS, UINT8_CLAMPED_ELEMENTS, Switch, INT8_ELEMENTS, UINT8_ELEMENTS,
      INT16_ELEMENTS, UINT16_ELEMENTS, INT32_ELEMENTS, UINT32_ELEMENTS, BIGINT64_ELEMENTS,
      BIGUINT64_ELEMENTS, Return, AtomicLoad, MachineType.bytes, ElementsKind.bytes,
      RawPtrAdd_RawPtrAdd, WordShl, elementAddress, hneg, elementValue, elementBits, ElementsKind.tag,
      ElementsKind.isBigInt, convert_Int8, convert_Uint8, convert_Int16, convert_Uint16,
      convert_Int32, convert_Uint32, convert_BigInt64, convert_BigUint64,
      Memory.read_lt_1, Memory.read_lt_2, Memory.read_lt_4, Memory.read_lt_8]

theorem operandBits_word8 (v : Int) :
    operandBits 1 (TruncateTaggedToWord32 v) none = (v % 256).toNat := by
  simp only [operandBits, TruncateTaggedToWord32]; omega

theorem operandBits_word16 (v : Int) :
    operandBits 2 (TruncateTaggedToWord32 v) none = (v % 65536).toNat := by
  simp only [operandBits, TruncateTaggedToWord32]; omega

theorem operandBits_word32 (v : Int) :
    operandBits 4 (TruncateTaggedToWord32 v) none = (v % 4294967296).toNat := by
  simp only [operandBits, TruncateTaggedToWord32]; omega

theorem operandBits_word64 (Is64 : Bool) (v : Int) :
    operandBits 8 (BigIntToRawBytes Is64 v).1
        (if Is64 then none else some (BigIntToRawBytes Is64 v).2)
      = (v % 18446744073709551616).toNat := by
  cases Is64 <;> simp only [operandBits, BigIntToRawBytes] <;> simp <;> omega

theorem AtomicsStore_ok (Is64 : Bool) (kind : ElementsKind) (index value : JSValue) (s : State)
    (i : Nat) (v : Int) (hk : kind.isInteger = true) (hnd : s.heap.was_detached = false)
    (hi : index.toInteger.result = .value (i : Int)) (hlt : i < s.heap.length)
    (hd : detaches index.toInteger.effects = false)
    (hv : (kind.coercion value).result = .value v)
    (hvd : detaches (kind.coercion value).effects = false) :
    AtomicsStore Is64 (.JSTypedArray kind) index value s =
      (.returned (kind.tag v),
       { heap := applyEffects (kind.coercion value).effects
           (applyEffects index.toInteger.effects s.heap)
         memory := s.memory.write (elementAddress Is64 s.heap kind i) kind.bytes (kind.encode v)
         trace := s.trace ++ [Event.ToIndex index, kind.coercionEvent value,
           Event.CSA_ASSERT true,
           Event.CSA_ASSERT (decide (i < (applyEffects (kind.coercion value).effects
             (applyEffects index.toInteger.effects s.heap)).length)),
           Event.atomic kind.bytes (elementAddress Is64 s.heap kind i)] }) := by
  have hneg : ¬ ((i : Int) < 0) := by omega
  cases kind <;> simp [ElementsKind.isInteger] at hk <;>
    simp [ElementsKind.coercion, ElementsKind.isBigInt] at hv hvd <;>
    simp [AtomicsStore, ValidateIntegerTypedArray, ValidateAtomicAccess, ToIndex, hi, hlt,
      ToInteger_Inline, ToBigInt, hv, hvd, DebugSanityCheckAtomicIndex,
      IsDetachedBuffer, hnd, hd, LoadJSTypedArrayLength, State.afterCoercion, ElementsKind.code,
      FLOAT32_ELEMENTS, UINT8_CLAMPED_ELEMENTS, Switch, INT8_ELEMENTS, UINT8_ELEMENTS,
      INT16_ELEMENTS, UINT16_ELEMENTS, INT32_ELEMENTS, UINT32_ELEMENTS, BIGINT64_ELEMENTS,
      BIGUINT64_ELEMENTS, AtomicStore, MachineRepresentation.bytes, ElementsKind.bytes,
      RawPtrAdd_RawPtrAdd, WordShl, elementAddress, hneg, ElementsKind.tag,
      ElementsKind.isBigInt, ElementsKind.coercion, ElementsKind.coercionEvent,
      ElementsKind.encode, ElementsKind.bits,
      operandBits_word8, operandBits_word16, operandBits_word32, operandBits_word64]

theorem AtomicBinopBuiltinCommon_ok (f : Nat → Nat → Nat → Nat) (method_name : String)
    (Is64 : Bool) (kind : ElementsKind) (index value : JSValue) (s : State)
    (i : Nat) (v : Int) (hk : kind.isInteger = true) (hnd : s.heap.was_detached = false)
    (hi : index.toInteger.result = .value (i : Int)) (hlt : i < s.heap.length)
    (hd : detaches index.toInteger.effects = false)
    (hv : (kind.coercion value).result = .value v)
    (hvd : detaches (kind.coercion value).effects = false) :
    AtomicBinopBuiltinCommon Is64 (.JSTypedArray kind) index value
        (AtomicReadModifyWrite f) method_name s =
      (.returned (kind.tag (elementValue Is64 kind i s)),
       { heap := applyEffects (kind.coercion value).effects
           (applyEffects index.toInteger.effects s.heap)
         memory := s.memory.write (elementAddress Is64 s.heap kind i) kind.bytes
           (f kind.bytes (elementBits Is64 kind i s) (kind.encode v))
         trace := s.trace ++ [Event.ToIndex index, kind.coercionEvent value,
           Event.CSA_ASSERT true,
           Event.CSA_ASSERT (decide (i < (applyEffects (kind.coercion value).effects
             (applyEffects index.toInteger.effects s.heap)).length)),
           Event.atomic kind.bytes (elementAddress Is64 s.heap kind i)] }) := by
  have hneg : ¬ ((i : Int) < 0) := by omega
  cases kind <;> simp [ElementsKind.isInteger] at hk <;>
    simp [ElementsKind.coercion, ElementsKind.isBigInt] at hv hvd <;>
    simp [AtomicBinopBuiltinCommon, AtomicReadModifyWrite, hv, hvd, ValidateIntegerTypedArray, ValidateAtomicAccess, ToIndex, hi, hlt,
      ToInteger_Inline, ToBigInt, DebugSanityCheckAtomicIndex,
      IsDetachedBuffer, hnd, hd, LoadJSTypedArrayLength, State.afterCoercion, ElementsKind.code,
      FLOAT32_ELEMENTS, UINT8_CLAMPED_ELEMENTS, Switch, INT8_ELEMENTS, UINT8_ELEMENTS,
      INT16_ELEMENTS, UINT16_ELEMENTS, INT32_ELEMENTS, UINT32_ELEMENTS, BIGINT64_ELEMENTS,
      BIGUINT64_ELEMENTS, Return, MachineType.bytes, ElementsKind.bytes,
      RawPtrAdd_RawPtrAdd, WordShl, elementAddress, hneg, ElementsKind.tag,
      ElementsKind.isBigInt, ElementsKind.coercion, ElementsKind.coercionEvent,
      ElementsKind.encode, ElementsKind.bits, elementValue, elementBits,
      operandBits_word8, operandBits_word16, operandBits_word32, operandBits_word64,
      convert_Int8, convert_Uint8, convert_Int16, convert_Uint16,
      convert_Int32, convert_Uint32, convert_BigInt64, convert_BigUint64,
      Memory.read_lt_1, Memory.read_lt_2, Memory.read_lt_4, Memory.read_lt_8]

theorem AtomicsExchange_ok
    (Is64 : Bool) (kind : ElementsKind) (index value : JSValue) (s : State)
    (i : Nat) (v : Int) (hk : kind.isInteger = true) (hnd : s.heap.was_detached = false)
    (hi : index.toInteger.result = .value (i : Int)) (hlt : i < s.heap.length)
    (hd : detaches index.toInteger.effects = false)
    (hv : (kind.coercion value).result = .value v)
    (hvd : detaches (kind.coercion value).effects = false) :
    AtomicsExchange Is64 (.JSTypedArray kind) index value s =
      (.returned (kind.tag (elementValue Is64 kind i s)),
       { heap := applyEffects (kind.coercion value).effects
           (applyEffects index.toInteger.effects s.heap)
         memory := s.memory.write (elementAddress Is64 s.heap kind i) kind.bytes (kind.encode v)
         trace := s.trace ++ [Event.ToIndex index, kind.coercionEvent value,
           Event.CSA_ASSERT true,
           Event.CSA_ASSERT (decide (i < (applyEffects (kind.coercion value).effects
             (applyEffects index.toInteger.effects s.heap)).length)),
           Event.atomic kind.bytes (elementAddress Is64 s.heap kind i)] }) := by
  have hneg : ¬ ((i : Int) < 0) := by omega
  cases kind <;> simp [ElementsKind.isInteger] at hk <;>
    simp [ElementsKind.coercion, ElementsKind.isBigInt] at hv hvd <;>
    simp [AtomicsExchange, AtomicExchange, AtomicReadModifyWrite, hv, hvd, ValidateIntegerTypedArray, ValidateAtomicAccess, ToIndex, hi, hlt,
      ToInteger_Inline, ToBigInt, DebugSanityCheckAtomicIndex,
      IsDetachedBuffer, hnd, hd, LoadJSTypedArrayLength, State.afterCoercion, ElementsKind.code,
      FLOAT32_ELEMENTS, UINT8_CLAMPED_ELEMENTS, Switch, INT8_ELEMENTS, UINT8_ELEMENTS,
      INT16_ELEMENTS, UINT16_ELEMENTS, INT32_ELEMENTS, UINT32_ELEMENTS, BIGINT64_ELEMENTS,
      BIGUINT64_ELEMENTS, Return, MachineType.bytes, ElementsKind.bytes,
      RawPtrAdd_RawPtrAdd, WordShl, elementAddress, hneg, ElementsKind.tag,
      ElementsKind.isBigInt, ElementsKind.coercion, ElementsKind.coercionEvent,
      ElementsKind.encode, ElementsKind.bits, elementValue, elementBits,
      operandBits_word8, operandBits_word16, operandBits_word32, operandBits_word64,
      convert_Int8, convert_Uint8, convert_Int16, convert_Uint16,
      convert_Int32, convert_Uint32, convert_BigInt64, convert_BigUint64,
      Memory.read_lt_1, Memory.read_lt_2, Memory.read_lt_4, Memory.read_lt_8]

theorem AtomicsCompareExchange_ok
    (Is64 : Bool) (kind : ElementsKind) (index old_value new_value : JSValue) (s : State)
    (i : Nat) (e r : Int) (hk : kind.isInteger = true) (hnd : s.heap.was_detached = false)
    (hi : index.toInteger.result = .value (i : Int)) (hlt : i < s.heap.length)
    (hd : detaches index.toInteger.effects = false)
    (he : (kind.coercion old_value).result = .value e)
    (hed : detaches (kind.coercion old_value).effects = false)
    (hr : (kind.coercion new_value).result = .value r)
    (hrd : detaches (kind.coercion new_value).effects = false) :
    AtomicsCompareExchange Is64 (.JSTypedArray kind) index old_value new_value s =
      (.returned (kind.tag (elementValue Is64 kind i s)),
       { heap := applyEffects (kind.coercion new_value).effects
           (applyEffects (kind.coercion old_value).effects
             (applyEffects index.toInteger.effects s.heap))
         memory :=
           if elementBits Is64 kind i s = kind.encode e
           then s.memory.write (elementAddress Is64 s.heap kind i) kind.bytes (kind.encode r)
           else s.memory
         trace := s.trace ++ [Event.ToIndex index, kind.coercionEvent old_value,
           kind.coercionEvent new_value,
           Event.CSA_ASSERT true,
           Event.CSA_ASSERT (decide (i < (applyEffects (kind.coercion new_value).effects
             (applyEffects (kind.coercion old_value).effects
               (applyEffects index.toInteger.effects s.heap))).length)),
           Event.atomic kind.bytes (elementAddress Is64 s.heap kind i)] }) := by
  have hneg : ¬ ((i : Int) < 0) := by omega
  cases kind <;> simp [ElementsKind.isInteger] at hk <;>
    simp [ElementsKind.coercion, ElementsKind.isBigInt] at he hed hr hrd <;>
    simp [AtomicsCompareExchange, AtomicCompareExchange, he, hed, hr, hrd, ValidateIntegerTypedArray, ValidateAtomicAccess, ToIndex, hi, hlt,
      ToInteger_Inline, ToBigInt, DebugSanityCheckAtomicIndex,
      IsDetachedBuffer, hnd, hd, LoadJSTypedArrayLength, State.afterCoercion, ElementsKind.code,
      FLOAT32_ELEMENTS, UINT8_CLAMPED_ELEMENTS, Switch, INT8_ELEMENTS, UINT8_ELEMENTS,
      INT16_ELEMENTS, UINT16_ELEMENTS, INT32_ELEMENTS, UINT32_ELEMENTS, BIGINT64_ELEMENTS,
      BIGUINT64_ELEMENTS, Return, MachineType.bytes, ElementsKind.bytes,
      RawPtrAdd_RawPtrAdd, WordShl, elementAddress, hneg, ElementsKind.tag,
      ElementsKind.isBigInt, ElementsKind.coercion, ElementsKind.coercionEvent,
      ElementsKind.encode, ElementsKind.bits, elementValue, elementBits,
      operandBits_word8, operandBits_word16, operandBits_word32, operandBits_word64,
      convert_Int8, convert_Uint8, convert_Int16, convert_Uint16,
      convert_Int32, convert_Uint32, convert_BigInt64, convert_BigUint64,
      Memory.read_lt_1, Memory.read_lt_2, Memory.read_lt_4, Memory.read_lt_8]

/-! ## The builtins follow the common pipeline -/

theorem AtomicsLoad_eq_pipeline (Is64 : Bool) (maybe_array : JSObject) (index : JSValue)
    (s : State) :
    AtomicsLoad Is64 maybe_array index s
      = pipeline "Atomics.load" [] (executeLoad Is64) maybe_array index s := by
  cases maybe_array with
  | Smi n => rfl
  | HeapObject => rfl
  | JSTypedArray kind =>
    by_cases hdet : s.heap.was_detached = true
    · cases kind <;> simp [AtomicsLoad, hdet, pipeline, coerceAll,
        ValidateIntegerTypedArray, ValidateAtomicAccess, ToIndex,
        ToInteger_Inline, ToBigInt, DebugSanityCheckAtomicIndex,
        IsDetachedBuffer, LoadJSTypedArrayLength, State.afterCoercion, ElementsKind.code,
        FLOAT32_ELEMENTS, UINT8_CLAMPED_ELEMENTS, INT32_ELEMENTS, ElementsKind.isInteger,
        ElementsKind.isBigInt, ElementsKind.coercion, ElementsKind.coercionEvent]
    by_cases hint : kind.isInteger = false
    · cases kind <;> simp [ElementsKind.isInteger] at hint <;>
        simp [AtomicsLoad, hdet, pipeline, coerceAll,
        ValidateIntegerTypedArray, ValidateAtomicAccess, ToIndex,
        ToInteger_Inline, ToBigInt, DebugSanityCheckAtomicIndex,
        IsDetachedBuffer, LoadJSTypedArrayLength, State.afterCoercion, ElementsKind.code,
        FLOAT32_ELEMENTS, UINT8_CLAMPED_ELEMENTS, INT32_ELEMENTS, ElementsKind.isInteger,
        ElementsKind.isBigInt, ElementsKind.coercion, ElementsKind.coercionEvent]
    cases hres : index.toInteger.result with
    | exception e => cases kind <;> simp [AtomicsLoad, hdet, hres, pipeline, coerceAll,
        ValidateIntegerTypedArray, ValidateAtomicAccess, ToIndex,
        ToInteger_Inline, ToBigInt, DebugSanityCheckAtomicIndex,
        IsDetachedBuffer, LoadJSTypedArrayLength, State.afterCoercion, ElementsKind.code,
        FLOAT32_ELEMENTS, UINT8_CLAMPED_ELEMENTS, INT32_ELEMENTS, ElementsKind.isInteger,
        ElementsKind.isBigInt, ElementsKind.coercion, ElementsKind.coercionEvent]
    | value z =>
      by_cases hneg : z < 0
      · cases kind <;> simp [AtomicsLoad, hdet, hres, hneg, pipeline, coerceAll,
        ValidateIntegerTypedArray, ValidateAtomicAccess, ToIndex,
        ToInteger_Inline, ToBigInt, DebugSanityCheckAtomicIndex,
        IsDetachedBuffer, LoadJSTypedArrayLength, State.afterCoercion, ElementsKind.code,
        FLOAT32_ELEMENTS, UINT8_CLAMPED_ELEMENTS, INT32_ELEMENTS, ElementsKind.isInteger,
        ElementsKind.isBigInt, ElementsKind.coercion, ElementsKind.coercionEvent]
      by_cases hlen : z.toNat < s.heap.length
      swap
      · have hlen1 : s.heap.length ≤ z.toNat := by omega
        cases kind <;> simp [AtomicsLoad, hdet, hres, hneg, hlen, hlen1, pipeline, coerceAll,
        ValidateIntegerTypedArray, ValidateAtomicAccess, ToIndex,
        ToInteger_Inline, ToBigInt, DebugSanityCheckAtomicIndex,
        IsDetachedBuffer, LoadJSTypedArrayLength, State.afterCoercion, ElementsKind.code,
        FLOAT32_ELEMENTS, UINT8_CLAMPED_ELEMENTS, INT32_ELEMENTS, ElementsKind.isInteger,
        ElementsKind.isBigInt, ElementsKind.coercion, ElementsKind.coercionEvent]
      have hlen2 : ¬ s.heap.length ≤ z.toNat := by omega
      by_cases hd : detaches index.toInteger.effects = true
      · cases kind <;> simp [ElementsKind.coercion, ElementsKind.isBigInt] at hint <;>
          simp [AtomicsLoad, hdet, hres, hneg, hlen, hlen2, hd, pipeline, coerceAll,
        ValidateIntegerTypedArray, ValidateAtomicAccess, ToIndex,
        ToInteger_Inline, ToBigInt, DebugSanityCheckAtomicIndex,
        IsDetachedBuffer, LoadJSTypedArrayLength, State.afterCoercion, ElementsKind.code,
        FLOAT32_ELEMENTS, UINT8_CLAMPED_ELEMENTS, INT32_ELEMENTS, ElementsKind.isInteger,
        ElementsKind.isBigInt, ElementsKind.coercion, ElementsKind.coercionEvent]
      obtain ⟨i, rfl⟩ := Int.eq_ofNat_of_zero_le (by omega : 0 ≤ z)
      simp only [Int.toNat_ofNat] at hlen hlen2
      rw [AtomicsLoad_ok Is64 kind index  s i  (by simpa using hint)
        (by simpa using hdet) hres hlen (by simpa using hd) ]
      simp [pipeline, hint, hdet, hres, hneg, hlen, hlen2, hd, coerceAll,
        State.afterCoercion, executeLoad, accessEvent, State.withView, DebugSanityCheckAtomicIndex, elementValue, elementBits,
        IsDetachedBuffer, LoadJSTypedArrayLength]

theorem AtomicsStore_eq_pipeline (Is64 : Bool) (maybe_array : JSObject) (index value : JSValue)
    (s : State) :
    AtomicsStore Is64 maybe_array index value s
      = pipeline "Atomics.store" [value] (executeStore Is64) maybe_array index s := by
  cases maybe_array with
  | Smi n => rfl
  | HeapObject => rfl
  | JSTypedArray kind =>
    by_cases hdet : s.heap.was_detached = true
    · cases kind <;> simp [AtomicsStore, hdet, pipeline, coerceAll,
        ValidateIntegerTypedArray, ValidateAtomicAccess, ToIndex,
        ToInteger_Inline, ToBigInt, DebugSanityCheckAtomicIndex,
        IsDetachedBuffer, LoadJSTypedArrayLength, State.afterCoercion, ElementsKind.code,
        FLOAT32_ELEMENTS, UINT8_CLAMPED_ELEMENTS, INT32_ELEMENTS, ElementsKind.isInteger,
        ElementsKind.isBigInt, ElementsKind.coercion, ElementsKind.coercionEvent]
    by_cases hint : kind.isInteger = false
    · cases kind <;> simp [ElementsKind.isInteger] at hint <;>
        simp [AtomicsStore, hdet, pipeline, coerceAll,
        ValidateIntegerTypedArray, ValidateAtomicAccess, ToIndex,
        ToInteger_Inline, ToBigInt, DebugSanityCheckAtomicIndex,
        IsDetachedBuffer, LoadJSTypedArrayLength, State.afterCoercion, ElementsKind.code,
        FLOAT32_ELEMENTS, UINT8_CLAMPED_ELEMENTS, INT32_ELEMENTS, ElementsKind.isInteger,
        ElementsKind.isBigInt, ElementsKind.coercion, ElementsKind.coercionEvent]
    cases hres : index.toInteger.result with
    | exception e => cases kind <;> simp [AtomicsStore, hdet, hres, pipeline, coerceAll,
        ValidateIntegerTypedArray, ValidateAtomicAccess, ToIndex,
        ToInteger_Inline, ToBigInt, DebugSanityCheckAtomicIndex,
        IsDetachedBuffer, LoadJSTypedArrayLength, State.afterCoercion, ElementsKind.code,
        FLOAT32_ELEMENTS, UINT8_CLAMPED_ELEMENTS, INT32_ELEMENTS, ElementsKind.isInteger,
        ElementsKind.isBigInt, ElementsKind.coercion, ElementsKind.coercionEvent]
    | value z =>
      by_cases hneg : z < 0
      · cases kind <;> simp [AtomicsStore, hdet, hres, hneg, pipeline, coerceAll,
        ValidateIntegerTypedArray, ValidateAtomicAccess, ToIndex,
        ToInteger_Inline, ToBigInt, DebugSanityCheckAtomicIndex,
        IsDetachedBuffer, LoadJSTypedArrayLength, State.afterCoercion, ElementsKind.code,
        FLOAT32_ELEMENTS, UINT8_CLAMPED_ELEMENTS, INT32_ELEMENTS, ElementsKind.isInteger,
        ElementsKind.isBigInt, ElementsKind.coercion, ElementsKind.coercionEvent]
      by_cases hlen : z.toNat < s.heap.length
      swap
      · have hlen1 : s.heap.length ≤ z.toNat := by omega
        cases kind <;> simp [AtomicsStore, hdet, hres, hneg, hlen, hlen1, pipeline, coerceAll,
        ValidateIntegerTypedArray, ValidateAtomicAccess, ToIndex,
        ToInteger_Inline, ToBigInt, DebugSanityCheckAtomicIndex,
        IsDetachedBuffer, LoadJSTypedArrayLength, State.afterCoercion, ElementsKind.code,
        FLOAT32_ELEMENTS, UINT8_CLAMPED_ELEMENTS, INT32_ELEMENTS, ElementsKind.isInteger,
        ElementsKind.isBigInt, ElementsKind.coercion, ElementsKind.coercionEvent]
      have hlen2 : ¬ s.heap.length ≤ z.toNat := by omega
      cases hv0 : (kind.coercion value).result with
      | exception e =>
        cases kind <;> simp [ElementsKind.coercion, ElementsKind.isBigInt] at hv0 <;>
          simp [AtomicsStore, hdet, hres, hneg, hlen, hlen2, hv0, pipeline, coerceAll,
        ValidateIntegerTypedArray, ValidateAtomicAccess, ToIndex,
        ToInteger_Inline, ToBigInt, DebugSanityCheckAtomicIndex,
        IsDetachedBuffer, LoadJSTypedArrayLength, State.afterCoercion, ElementsKind.code,
        FLOAT32_ELEMENTS, UINT8_CLAMPED_ELEMENTS, INT32_ELEMENTS, ElementsKind.isInteger,
        ElementsKind.isBigInt, ElementsKind.coercion, ElementsKind.coercionEvent]
      | value v0 =>
        by_cases hd : detaches index.toInteger.effects = true
        · cases kind <;> simp [ElementsKind.coercion, ElementsKind.isBigInt] at hv0 <;>
            simp [AtomicsStore, hdet, hres, hneg, hlen, hlen2, hv0, hd, pipeline, coerceAll,
        ValidateIntegerTypedArray, ValidateAtomicAccess, ToIndex,
        ToInteger_Inline, ToBigInt, DebugSanityCheckAtomicIndex,
        IsDetachedBuffer, LoadJSTypedArrayLength, State.afterCoercion, ElementsKind.code,
        FLOAT32_ELEMENTS, UINT8_CLAMPED_ELEMENTS, INT32_ELEMENTS, ElementsKind.isInteger,
        ElementsKind.isBigInt, ElementsKind.coercion, ElementsKind.coercionEvent]
        by_cases hd0 : detaches (kind.coercion value).effects = true
        · cases kind <;> simp [ElementsKind.coercion, ElementsKind.isBigInt] at hv0 hd0 <;>
            simp [AtomicsStore, hdet, hres, hneg, hlen, hlen2, hv0, hd, hd0, pipeline, coerceAll,
        ValidateIntegerTypedArray, ValidateAtomicAccess, ToIndex,
        ToInteger_Inline, ToBigInt, DebugSanityCheckAtomicIndex,
        IsDetachedBuffer, LoadJSTypedArrayLength, State.afterCoercion, ElementsKind.code,
        FLOAT32_ELEMENTS, UINT8_CLAMPED_ELEMENTS, INT32_ELEMENTS, ElementsKind.isInteger,
        ElementsKind.isBigInt, ElementsKind.coercion, ElementsKind.coercionEvent]
        obtain ⟨i, rfl⟩ := Int.eq_ofNat_of_zero_le (by omega : 0 ≤ z)
        simp only [Int.toNat_ofNat] at hlen hlen2
        rw [AtomicsStore_ok Is64 kind index value s i v0 (by simpa using hint)
          (by simpa using hdet) hres hlen (by simpa using hd) hv0 (by simpa using hd0)]
        simp [pipeline, hint, hdet, hres, hneg, hlen, hlen2, hv0, hd, hd0, coerceAll,
          State.afterCoercion, executeStore, accessEvent, State.withView, DebugSanityCheckAtomicIndex, elementValue, elementBits,
          IsDetachedBuffer, LoadJSTypedArrayLength]

theorem AtomicsExchange_eq_pipeline (Is64 : Bool) (maybe_array : JSObject)
    (index value : JSValue) (s : State) :
    AtomicsExchange Is64 maybe_array index value s
      = pipeline "Atomics.exchange" [value] (executeReadModifyWrite (fun _ _ v => v) Is64)
          maybe_array index s := by
  cases maybe_array with
  | Smi n => rfl
  | HeapObject => rfl
  | JSTypedArray kind =>
    by_cases hdet : s.heap.was_detached = true
    · cases kind <;> simp [AtomicsExchange, hdet, pipeline, coerceAll,
        ValidateIntegerTypedArray, ValidateAtomicAccess, ToIndex,
        ToInteger_Inline, ToBigInt, DebugSanityCheckAtomicIndex,
        IsDetachedBuffer, LoadJSTypedArrayLength, State.afterCoercion, ElementsKind.code,
        FLOAT32_ELEMENTS, UINT8_CLAMPED_ELEMENTS, INT32_ELEMENTS, ElementsKind.isInteger,
        ElementsKind.isBigInt, ElementsKind.coercion, ElementsKind.coercionEvent]
    by_cases hint : kind.isInteger = false
    · cases kind <;> simp [ElementsKind.isInteger] at hint <;>
        simp [AtomicsExchange, hdet, pipeline, coerceAll,
        ValidateIntegerTypedArray, ValidateAtomicAccess, ToIndex,
        ToInteger_Inline, ToBigInt, DebugSanityCheckAtomicIndex,
        IsDetachedBuffer, LoadJSTypedArrayLength, State.afterCoercion, ElementsKind.code,
        FLOAT32_ELEMENTS, UINT8_CLAMPED_ELEMENTS, INT32_ELEMENTS, ElementsKind.isInteger,
        ElementsKind.isBigInt, ElementsKind.coercion, ElementsKind.coercionEvent]
    cases hres : index.toInteger.result with
    | exception e => cases kind <;> simp [AtomicsExchange, hdet, hres, pipeline, coerceAll,
        ValidateIntegerTypedArray, ValidateAtomicAccess, ToIndex,
        ToInteger_Inline, ToBigInt, DebugSanityCheckAtomicIndex,
        IsDetachedBuffer, LoadJSTypedArrayLength, State.afterCoercion, ElementsKind.code,
        FLOAT32_ELEMENTS, UINT8_CLAMPED_ELEMENTS, INT32_ELEMENTS, ElementsKind.isInteger,
        ElementsKind.isBigInt, ElementsKind.coercion, ElementsKind.coercionEvent]
    | value z =>
      by_cases hneg : z < 0
      · cases kind <;> simp [AtomicsExchange, hdet, hres, hneg, pipeline, coerceAll,
        ValidateIntegerTypedArray, ValidateAtomicAccess, ToIndex,
        ToInteger_Inline, ToBigInt, DebugSanityCheckAtomicIndex,
        IsDetachedBuffer, LoadJSTypedArrayLength, State.afterCoercion, ElementsKind.code,
        FLOAT32_ELEMENTS, UINT8_CLAMPED_ELEMENTS, INT32_ELEMENTS, ElementsKind.isInteger,
        ElementsKind.isBigInt, ElementsKind.coercion, ElementsKind.coercionEvent]
      by_cases hlen : z.toNat < s.heap.length
      swap
      · have hlen1 : s.heap.length ≤ z.toNat := by omega
        cases kind <;> simp [AtomicsExchange, hdet, hres, hneg, hlen, hlen1, pipeline, coerceAll,
        ValidateIntegerTypedArray, ValidateAtomicAccess, ToIndex,
        ToInteger_Inline, ToBigInt, DebugSanityCheckAtomicIndex,
        IsDetachedBuffer, LoadJSTypedArrayLength, State.afterCoercion, ElementsKind.code,
        FLOAT32_ELEMENTS, UINT8_CLAMPED_ELEMENTS, INT32_ELEMENTS, ElementsKind.isInteger,
        ElementsKind.isBigInt, ElementsKind.coercion, ElementsKind.coercionEvent]
      have hlen2 : ¬ s.heap.length ≤ z.toNat := by omega
      cases hv0 : (kind.coercion value).result with
      | exception e =>
        cases kind <;> simp [ElementsKind.coercion, ElementsKind.isBigInt] at hv0 <;>
          simp [AtomicsExchange, hdet, hres, hneg, hlen, hlen2, hv0, pipeline, coerceAll,
        ValidateIntegerTypedArray, ValidateAtomicAccess, ToIndex,
        ToInteger_Inline, ToBigInt, DebugSanityCheckAtomicIndex,
        IsDetachedBuffer, LoadJSTypedArrayLength, State.afterCoercion, ElementsKind.code,
        FLOAT32_ELEMENTS, UINT8_CLAMPED_ELEMENTS, INT32_ELEMENTS, ElementsKind.isInteger,
        ElementsKind.isBigInt, ElementsKind.coercion, ElementsKind.coercionEvent]
      | value v0 =>
        by_cases hd : detaches index.toInteger.effects = true
        · cases kind <;> simp [ElementsKind.coercion, ElementsKind.isBigInt] at hv0 <;>
            simp [AtomicsExchange, hdet, hres, hneg, hlen, hlen2, hv0, hd, pipeline, coerceAll,
        ValidateIntegerTypedArray, ValidateAtomicAccess, ToIndex,
        ToInteger_Inline, ToBigInt, DebugSanityCheckAtomicIndex,
        IsDetachedBuffer, LoadJSTypedArrayLength, State.afterCoercion, ElementsKind.code,
        FLOAT32_ELEMENTS, UINT8_CLAMPED_ELEMENTS, INT32_ELEMENTS, ElementsKind.isInteger,
        ElementsKind.isBigInt, ElementsKind.coercion, ElementsKind.coercionEvent]
        by_cases hd0 : detaches (kind.coercion value).effects = true
        · cases kind <;> simp [ElementsKind.coercion, ElementsKind.isBigInt] at hv0 hd0 <;>
            simp [AtomicsExchange, hdet, hres, hneg, hlen, hlen2, hv0, hd, hd0, pipeline, coerceAll,
        ValidateIntegerTypedArray, ValidateAtomicAccess, ToIndex,
        ToInteger_Inline, ToBigInt, DebugSanityCheckAtomicIndex,
        IsDetachedBuffer, LoadJSTypedArrayLength, State.afterCoercion, ElementsKind.code,
        FLOAT32_ELEMENTS, UINT8_CLAMPED_ELEMENTS, INT32_ELEMENTS, ElementsKind.isInteger,
        ElementsKind.isBigInt, ElementsKind.coercion, ElementsKind.coercionEvent]
        obtain ⟨i, rfl⟩ := Int.eq_ofNat_of_zero_le (by omega : 0 ≤ z)
        simp only [Int.toNat_ofNat] at hlen hlen2
        rw [AtomicsExchange_ok Is64 kind index value s i v0 (by simpa using hint)
          (by simpa using hdet) hres hlen (by simpa using hd) hv0 (by simpa using hd0)]
        simp [pipeline, hint, hdet, hres, hneg, hlen, hlen2, hv0, hd, hd0, coerceAll,
          State.afterCoercion, executeReadModifyWrite, accessEvent, State.withView, DebugSanityCheckAtomicIndex, elementValue, elementBits,
          IsDetachedBuffer, LoadJSTypedArrayLength]

theorem AtomicsCompareExchange_eq_pipeline (Is64 : Bool) (maybe_array : JSObject)
    (index old_value new_value : JSValue) (s : State) :
    AtomicsCompareExchange Is64 maybe_array index old_value new_value s
      = pipeline "Atomics.store" [old_value, new_value] (executeCompareExchange Is64)
          maybe_array index s := by
  cases maybe_array with
  | Smi n => rfl
  | HeapObject => rfl
  | JSTypedArray kind =>
    by_cases hdet : s.heap.was_detached = true
    · cases kind <;> simp [AtomicsCompareExchange, hdet, pipeline, coerceAll,
        ValidateIntegerTypedArray, ValidateAtomicAccess, ToIndex,
        ToInteger_Inline, ToBigInt, DebugSanityCheckAtomicIndex,
        IsDetachedBuffer, LoadJSTypedArrayLength, State.afterCoercion, ElementsKind.code,
        FLOAT32_ELEMENTS, UINT8_CLAMPED_ELEMENTS, INT32_ELEMENTS, ElementsKind.isInteger,
        ElementsKind.isBigInt, ElementsKind.coercion, ElementsKind.coercionEvent]
    by_cases hint : kind.isInteger = false
    · cases kind <;> simp [ElementsKind.isInteger] at hint <;>
        simp [AtomicsCompareExchange, hdet, pipeline, coerceAll,
        ValidateIntegerTypedArray, ValidateAtomicAccess, ToIndex,
        ToInteger_Inline, ToBigInt, DebugSanityCheckAtomicIndex,
        IsDetachedBuffer, LoadJSTypedArrayLength, State.afterCoercion, ElementsKind.code,
        FLOAT32_ELEMENTS, UINT8_CLAMPED_ELEMENTS, INT32_ELEMENTS, ElementsKind.isInteger,
        ElementsKind.isBigInt, ElementsKind.coercion, ElementsKind.coercionEvent]
    cases hres : index.toInteger.result with
    | exception e => cases kind <;> simp [AtomicsCompareExchange, hdet, hres, pipeline, coerceAll,
        ValidateIntegerTypedArray, ValidateAtomicAccess, ToIndex,
        ToInteger_Inline, ToBigInt, DebugSanityCheckAtomicIndex,
        IsDetachedBuffer, LoadJSTypedArrayLength, State.afterCoercion, ElementsKind.code,
        FLOAT32_ELEMENTS, UINT8_CLAMPED_ELEMENTS, INT32_ELEMENTS, ElementsKind.isInteger,
        ElementsKind.isBigInt, ElementsKind.coercion, ElementsKind.coercionEvent]
    | value z =>
      by_cases hneg : z < 0
      · cases kind <;> simp [AtomicsCompareExchange, hdet, hres, hneg, pipeline, coerceAll,
        ValidateIntegerTypedArray, ValidateAtomicAccess, ToIndex,
        ToInteger_Inline, ToBigInt, DebugSanityCheckAtomicIndex,
        IsDetachedBuffer, LoadJSTypedArrayLength, State.afterCoercion, ElementsKind.code,
        FLOAT32_ELEMENTS, UINT8_CLAMPED_ELEMENTS, INT32_ELEMENTS, ElementsKind.isInteger,
        ElementsKind.isBigInt, ElementsKind.coercion, ElementsKind.coercionEvent]
      by_cases hlen : z.toNat < s.heap.length
      swap
      · have hlen1 : s.heap.length ≤ z.toNat := by omega
        cases kind <;> simp [AtomicsCompareExchange, hdet, hres, hneg, hlen, hlen1, pipeline, coerceAll,
        ValidateIntegerTypedArray, ValidateAtomicAccess, ToIndex,
        ToInteger_Inline, ToBigInt, DebugSanityCheckAtomicIndex,
        IsDetachedBuffer, LoadJSTypedArrayLength, State.afterCoercion, ElementsKind.code,
        FLOAT32_ELEMENTS, UINT8_CLAMPED_ELEMENTS, INT32_ELEMENTS, ElementsKind.isInteger,
        ElementsKind.isBigInt, ElementsKind.coercion, ElementsKind.coercionEvent]
      have hlen2 : ¬ s.heap.length ≤ z.toNat := by omega
      cases hv0 : (kind.coercion old_value).result with
      | exception e =>
        cases kind <;> simp [ElementsKind.coercion, ElementsKind.isBigInt] at hv0 <;>
          simp [AtomicsCompareExchange, hdet, hres, hneg, hlen, hlen2, hv0, pipeline, coerceAll,
        ValidateIntegerTypedArray, ValidateAtomicAccess, ToIndex,
        ToInteger_Inline, ToBigInt, DebugSanityCheckAtomicIndex,
        IsDetachedBuffer, LoadJSTypedArrayLength, State.afterCoercion, ElementsKind.code,
        FLOAT32_ELEMENTS, UINT8_CLAMPED_ELEMENTS, INT32_ELEMENTS, ElementsKind.isInteger,
        ElementsKind.isBigInt, ElementsKind.coercion, ElementsKind.coercionEvent]
      | value v0 =>
        cases hv1 : (kind.coercion new_value).result with
        | exception e =>
          cases kind <;> simp [ElementsKind.coercion, ElementsKind.isBigInt] at hv0 hv1 <;>
            simp [AtomicsCompareExchange, hdet, hres, hneg, hlen, hlen2, hv0, hv1, pipeline, coerceAll,
        ValidateIntegerTypedArray, ValidateAtomicAccess, ToIndex,
        ToInteger_Inline, ToBigInt, DebugSanityCheckAtomicIndex,
        IsDetachedBuffer, LoadJSTypedArrayLength, State.afterCoercion, ElementsKind.code,
        FLOAT32_ELEMENTS, UINT8_CLAMPED_ELEMENTS, INT32_ELEMENTS, ElementsKind.isInteger,
        ElementsKind.isBigInt, ElementsKind.coercion, ElementsKind.coercionEvent]
        | value v1 =>
          by_cases hd : detaches index.toInteger.effects = true
          · cases kind <;> simp [ElementsKind.coercion, ElementsKind.isBigInt] at hv0 hv1 <;>
              simp [AtomicsCompareExchange, hdet, hres, hneg, hlen, hlen2, hv0, hv1, hd, pipeline, coerceAll,
        ValidateIntegerTypedArray, ValidateAtomicAccess, ToIndex,
        ToInteger_Inline, ToBigInt, DebugSanityCheckAtomicIndex,
        IsDetachedBuffer, LoadJSTypedArrayLength, State.afterCoercion, ElementsKind.code,
        FLOAT32_ELEMENTS, UINT8_CLAMPED_ELEMENTS, INT32_ELEMENTS, ElementsKind.isInteger,
        ElementsKind.isBigInt, ElementsKind.coercion, ElementsKind.coercionEvent]
          by_cases hd0 : detaches (kind.coercion old_value).effects = true
          · cases kind <;> simp [ElementsKind.coercion, ElementsKind.isBigInt] at hv0 hv1 hd0 <;>
              simp [AtomicsCompareExchange, hdet, hres, hneg, hlen, hlen2, hv0, hv1, hd, hd0, pipeline, coerceAll,
        ValidateIntegerTypedArray, ValidateAtomicAccess, ToIndex,
        ToInteger_Inline, ToBigInt, DebugSanityCheckAtomicIndex,
        IsDetachedBuffer, LoadJSTypedArrayLength, State.afterCoercion, ElementsKind.code,
        FLOAT32_ELEMENTS, UINT8_CLAMPED_ELEMENTS, INT32_ELEMENTS, ElementsKind.isInteger,
        ElementsKind.isBigInt, ElementsKind.coercion, ElementsKind.coercionEvent]
          by_cases hd1 : detaches (kind.coercion new_value).effects = true
          · cases kind <;> simp [ElementsKind.coercion, ElementsKind.isBigInt] at hv0 hv1 hd0 hd1 <;>
              simp [AtomicsCompareExchange, hdet, hres, hneg, hlen, hlen2, hv0, hv1, hd, hd0, hd1, pipeline, coerceAll,
        ValidateIntegerTypedArray, ValidateAtomicAccess, ToIndex,
        ToInteger_Inline, ToBigInt, DebugSanityCheckAtomicIndex,
        IsDetachedBuffer, LoadJSTypedArrayLength, State.afterCoercion, ElementsKind.code,
        FLOAT32_ELEMENTS, UINT8_CLAMPED_ELEMENTS, INT32_ELEMENTS, ElementsKind.isInteger,
        ElementsKind.isBigInt, ElementsKind.coercion, ElementsKind.coercionEvent]
          obtain ⟨i, rfl⟩ := Int.eq_ofNat_of_zero_le (by omega : 0 ≤ z)
          simp only [Int.toNat_ofNat] at hlen hlen2
          rw [AtomicsCompareExchange_ok Is64 kind index old_value new_value s i v0 v1 (by simpa using hint)
            (by simpa using hdet) hres hlen (by simpa using hd) hv0 (by simpa using hd0) hv1 (by simpa using hd1)]
          simp [pipeline, hint, hdet, hres, hneg, hlen, hlen2, hv0, hv1, hd, hd0, hd1, coerceAll,
            State.afterCoercion, executeCompareExchange, accessEvent, State.withView, DebugSanityCheckAtomicIndex, elementValue, elementBits,
            IsDetachedBuffer, LoadJSTypedArrayLength]

theorem AtomicBinopBuiltinCommon_eq_pipeline (f : Nat → Nat → Nat → Nat) (method_name : String)
    (Is64 : Bool) (maybe_array : JSObject) (index value : JSValue) (s : State) :
    AtomicBinopBuiltinCommon Is64 maybe_array index value (AtomicReadModifyWrite f)
        method_name s
      = pipeline method_name [value] (executeReadModifyWrite f Is64) maybe_array index s := by
  cases maybe_array with
  | Smi n => rfl
  | HeapObject => rfl
  | JSTypedArray kind =>
    by_cases hdet : s.heap.was_detached = true
    · cases kind <;> simp [AtomicBinopBuiltinCommon, hdet, pipeline, coerceAll,
        ValidateIntegerTypedArray, ValidateAtomicAccess, ToIndex,
        ToInteger_Inline, ToBigInt, DebugSanityCheckAtomicIndex,
        IsDetachedBuffer, LoadJSTypedArrayLength, State.afterCoercion, ElementsKind.code,
        FLOAT32_ELEMENTS, UINT8_CLAMPED_ELEMENTS, INT32_ELEMENTS, ElementsKind.isInteger,
        ElementsKind.isBigInt, ElementsKind.coercion, ElementsKind.coercionEvent]
    by_cases hint : kind.isInteger = false
    · cases kind <;> simp [ElementsKind.isInteger] at hint <;>
        simp [AtomicBinopBuiltinCommon, hdet, pipeline, coerceAll,
        ValidateIntegerTypedArray, ValidateAtomicAccess, ToIndex,
        ToInteger_Inline, ToBigInt, DebugSanityCheckAtomicIndex,
        IsDetachedBuffer, LoadJSTypedArrayLength, State.afterCoercion, ElementsKind.code,
        FLOAT32_ELEMENTS, UINT8_CLAMPED_ELEMENTS, INT32_ELEMENTS, ElementsKind.isInteger,
        ElementsKind.isBigInt, ElementsKind.coercion, ElementsKind.coercionEvent]
    cases hres : index.toInteger.result with
    | exception e => cases kind <;> simp [AtomicBinopBuiltinCommon, hdet, hres, pipeline, coerceAll,
        ValidateIntegerTypedArray, ValidateAtomicAccess, ToIndex,
        ToInteger_Inline, ToBigInt, DebugSanityCheckAtomicIndex,
        IsDetachedBuffer, LoadJSTypedArrayLength, State.afterCoercion, ElementsKind.code,
        FLOAT32_ELEMENTS, UINT8_CLAMPED_ELEMENTS, INT32_ELEMENTS, ElementsKind.isInteger,
        ElementsKind.isBigInt, ElementsKind.coercion, ElementsKind.coercionEvent]
    | value z =>
      by_cases hneg : z < 0
      · cases kind <;> simp [AtomicBinopBuiltinCommon, hdet, hres, hneg, pipeline, coerceAll,
        ValidateIntegerTypedArray, ValidateAtomicAccess, ToIndex,
        ToInteger_Inline, ToBigInt, DebugSanityCheckAtomicIndex,
        IsDetachedBuffer, LoadJSTypedArrayLength, State.afterCoercion, ElementsKind.code,
        FLOAT32_ELEMENTS, UINT8_CLAMPED_ELEMENTS, INT32_ELEMENTS, ElementsKind.isInteger,
        ElementsKind.isBigInt, ElementsKind.coercion, ElementsKind.coercionEvent]
      by_cases hlen : z.toNat < s.heap.length
      swap
      · have hlen1 : s.heap.length ≤ z.toNat := by omega
        cases kind <;> simp [AtomicBinopBuiltinCommon, hdet, hres, hneg, hlen, hlen1, pipeline, coerceAll,
        ValidateIntegerTypedArray, ValidateAtomicAccess, ToIndex,
        ToInteger_Inline, ToBigInt, DebugSanityCheckAtomicIndex,
        IsDetachedBuffer, LoadJSTypedArrayLength, State.afterCoercion, ElementsKind.code,
        FLOAT32_ELEMENTS, UINT8_CLAMPED_ELEMENTS, INT32_ELEMENTS, ElementsKind.isInteger,
        ElementsKind.isBigInt, ElementsKind.coercion, ElementsKind.coercionEvent]
      have hlen2 : ¬ s.heap.length ≤ z.toNat := by omega
      cases hv0 : (kind.coercion value).result with
      | exception e =>
        cases kind <;> simp [ElementsKind.coercion, ElementsKind.isBigInt] at hv0 <;>
          simp [AtomicBinopBuiltinCommon, hdet, hres, hneg, hlen, hlen2, hv0, pipeline, coerceAll,
        ValidateIntegerTypedArray, ValidateAtomicAccess, ToIndex,
        ToInteger_Inline, ToBigInt, DebugSanityCheckAtomicIndex,
        IsDetachedBuffer, LoadJSTypedArrayLength, State.afterCoercion, ElementsKind.code,
        FLOAT32_ELEMENTS, UINT8_CLAMPED_ELEMENTS, INT32_ELEMENTS, ElementsKind.isInteger,
        ElementsKind.isBigInt, ElementsKind.coercion, ElementsKind.coercionEvent]
      | value v0 =>
        by_cases hd : detaches index.toInteger.effects = true
        · cases kind <;> simp [ElementsKind.coercion, ElementsKind.isBigInt] at hv0 <;>
            simp [AtomicBinopBuiltinCommon, hdet, hres, hneg, hlen, hlen2, hv0, hd, pipeline, coerceAll,
        ValidateIntegerTypedArray, ValidateAtomicAccess, ToIndex,
        ToInteger_Inline, ToBigInt, DebugSanityCheckAtomicIndex,
        IsDetachedBuffer, LoadJSTypedArrayLength, State.afterCoercion, ElementsKind.code,
        FLOAT32_ELEMENTS, UINT8_CLAMPED_ELEMENTS, INT32_ELEMENTS, ElementsKind.isInteger,
        ElementsKind.isBigInt, ElementsKind.coercion, ElementsKind.coercionEvent]
        by_cases hd0 : detaches (kind.coercion value).effects = true
        · cases kind <;> simp [ElementsKind.coercion, ElementsKind.isBigInt] at hv0 hd0 <;>
            simp [AtomicBinopBuiltinCommon, hdet, hres, hneg, hlen, hlen2, hv0, hd, hd0, pipeline, coerceAll,
        ValidateIntegerTypedArray, ValidateAtomicAccess, ToIndex,
        ToInteger_Inline, ToBigInt, DebugSanityCheckAtomicIndex,
        IsDetachedBuffer, LoadJSTypedArrayLength, State.afterCoercion, ElementsKind.code,
        FLOAT32_ELEMENTS, UINT8_CLAMPED_ELEMENTS, INT32_ELEMENTS, ElementsKind.isInteger,
        ElementsKind.isBigInt, ElementsKind.coercion, ElementsKind.coercionEvent]
        obtain ⟨i, rfl⟩ := Int.eq_ofNat_of_zero_le (by omega : 0 ≤ z)
        simp only [Int.toNat_ofNat] at hlen hlen2
        rw [AtomicBinopBuiltinCommon_ok f method_name Is64 kind index value s i v0 (by simpa using hint)
          (by simpa using hdet) hres hlen (by simpa using hd) hv0 (by simpa using hd0)]
        simp [pipeline, hint, hdet, hres, hneg, hlen, hlen2, hv0, hd, hd0, coerceAll,
          State.afterCoercion, executeReadModifyWrite, accessEvent, State.withView, DebugSanityCheckAtomicIndex, elementValue, elementBits,
          IsDetachedBuffer, LoadJSTypedArrayLength]

theorem Operation.run_eq_pipeline (Is64 : Bool) (op : Operation) (maybe_array : JSObject)
    (index value replacement : JSValue) (s : State) :
    op.run Is64 maybe_array index value replacement s
      = pipeline op.method_name (op.operands value replacement) (op.execute Is64)
          maybe_array index s := by
  cases op
  · exact AtomicsLoad_eq_pipeline Is64 maybe_array index s
  · exact AtomicsStore_eq_pipeline Is64 maybe_array index value s
  · exact AtomicsExchange_eq_pipeline Is64 maybe_array index value s
  · exact AtomicsCompareExchange_eq_pipeline Is64 maybe_array index value replacement s
  · exact AtomicBinopBuiltinCommon_eq_pipeline _ _ Is64 maybe_array index value s
  · exact AtomicBinopBuiltinCommon_eq_pipeline _ _ Is64 maybe_array index value s
  · exact AtomicBinopBuiltinCommon_eq_pipeline _ _ Is64 maybe_array index value s
  · exact AtomicBinopBuiltinCommon_eq_pipeline _ _ Is64 maybe_array index value s
  · exact AtomicBinopBuiltinCommon_eq_pipeline _ _ Is64 maybe_array index value s

/-! ## Arithmetic of bit patterns -/

theorem ElementsKind.encode_lt (kind : ElementsKind) (v : Int) :
    kind.encode v < 256 ^ kind.bytes := by
  have hp : (0 : Int) < 2 ^ kind.bits := by positivity
  have h1 := Int.emod_lt_of_pos v hp
  have h2 := Int.emod_nonneg v (ne_of_gt hp)
  rw [pow256]
  simp only [ElementsKind.encode, ElementsKind.bits] at *
  zify
  rw [Int.toNat_of_nonneg h2]
  exact_mod_cast h1

theorem testBit_emod_two_pow (z : Int) (w k : Nat) :
    Nat.testBit (z % 2 ^ w).toNat k = (decide (k < w) && Int.testBit z k) := by
  cases z with
  | ofNat m =>
    have h : ((Int.ofNat m) % 2 ^ w).toNat = m % 2 ^ w := by
      have : (Int.ofNat m) % 2 ^ w = ((m % 2 ^ w : Nat) : Int) := by
        simp [Int.ofNat_eq_coe]
      rw [this, Int.toNat_ofNat]
    rw [h, Nat.testBit_mod_two_pow]
    rfl
  | negSucc m =>
    have hp : (0 : Int) < 2 ^ w := by positivity
    have hlt : m % 2 ^ w < 2 ^ w := Nat.mod_lt _ (by positivity)
    have h : ((Int.negSucc m) % 2 ^ w).toNat = 2 ^ w - (m % 2 ^ w + 1) := by
      rw [Int.negSucc_emod m hp]
      have : (2 : Int) ^ w - 1 - (m : Int) % 2 ^ w = ((2 ^ w - (m % 2 ^ w + 1) : Nat) : Int) := by
        rw [Nat.cast_sub (by omega)]
        push_cast
        ring
      rw [this, Int.toNat_ofNat]
    rw [h, Nat.testBit_two_pow_sub_succ hlt, Nat.testBit_mod_two_pow]
    simp only [Int.testBit]
    cases decide (k < w) <;> simp

theorem encode_land (kind : ElementsKind) (x d : Int) :
    kind.encode (Int.land x d) = kind.encode x &&& kind.encode d := by
  apply Nat.eq_of_testBit_eq
  intro k
  simp only [ElementsKind.encode, testBit_emod_two_pow, Nat.testBit_and, Int.testBit_land]
  cases decide (k < kind.bits) <;> simp

theorem encode_lor (kind : ElementsKind) (x d : Int) :
    kind.encode (Int.lor x d) = kind.encode x ||| kind.encode d := by
  apply Nat.eq_of_testBit_eq
  intro k
  simp only [ElementsKind.encode, testBit_emod_two_pow, Nat.testBit_or, Int.testBit_lor]
  cases decide (k < kind.bits) <;> simp

theorem encode_xor (kind : ElementsKind) (x d : Int) :
    kind.encode (Int.xor x d) = kind.encode x ^^^ kind.encode d := by
  apply Nat.eq_of_testBit_eq
  intro k
  simp only [ElementsKind.encode, testBit_emod_two_pow, Nat.testBit_xor, Int.testBit_lxor]
  cases decide (k < kind.bits) <;> simp

theorem encode_decode (kind : ElementsKind) (raw : Nat) (h : raw < 256 ^ kind.bytes) :
    kind.encode (kind.decode raw) = raw := by
  cases kind <;>
    simp only [ElementsKind.encode, ElementsKind.decode, ElementsKind.bits, ElementsKind.bytes,
      ElementsKind.isSigned, Bool.true_and, Bool.false_and] at h ⊢ <;>
    norm_num at h ⊢ <;> (try split) <;> omega

theorem decode_injective (kind : ElementsKind) (a b : Nat) (ha : a < 256 ^ kind.bytes)
    (hb : b < 256 ^ kind.bytes) (h : kind.decode a = kind.decode b) : a = b := by
  rw [← encode_decode kind a ha, ← encode_decode kind b hb, h]

theorem encode_add (kind : ElementsKind) (raw : Nat) (d : Int)  :
    (raw + kind.encode d) % 256 ^ kind.bytes = kind.encode (kind.decode raw + d) := by
  cases kind <;>
    simp only [ElementsKind.encode, ElementsKind.decode, ElementsKind.bits, ElementsKind.bytes,
      ElementsKind.isSigned, Bool.true_and, Bool.false_and] <;>
    norm_num <;> (try split) <;> omega

theorem encode_sub (kind : ElementsKind) (raw : Nat) (d : Int)  :
    (raw + (256 ^ kind.bytes - kind.encode d)) % 256 ^ kind.bytes
      = kind.encode (kind.decode raw - d) := by
  cases kind <;>
    simp only [ElementsKind.encode, ElementsKind.decode, ElementsKind.bits, ElementsKind.bytes,
      ElementsKind.isSigned, Bool.true_and, Bool.false_and] <;>
    norm_num <;> (try split) <;> omega

theorem BinOp.machine_eval (b : BinOp) (kind : ElementsKind) (raw : Nat) (d : Int)
    (h : raw < 256 ^ kind.bytes) :
    b.machine kind.bytes raw (kind.encode d) % 256 ^ kind.bytes
      = kind.encode (b.eval (kind.decode raw) d) := by
  have hr := encode_decode kind raw h
  cases b with
  | Add => exact encode_add kind raw d
  | Sub => exact encode_sub kind raw d
  | And =>
    simp only [BinOp.machine, BinOp.eval, encode_land, hr]
    rw [← hr, ← encode_land]
    exact Nat.mod_eq_of_lt (ElementsKind.encode_lt kind _)
  | Or =>
    simp only [BinOp.machine, BinOp.eval, encode_lor, hr]
    rw [← hr, ← encode_lor]
    exact Nat.mod_eq_of_lt (ElementsKind.encode_lt kind _)
  | Xor =>
    simp only [BinOp.machine, BinOp.eval, encode_xor, hr]
    rw [← hr, ← encode_xor]
    exact Nat.mod_eq_of_lt (ElementsKind.encode_lt kind _)

theorem elementValue_write (Is64 : Bool) (kind : ElementsKind) (i : Nat) (v : Int)
    (heap heap1 : Heap) (m : Memory) (t : List Event)
    (hb : heap1.backing_store = heap.backing_store) (ho : heap1.byte_offset = heap.byte_offset) :
    elementValue Is64 kind i
      { heap := heap1
        memory := m.write (elementAddress Is64 heap kind i) kind.bytes (kind.encode v)
        trace := t } = canonicalize kind v := by
  simp only [elementValue, elementBits, canonicalize, elementAddress, hb, ho,
    Memory.read_write_same, Nat.mod_eq_of_lt (ElementsKind.encode_lt kind v)]


theorem elementBits_lt (Is64 : Bool) (kind : ElementsKind) (i : Nat) (s : State) :
    elementBits Is64 kind i s < 256 ^ kind.bytes := Memory.read_lt _ _ _

theorem elementValue_eq_canonicalize_iff (Is64 : Bool) (kind : ElementsKind) (i : Nat)
    (s : State) (e : Int) :
    elementValue Is64 kind i s = canonicalize kind e
      ↔ elementBits Is64 kind i s = kind.encode e := by
  constructor
  · intro h
    exact decode_injective kind _ _ (elementBits_lt Is64 kind i s)
      (ElementsKind.encode_lt kind e) h
  · intro h
    simp only [elementValue, canonicalize, h]

theorem BinOp.run_ok (Is64 : Bool) (b : BinOp) (kind : ElementsKind)
    (index value replacement : JSValue) (s : State) (i : Nat) (d : Int)
    (hk : kind.isInteger = true) (hnd : s.heap.was_detached = false)
    (hi : index.toInteger.result = .value (i : Int)) (hlt : i < s.heap.length)
    (hd : detaches index.toInteger.effects = false)
    (hv : (kind.coercion value).result = .value d)
    (hvd : detaches (kind.coercion value).effects = false) :
    b.toOperation.run Is64 (.JSTypedArray kind) index value replacement s =
      (.returned (kind.tag (elementValue Is64 kind i s)),
       { heap := applyEffects (kind.coercion value).effects
           (applyEffects index.toInteger.effects s.heap)
         memory := s.memory.write (elementAddress Is64 s.heap kind i) kind.bytes
           (b.machine kind.bytes (elementBits Is64 kind i s) (kind.encode d))
         trace := s.trace ++ [Event.ToIndex index, kind.coercionEvent value,
           Event.CSA_ASSERT true,
           Event.CSA_ASSERT (decide (i < (applyEffects (kind.coercion value).effects
             (applyEffects index.toInteger.effects s.heap)).length)),
           Event.atomic kind.bytes (elementAddress Is64 s.heap kind i)] }) := by
  cases b <;>
    exact AtomicBinopBuiltinCommon_ok _ _ Is64 kind index value s i d hk hnd hi hlt hd hv hvd

/-! ## Failure paths of the pipeline -/

theorem Quiet.refl (s : State) : Quiet s s := ⟨rfl, rfl⟩

theorem Quiet.trans {a b c : State} (h1 : Quiet a b) (h2 : Quiet b c) : Quiet a c :=
  ⟨h2.1.trans h1.1, h2.2.trans h1.2⟩

theorem Quiet_afterCoercion (s : State) (c : Coercion) (e : Event) (h : e.isAtomic = false) :
    Quiet s (s.afterCoercion c e) := by
  simp [Quiet, State.afterCoercion, accesses, List.filter_cons, h]

theorem coercionEvent_not_atomic (kind : ElementsKind) (v : JSValue) :
    (kind.coercionEvent v).isAtomic = false := by
  unfold ElementsKind.coercionEvent
  split <;> rfl

theorem Quiet_coerceAll (kind : ElementsKind) (ops : List JSValue) :
    ∀ s, Quiet s (coerceAll kind ops s).2 := by
  induction ops with
  | nil => intro s; exact Quiet.refl s
  | cons v rest ih =>
    intro s
    have h1 := Quiet_afterCoercion s (kind.coercion v) (kind.coercionEvent v)
      (coercionEvent_not_atomic kind v)
    have h2 := ih (s.afterCoercion (kind.coercion v) (kind.coercionEvent v))
    simp only [coerceAll]
    split
    · exact h1
    · split
      · rename_i heq
        rw [heq] at h2
        exact Quiet.trans h1 h2
      · rename_i heq
        rw [heq] at h2
        exact Quiet.trans h1 h2

theorem coerceAll_detached_of (kind : ElementsKind) (ops : List JSValue) :
    ∀ s zs s2, coerceAll kind ops s = (.ok zs, s2) →
      (s.heap.was_detached = true ∨ ∃ v ∈ ops, detaches (kind.coercion v).effects = true) →
      s2.heap.was_detached = true := by
  induction ops with
  | nil =>
    intro s zs s2 h hd
    simp only [coerceAll, Prod.mk.injEq] at h
    rcases hd with hd | ⟨v, hv, _⟩
    · rw [← h.2]; exact hd
    · cases hv
  | cons v rest ih =>
    intro s zs s2 h hd
    simp only [coerceAll] at h
    split at h
    · simp at h
    · split at h
      · simp at h
      · rename_i heq
        simp only [Prod.mk.injEq] at h
        rw [← h.2]
        apply ih _ _ _ heq
        rcases hd with hd | ⟨w, hw, hd⟩
        · left; simp [State.afterCoercion, hd]
        · rcases List.mem_cons.mp hw with rfl | hw
          · left; simp [State.afterCoercion, hd]
          · exact Or.inr ⟨w, hw, hd⟩

theorem coerceAll_ok_of (kind : ElementsKind) (ops : List JSValue) :
    ∀ s, (∀ v ∈ ops, ∃ z, (kind.coercion v).result = .value z) →
      ∃ zs, (coerceAll kind ops s).1 = .ok zs := by
  induction ops with
  | nil => intro s _; exact ⟨[], rfl⟩
  | cons v rest ih =>
    intro s h
    obtain ⟨z, hz⟩ := h v (List.mem_cons_self _ _)
    obtain ⟨zs, hzs⟩ := ih (s.afterCoercion (kind.coercion v) (kind.coercionEvent v))
      (fun w hw => h w (List.mem_cons_of_mem _ hw))
    simp only [coerceAll, hz]
    split
    · rename_i heq
      rw [heq] at hzs
      simp at hzs
    · exact ⟨_, rfl⟩

theorem coerceAll_error_of (kind : ElementsKind) (ops : List JSValue) :
    ∀ s e, (coerceAll kind ops s).1 = .error e →
      ∃ v ∈ ops, (kind.coercion v).result = .exception e := by
  induction ops with
  | nil => intro s e h; simp [coerceAll] at h
  | cons v rest ih =>
    intro s e h
    simp only [coerceAll] at h
    split at h
    · rename_i e1 heq
      simp only [Except.error.injEq] at h
      exact ⟨v, List.mem_cons_self _ _, h ▸ heq⟩
    · split at h
      · rename_i heq
        simp only [Except.error.injEq] at h
        have := ih _ e (by rw [heq, h])
        obtain ⟨w, hw, hwe⟩ := this
        exact ⟨w, List.mem_cons_of_mem _ hw, hwe⟩
      · simp at h

theorem Operation.execute_returned (Is64 : Bool) (op : Operation) (kind : ElementsKind)
    (view : Heap) (i : Nat) (zs : List Int) (s : State) :
    ∃ v, (op.execute Is64 kind view i zs s).1 = .returned v := by
  cases op <;> exact ⟨_, rfl⟩

theorem pipeline_failure_quiet (method_name : String) (operands : List JSValue)
    (execute : ElementsKind → Heap → Nat → List Int → State → Completion × State)
    (hex : ∀ kind view i zs s, ∃ v, (execute kind view i zs s).1 = .returned v)
    (maybe_array : JSObject) (index : JSValue) (s : State) :
    (∃ v, (pipeline method_name operands execute maybe_array index s).1 = .returned v) ∨
    Quiet s (pipeline method_name operands execute maybe_array index s).2 := by
  have hq := Quiet_afterCoercion s index.toInteger (.ToIndex index) rfl
  unfold pipeline
  split
  · rename_i kind
    split
    · exact Or.inr (Quiet.refl s)
    · split
      · exact Or.inr (Quiet.refl s)
      · simp only []
        split
        · exact Or.inr hq
        · split
          · exact Or.inr hq
          · have hc := Quiet_coerceAll kind operands
              (s.afterCoercion index.toInteger (.ToIndex index))
            split
            · rename_i heq
              rw [heq] at hc
              exact Or.inr (Quiet.trans hq hc)
            · rename_i heq
              rw [heq] at hc
              split
              · exact Or.inr (Quiet.trans hq hc)
              · exact Or.inl (hex _ _ _ _ _)
  · exact Or.inr (Quiet.refl s)

theorem ElementsKind.tag_injective (kind : ElementsKind) (a b : Int)
    (h : kind.tag a = kind.tag b) : a = b := by
  unfold ElementsKind.tag at h
  split at h <;> simpa using h

theorem AtomicsLoad_after_AtomicsStore (Is64 : Bool) (kind : ElementsKind)
    (index value index2 : JSValue) (s : State) (i : Nat) (v : Int)
    (hk : kind.isInteger = true) (hnd : s.heap.was_detached = false)
    (hi : index.toInteger.result = .value (i : Int)) (hlt : i < s.heap.length)
    (hd : detaches index.toInteger.effects = false)
    (hv : (kind.coercion value).result = .value v)
    (hvd : detaches (kind.coercion value).effects = false)
    (hi2 : index2.toInteger.result = .value (i : Int))
    (hd2 : detaches index2.toInteger.effects = false)
    (hlt2 : i < (applyEffects (kind.coercion value).effects
      (applyEffects index.toInteger.effects s.heap)).length)
    (hb2 : (applyEffects (kind.coercion value).effects
      (applyEffects index.toInteger.effects s.heap)).backing_store = s.heap.backing_store) :
    (AtomicsLoad Is64 (.JSTypedArray kind) index2
        (AtomicsStore Is64 (.JSTypedArray kind) index value s).2).1
      = .returned (kind.tag (canonicalize kind v)) := by
  rw [AtomicsStore_ok Is64 kind index value s i v hk hnd hi hlt hd hv hvd]
  rw [AtomicsLoad_ok Is64 kind index2 _ i hk (by simp [hnd, hd, hvd]) hi2 hlt2 hd2]
  simp only []
  rw [elementValue_write _ _ _ _ _ _ _ _ hb2 (by simp)]

/-! ## Successful runs and their traces -/

theorem pipeline_returned (method_name : String) (operands : List JSValue)
    (execute : ElementsKind → Heap → Nat → List Int → State → Completion × State)
    (maybe_array : JSObject) (index : JSValue) (s : State) (r : Tagged)
    (hret : (pipeline method_name operands execute maybe_array index s).1 = .returned r) :
    ∃ (kind : ElementsKind) (i : Nat) (zs : List Int) (s2 : State),
      maybe_array = .JSTypedArray kind ∧ kind.isInteger = true ∧
      s.heap.was_detached = false ∧ index.toInteger.result = .value (i : Int) ∧
      i < s.heap.length ∧
      coerceAll kind operands (s.afterCoercion index.toInteger (.ToIndex index)) = (.ok zs, s2) ∧
      s2.heap.was_detached = false ∧
      pipeline method_name operands execute maybe_array index s
        = execute kind s.heap i zs s2 := by
  unfold pipeline at hret ⊢
  split at hret
  · rename_i kind
    split at hret
    · simp at hret
    · rename_i hnd
      split at hret
      · simp at hret
      · rename_i hk
        simp only [] at hret
        split at hret
        · simp at hret
        · rename_i z hz
          split at hret
          · simp at hret
          · rename_i hrange
            split at hret
            · simp at hret
            · rename_i zs s2 hco
              split at hret
              · simp at hret
              · rename_i hnd2
                have h0 : 0 ≤ z := by omega
                obtain ⟨i, rfl⟩ := Int.eq_ofNat_of_zero_le h0
                refine ⟨kind, i, zs, s2, rfl, by simpa using hk, by simpa using hnd, hz,
                  by simpa using hrange, hco, by simpa using hnd2, ?_⟩
                have hr2 : ¬ ((i : Int) < 0 ∨ s.heap.length ≤ i) := by simpa using hrange
                simp [hnd, hk, hz, hr2, hco, hnd2]
  · simp at hret

theorem applyEffects_length (es : List Effect) (h : Heap) (hr : resizes es = false) :
    (applyEffects es h).length = h.length := by
  induction es generalizing h with
  | nil => rfl
  | cons e es ih =>
    cases e <;> simp [resizes] at hr <;> simp [applyEffects, Effect.apply, ih, hr]

theorem coerceAll_ok_spec (kind : ElementsKind) (ops : List JSValue) :
    ∀ s zs s2, coerceAll kind ops s = (.ok zs, s2) →
      s2.memory = s.memory ∧ s2.trace = s.trace ++ ops.map kind.coercionEvent ∧
      s2.heap = heapAfter kind ops s.heap ∧
      List.Forall₂ (fun v z => (kind.coercion v).result = .value z) ops zs := by
  induction ops with
  | nil =>
    intro s zs s2 h
    simp only [coerceAll, Prod.mk.injEq, Except.ok.injEq] at h
    obtain ⟨rfl, rfl⟩ := h
    exact ⟨rfl, by simp, rfl, List.Forall₂.nil⟩
  | cons v rest ih =>
    intro s zs s2 h
    simp only [coerceAll] at h
    split at h
    · simp at h
    · rename_i z hz
      split at h
      · simp at h
      · rename_i zs1 s3 heq
        simp only [Prod.mk.injEq, Except.ok.injEq] at h
        obtain ⟨rfl, rfl⟩ := h
        obtain ⟨h1, h2, h3, h4⟩ := ih _ _ _ heq
        refine ⟨by rw [h1]; rfl, ?_, by rw [h3]; rfl, List.Forall₂.cons hz h4⟩
        rw [h2]
        simp [State.afterCoercion]

theorem coerceAll_prefix (kind : ElementsKind) (pre : List JSValue) (rest : List JSValue) :
    ∀ s, (∀ u ∈ pre, ∃ z, (kind.coercion u).result = .value z) →
      ∃ s1, s1.trace = s.trace ++ pre.map kind.coercionEvent ∧ s1.memory = s.memory ∧
        ((coerceAll kind (pre ++ rest) s).2 = (coerceAll kind rest s1).2) ∧
        (∀ e, (coerceAll kind rest s1).1 = .error e → (coerceAll kind (pre ++ rest) s).1 = .error e) := by
  induction pre with
  | nil => intro s _; exact ⟨s, by simp, rfl, rfl, fun e h => h⟩
  | cons v pre ih =>
    intro s h
    obtain ⟨z, hz⟩ := h v (List.mem_cons_self _ _)
    obtain ⟨s1, h1, h2, h3, h4⟩ := ih (s.afterCoercion (kind.coercion v) (kind.coercionEvent v))
      (fun u hu => h u (List.mem_cons_of_mem _ hu))
    refine ⟨s1, ?_, ?_, ?_, ?_⟩
    · rw [h1]; simp [State.afterCoercion]
    · rw [h2]; rfl
    · simp only [List.cons_append, coerceAll, hz]
      rcases hc : coerceAll kind (pre ++ rest)
        (s.afterCoercion (kind.coercion v) (kind.coercionEvent v)) with ⟨r, s3⟩
      rw [hc] at h3
      cases r <;> exact h3
    · intro e he
      have := h4 e he
      simp only [List.cons_append, coerceAll, hz]
      rcases hc : coerceAll kind (pre ++ rest)
        (s.afterCoercion (kind.coercion v) (kind.coercionEvent v)) with ⟨r, s3⟩
      rw [hc] at this
      cases r
      · simpa using this
      · simp at this

theorem coerceAll_throw (kind : ElementsKind) (pre : List JSValue) (v : JSValue)
    (rest : List JSValue) (e : Nat) (s : State)
    (hpre : ∀ u ∈ pre, ∃ z, (kind.coercion u).result = .value z)
    (hv : (kind.coercion v).result = .exception e) :
    (coerceAll kind (pre ++ v :: rest) s).1 = .error e ∧
    (coerceAll kind (pre ++ v :: rest) s).2.trace
      = s.trace ++ (pre ++ [v]).map kind.coercionEvent ∧
    (coerceAll kind (pre ++ v :: rest) s).2.memory = s.memory := by
  obtain ⟨s1, h1, h2, h3, h4⟩ := coerceAll_prefix kind pre (v :: rest) s hpre
  have hc : coerceAll kind (v :: rest) s1
      = (.error e, s1.afterCoercion (kind.coercion v) (kind.coercionEvent v)) := by
    simp [coerceAll, hv]
  refine ⟨h4 e (by rw [hc]), ?_, ?_⟩
  · rw [h3, hc]; simp [State.afterCoercion, h1]
  · rw [h3, hc]; simp [State.afterCoercion, h2]

theorem Operation.execute_spec (Is64 : Bool) (op : Operation) (kind : ElementsKind)
    (view : Heap) (i : Nat) (zs : List Int) (s2 : State) :
    (op.execute Is64 kind view i zs s2).1
        = .returned (op.result Is64 kind i zs (s2.withView view)) ∧
    (op.execute Is64 kind view i zs s2).2.heap = s2.heap ∧
    (op.execute Is64 kind view i zs s2).2.trace
        = s2.trace ++ (op.debugChecks i s2.heap ++
            [Event.atomic kind.bytes (elementAddress Is64 view kind i)]) := by
  cases op <;>
    simp [Operation.execute, Operation.result, Operation.debugChecks, executeLoad, executeStore,
      executeReadModifyWrite, executeCompareExchange, accessEvent, State.withView,
      DebugSanityCheckAtomicIndex, IsDetachedBuffer, LoadJSTypedArrayLength]

theorem Operation.result_congr (Is64 : Bool) (op : Operation) (kind : ElementsKind) (i : Nat)
    (zs : List Int) (s s1 : State) (hh : s1.heap = s.heap) (hm : s1.memory = s.memory) :
    op.result Is64 kind i zs s1 = op.result Is64 kind i zs s := by
  cases op <;> simp [Operation.result, elementValue, elementBits, hh, hm]

theorem Operation.run_returned (Is64 : Bool) (op : Operation) (maybe_array : JSObject)
    (index value replacement : JSValue) (s : State) (r : Tagged)
    (hret : (op.run Is64 maybe_array index value replacement s).1 = .returned r) :
    ∃ (kind : ElementsKind) (i : Nat) (zs : List Int),
      maybe_array = .JSTypedArray kind ∧ kind.isInteger = true ∧
      s.heap.was_detached = false ∧ index.toInteger.result = .value (i : Int) ∧
      i < s.heap.length ∧
      List.Forall₂ (fun v z => (kind.coercion v).result = .value z)
        (op.operands value replacement) zs ∧
      r = op.result Is64 kind i zs s ∧
      (op.run Is64 maybe_array index value replacement s).2.heap
        = heapAfter kind (op.operands value replacement)
            (applyEffects index.toInteger.effects s.heap) ∧
      (op.run Is64 maybe_array index value replacement s).2.heap.was_detached = false ∧
      (op.run Is64 maybe_array index value replacement s).2.trace
        = s.trace ++ (Event.ToIndex index ::
            ((op.operands value replacement).map kind.coercionEvent ++
              (op.debugChecks i (op.run Is64 maybe_array index value replacement s).2.heap ++
                [Event.atomic kind.bytes (elementAddress Is64 s.heap kind i)]))) := by
  rw [Operation.run_eq_pipeline] at hret ⊢
  obtain ⟨kind, i, zs, s2, harr, hk, hnd, hi, hlt, hco, hnd2, hrun⟩ :=
    pipeline_returned _ _ _ _ _ _ _ hret
  obtain ⟨hm, ht, hh, hf⟩ := coerceAll_ok_spec kind _ _ _ _ hco
  obtain ⟨e1, e2, e3⟩ := Operation.execute_spec Is64 op kind s.heap i zs s2
  rw [hrun] at hret ⊢
  rw [e1] at hret
  refine ⟨kind, i, zs, harr, hk, hnd, hi, hlt, hf, ?_, ?_, ?_, ?_⟩
  · simp only [Completion.returned.injEq] at hret
    rw [← hret]
    exact Operation.result_congr Is64 op kind i zs s _ rfl hm
  · rw [e2, hh]; rfl
  · rw [e2]; exact hnd2
  · rw [e3, e2, ht]
    simp [State.afterCoercion]

theorem Operation.run_accessed (Is64 : Bool) (op : Operation) (maybe_array : JSObject)
    (index value replacement : JSValue) (s : State)
    (hacc : accesses (op.run Is64 maybe_array index value replacement s).2.trace
      ≠ accesses s.trace) :
    ∃ r, (op.run Is64 maybe_array index value replacement s).1 = .returned r := by
  rw [Operation.run_eq_pipeline] at hacc ⊢
  rcases pipeline_failure_quiet op.method_name (op.operands value replacement) (op.execute Is64)
    (Operation.execute_returned Is64 op) maybe_array index s with h | hq
  · exact h
  · exact absurd hq.2 hacc

theorem heapAfter_stable (kind : ElementsKind) (ops : List JSValue) :
    ∀ h : Heap, (heapAfter kind ops h).was_detached = false →
      (∀ v ∈ ops, lengthStable (kind.coercion v).effects = true) →
      (heapAfter kind ops h).length = h.length ∧ h.was_detached = false := by
  induction ops with
  | nil => intro h hnd _; exact ⟨rfl, hnd⟩
  | cons v rest ih =>
    intro h hnd hg
    simp only [heapAfter] at hnd ⊢
    obtain ⟨h1, h2⟩ := ih _ hnd (fun u hu => hg u (List.mem_cons_of_mem _ hu))
    simp only [applyEffects_was_detached, Bool.or_eq_false_iff] at h2
    have hs := hg v (List.mem_cons_self _ _)
    simp only [lengthStable, h2.2, Bool.false_or, Bool.not_eq_true'] at hs
    exact ⟨by rw [h1]; exact applyEffects_length _ _ hs, h2.1⟩

theorem coerceAll_trace_cons (kind : ElementsKind) (v : JSValue) (rest : List JSValue)
    (s : State) :
    ∃ more, (coerceAll kind (v :: rest) s).2.trace
      = s.trace ++ kind.coercionEvent v :: more := by
  have hgen : ∀ (ops : List JSValue) (s : State),
      ∃ more, (coerceAll kind ops s).2.trace = s.trace ++ more := by
    intro ops
    induction ops with
    | nil => intro s; exact ⟨[], by simp [coerceAll]⟩
    | cons u ops ih =>
      intro s
      obtain ⟨more, hm⟩ := ih (s.afterCoercion (kind.coercion u) (kind.coercionEvent u))
      simp only [coerceAll]
      split
      · exact ⟨[kind.coercionEvent u], rfl⟩
      · split
        · rename_i heq
          rw [heq] at hm
          exact ⟨kind.coercionEvent u :: more, by rw [hm]; simp [State.afterCoercion]⟩
        · rename_i heq
          rw [heq] at hm
          exact ⟨kind.coercionEvent u :: more, by rw [hm]; simp [State.afterCoercion]⟩
  obtain ⟨more, hm⟩ := hgen rest (s.afterCoercion (kind.coercion v) (kind.coercionEvent v))
  simp only [coerceAll]
  split
  · exact ⟨[], rfl⟩
  · split
    · rename_i heq
      rw [heq] at hm
      exact ⟨more, by rw [hm]; simp [State.afterCoercion]⟩
    · rename_i heq
      rw [heq] at hm
      exact ⟨more, by rw [hm]; simp [State.afterCoercion]⟩

theorem Operation.run_detaching (Is64 : Bool) (op : Operation) (kind : ElementsKind)
    (index value replacement : JSValue) (s : State) (i : Nat)
    (hk : kind.isInteger = true) (hnd : s.heap.was_detached = false)
    (hi : index.toInteger.result = .value (i : Int)) (hlt : i < s.heap.length)
    (hdet : detaches index.toInteger.effects = true) :
    op.run Is64 (.JSTypedArray kind) index value replacement s
      = match coerceAll kind (op.operands value replacement)
          (s.afterCoercion index.toInteger (.ToIndex index)) with
        | (.error e, s2) => (.thrown (.propagated e), s2)
        | (.ok _, s2) => (.thrown (.kDetachedOperation op.method_name), s2) := by
  have hneg : ¬ ((i : Int) < 0) := by omega
  have hlen : ¬ s.heap.length ≤ i := by omega
  rw [Operation.run_eq_pipeline]
  simp only [pipeline, hk, hnd, hi, hneg, hlen, Int.toNat_ofNat, or_self, if_false,
    Bool.false_eq_true, Bool.true_eq_false]
  rcases hco : coerceAll kind (op.operands value replacement)
    (s.afterCoercion index.toInteger (.ToIndex index)) with ⟨r, s2⟩
  cases r with
  | error e => rfl
  | ok zs =>
    have hdt := coerceAll_detached_of kind (op.operands value replacement) _ zs s2 hco
      (Or.inl (by simp [State.afterCoercion, hdet]))
    simp [hdt]

theorem heapAfter_byte_offset (kind : ElementsKind) (ops : List JSValue) :
    ∀ h : Heap, (heapAfter kind ops h).byte_offset = h.byte_offset := by
  induction ops with
  | nil => intro h; rfl
  | cons v rest ih => intro h; simp [heapAfter, ih]

theorem ElementsKind.decode_range (kind : ElementsKind) (raw : Nat)
    (h : raw < 256 ^ kind.bytes) :
    (kind.isSigned = false → kind.decode raw = (raw : Int) ∧ 0 ≤ kind.decode raw ∧
      kind.decode raw < 2 ^ kind.bits) ∧
    (kind.isSigned = true → kind.decode raw % 2 ^ kind.bits = (raw : Int) ∧
      -2 ^ (kind.bits - 1) ≤ kind.decode raw ∧ kind.decode raw < 2 ^ (kind.bits - 1)) := by
  cases kind <;>
    simp only [ElementsKind.decode, ElementsKind.bits, ElementsKind.bytes,
      ElementsKind.isSigned, Bool.true_and, Bool.false_and] at h ⊢ <;>
    norm_num at h ⊢ <;> omega

theorem coerceAll_BigInt64 (ops : List JSValue) :
    ∀ s, coerceAll .BigInt64 ops s = coerceAll .BigUint64 ops s := by
  induction ops with
  | nil => intro s; rfl
  | cons v rest ih =>
    intro s
    simp only [coerceAll, ElementsKind.coercion, ElementsKind.coercionEvent,
      ElementsKind.isBigInt, ih]

theorem decode_BigInt64 (raw : Nat) (h : raw < 256 ^ ElementsKind.BigUint64.bytes) :
    ElementsKind.BigInt64.decode raw % 2 ^ 64 = ElementsKind.BigUint64.decode raw % 2 ^ 64 ∧
    ElementsKind.BigInt64.decode raw
      = canonicalize .BigInt64 (ElementsKind.BigUint64.decode raw) := by
  have e : ElementsKind.BigInt64.encode (ElementsKind.BigUint64.decode raw) = raw :=
    encode_decode .BigUint64 raw h
  refine ⟨?_, by simp only [canonicalize, e]⟩
  simp only [ElementsKind.decode, ElementsKind.bits, ElementsKind.bytes,
    ElementsKind.isSigned, Bool.true_and, Bool.false_and] at h ⊢
  norm_num at h ⊢
  split <;> omega

theorem coercions_append (t u : List Event) : coercions (t ++ u) = coercions t ++ coercions u := by
  simp [coercions]

theorem coercions_map (kind : ElementsKind) (ops : List JSValue) :
    coercions (ops.map kind.coercionEvent) = ops.map kind.coercionEvent := by
  induction ops with
  | nil => rfl
  | cons v rest ih =>
    have hv : (kind.coercionEvent v).isCoercion = true := by
      unfold ElementsKind.coercionEvent; split <;> rfl
    simp only [coercions] at ih
    simp [coercions, List.filter_cons, hv, ih]

theorem coercions_execute (Is64 : Bool) (op : Operation) (kind : ElementsKind) (view : Heap)
    (i : Nat) (zs : List Int) (s2 : State) :
    coercions (op.execute Is64 kind view i zs s2).2.trace = coercions s2.trace := by
  rw [(Operation.execute_spec Is64 op kind view i zs s2).2.2, coercions_append]
  cases op <;> simp [coercions, Operation.debugChecks, List.filter_cons, Event.isCoercion]

theorem Operation.run_valid (Is64 : Bool) (op : Operation) (kind : ElementsKind)
    (index value replacement : JSValue) (s : State) (i : Nat)
    (hk : kind.isInteger = true) (hnd : s.heap.was_detached = false)
    (hi : index.toInteger.result = .value (i : Int)) (hlt : i < s.heap.length) :
    op.run Is64 (.JSTypedArray kind) index value replacement s
      = match coerceAll kind (op.operands value replacement)
          (s.afterCoercion index.toInteger (.ToIndex index)) with
        | (.error e, s2) => (.thrown (.propagated e), s2)
        | (.ok zs, s2) =>
          if s2.heap.was_detached then (.thrown (.kDetachedOperation op.method_name), s2)
          else op.execute Is64 kind s.heap i zs s2 := by
  have hneg : ¬ ((i : Int) < 0) := by omega
  have hlen : ¬ s.heap.length ≤ i := by omega
  rw [Operation.run_eq_pipeline]
  simp [pipeline, hk, hnd, hi, hneg, hlen]

/-! ## Addresses, error names, operands and widths -/

theorem accesses_map_coercionEvent (kind : ElementsKind) (ops : List JSValue) :
    accesses (ops.map kind.coercionEvent) = [] := by
  induction ops with
  | nil => rfl
  | cons v rest ih =>
    have hv := coercionEvent_not_atomic kind v
    simp only [accesses] at ih
    simp [accesses, List.filter_cons, hv, ih]

theorem accesses_run_trace (op : Operation) (kind : ElementsKind) (index : JSValue)
    (ops : List JSValue) (i : Nat) (heap : Heap) (t : List Event) (bytes address : Nat) :
    accesses (t ++ (Event.ToIndex index :: (ops.map kind.coercionEvent ++
      (op.debugChecks i heap ++ [Event.atomic bytes address]))))
      = accesses t ++ [Event.atomic bytes address] := by
  have h1 := accesses_map_coercionEvent kind ops
  have h2 : accesses (op.debugChecks i heap) = [] := by
    cases op <;> simp [accesses, Operation.debugChecks, List.filter_cons, Event.isAtomic]
  simp only [accesses] at h1 h2 ⊢
  simp [List.filter_append, List.filter_cons, Event.isAtomic, h1, h2]

theorem Operation.execute_frame (Is64 : Bool) (op : Operation) (kind : ElementsKind)
    (view : Heap) (i : Nat) (zs : List Int) (s2 : State) (a : Nat)
    (ha : a < elementAddress Is64 view kind i ∨ elementAddress Is64 view kind i + kind.bytes ≤ a) :
    (op.execute Is64 kind view i zs s2).2.memory a = s2.memory a := by
  cases op <;>
    simp only [Operation.execute, executeLoad, executeStore, executeReadModifyWrite,
      executeCompareExchange]
  case CompareExchange =>
    split
    · exact Memory.write_outside _ _ _ _ _ ha
    · rfl
  all_goals first | rfl | exact Memory.write_outside _ _ _ _ _ ha

theorem address_of_shift (Is64 : Bool) (heap : Heap) (kind : ElementsKind) (i shift : Nat)
    (hs : 2 ^ shift = kind.bytes) :
    RawPtrAdd Is64 (RawPtrAdd Is64 heap.backing_store heap.byte_offset) (WordShl Is64 i shift)
      = elementAddress Is64 heap kind i := by
  simp only [RawPtrAdd, WordShl, elementAddress, hs]
  rw [Nat.add_mod, Nat.mod_mod, Nat.mod_mod, ← Nat.add_mod]

theorem ElementsKind.shift_exists (kind : ElementsKind) :
    ∃ shift, shift ≤ 3 ∧ 2 ^ shift = kind.bytes := by
  cases kind
  case Uint8 => exact ⟨0, by decide, rfl⟩
  case Int8 => exact ⟨0, by decide, rfl⟩
  case Uint8Clamped => exact ⟨0, by decide, rfl⟩
  case Uint16 => exact ⟨1, by decide, rfl⟩
  case Int16 => exact ⟨1, by decide, rfl⟩
  case Uint32 => exact ⟨2, by decide, rfl⟩
  case Int32 => exact ⟨2, by decide, rfl⟩
  case Float32 => exact ⟨2, by decide, rfl⟩
  all_goals exact ⟨3, by decide, rfl⟩

theorem Completion.ne_thrown_of_returned {c : Completion} (h : ∃ v, c = .returned v)
    (e : Exception) : c ≠ .thrown e := by
  obtain ⟨v, rfl⟩ := h
  simp

theorem pipeline_detached_name (method_name : String) (operands : List JSValue)
    (execute : ElementsKind → Heap → Nat → List Int → State → Completion × State)
    (hex : ∀ kind view i zs s, ∃ v, (execute kind view i zs s).1 = .returned v)
    (maybe_array : JSObject) (index : JSValue) (s : State) (name : String)
    (h : (pipeline method_name operands execute maybe_array index s).1
      = .thrown (.kDetachedOperation name)) :
    name = method_name := by
  unfold pipeline at h
  split at h
  · split at h
    · simpa using h.symm
    · split at h
      · simp at h
      · simp only [] at h
        split at h
        · simp at h
        · split at h
          · simp at h
          · split at h
            · simp at h
            · split at h
              · simpa using h.symm
              · exact absurd h (Completion.ne_thrown_of_returned (hex _ _ _ _ _) _)
  · simp at h

theorem coerceAll_congr (kind kind2 : ElementsKind) (hb : kind2.isBigInt = kind.isBigInt)
    (ops : List JSValue) : ∀ s, coerceAll kind2 ops s = coerceAll kind ops s := by
  induction ops with
  | nil => intro s; rfl
  | cons v rest ih =>
    intro s
    simp only [coerceAll, ElementsKind.coercion, ElementsKind.coercionEvent, hb, ih]

theorem ElementsKind.encode_congr (kind : ElementsKind) (a b : Int)
    (h : a % 2 ^ kind.bits = b % 2 ^ kind.bits) : kind.encode a = kind.encode b := by
  simp only [ElementsKind.encode, h]

theorem coerced_operands (op : Operation) (kind : ElementsKind) (value replacement : JSValue)
    (zs : List Int)
    (hf : List.Forall₂ (fun v z => (kind.coercion v).result = .value z)
      (op.operands value replacement) zs) :
    (op = .Load → zs = []) ∧
    (op ≠ .Load → op ≠ .CompareExchange →
      ∃ z, (kind.coercion value).result = .value z ∧ zs = [z]) ∧
    (op = .CompareExchange → ∃ z y, (kind.coercion value).result = .value z ∧
      (kind.coercion replacement).result = .value y ∧ zs = [z, y]) := by
  cases op <;>
    simp only [Operation.operands, List.forall₂_cons_left_iff, List.forall₂_nil_left_iff] at hf <;>
    simp <;> first | exact hf | (obtain ⟨z, u, hz, hu, rfl⟩ := hf; simp_all)

theorem Operation.execute_operands (Is64 : Bool) (op : Operation) (kind : ElementsKind)
    (view : Heap) (i : Nat) (zs zs2 : List Int) (s2 s3 : State)
    (hm : s3.memory = s2.memory)
    (h0 : kind.encode (zs2.getD 0 0) = kind.encode (zs.getD 0 0))
    (h1 : kind.encode (zs2.getD 1 0) = kind.encode (zs.getD 1 0)) :
    (op.execute Is64 kind view i zs2 s3).2.memory = (op.execute Is64 kind view i zs s2).2.memory ∧
    (op ≠ .Store →
      (op.execute Is64 kind view i zs2 s3).1 = (op.execute Is64 kind view i zs s2).1) := by
  cases op <;>
    simp only [Operation.execute, executeLoad, executeStore, executeReadModifyWrite,
      executeCompareExchange, elementValue, elementBits, State.withView, hm, h0, h1] <;>
    simp

theorem Operation.execute_width (Is64 : Bool) (op : Operation) (kind kind2 : ElementsKind)
    (view : Heap) (i : Nat) (zs : List Int) (s2 : State) (hb : kind2.bytes = kind.bytes) :
    (op.execute Is64 kind2 view i zs s2).2 = (op.execute Is64 kind view i zs s2).2 := by
  cases op <;>
    simp [Operation.execute, executeLoad, executeStore, executeReadModifyWrite,
      executeCompareExchange, elementBits, elementAddress, State.withView, accessEvent,
      ElementsKind.encode, ElementsKind.bits, DebugSanityCheckAtomicIndex, hb]

theorem ElementsKind.isBigInt_of_bytes (kind kind2 : ElementsKind) (hk : kind.isInteger = true)
    (hk2 : kind2.isInteger = true) (hb : kind2.bytes = kind.bytes) :
    kind2.isBigInt = kind.isBigInt := by
  cases kind <;> cases kind2 <;> simp [ElementsKind.isInteger, ElementsKind.bytes] at hk hk2 hb <;> rfl

theorem Operation.run_width (Is64 : Bool) (op : Operation) (kind kind2 : ElementsKind)
    (index value replacement : JSValue) (s : State)
    (hk : kind.isInteger = true) (hk2 : kind2.isInteger = true)
    (hb : kind2.bytes = kind.bytes) :
    (op.run Is64 (.JSTypedArray kind2) index value replacement s).2
      = (op.run Is64 (.JSTypedArray kind) index value replacement s).2 := by
  have hbig := ElementsKind.isBigInt_of_bytes kind kind2 hk hk2 hb
  rw [Operation.run_eq_pipeline, Operation.run_eq_pipeline]
  simp only [pipeline, hk, hk2, coerceAll_congr kind kind2 hbig]
  split
  · rfl
  · simp only [Bool.true_eq_false, if_false]
    split
    · rfl
    · split
      · rfl
      · rcases hco : coerceAll kind (op.operands value replacement)
          (s.afterCoercion index.toInteger (.ToIndex index)) with ⟨r, s2⟩
        cases r with
        | error e => rfl
        | ok zs =>
          simp only []
          split
          · rfl
          · exact Operation.execute_width Is64 op kind kind2 s.heap _ zs s2 hb

theorem Completion.returned_of_not_failure (c : Completion) (h : c.isFailure = false) :
    ∃ r, c = .returned r := by
  cases c with
  | returned v => exact ⟨v, rfl⟩
  | thrown e => cases h
  | unreachable => cases h

/-! ## The claims -/

/-- C1 (round trip). On a view of an accepted kind over a non-detached buffer,
with an index that is in range at both calls, a buffer that has the same base
at both calls, and coercions that succeed without detaching the buffer,
`Store(view, i, v)` succeeds and the `Load(view, i)` that follows it returns
`canonicalize kind v`: the coerced operand reduced modulo `2 ^ width` and read
back signed or unsigned according to the kind. -/
theorem store_load_roundtrip (Is64 : Bool) (kind : ElementsKind)
    (index value index2 : JSValue) (s : State) (i : Nat) (v : Int)
    (hk : kind.isInteger = true) (hnd : s.heap.was_detached = false)
    (hi : index.toInteger.result = .value (i : Int)) (hlt : i < s.heap.length)
    (hd : detaches index.toInteger.effects = false)
    (hv : (kind.coercion value).result = .value v)
    (hvd : detaches (kind.coercion value).effects = false)
    (hi2 : index2.toInteger.result = .value (i : Int))
    (hd2 : detaches index2.toInteger.effects = false)
    (hlt2 : i < (AtomicsStore Is64 (.JSTypedArray kind) index value s).2.heap.length)
    (hb2 : (AtomicsStore Is64 (.JSTypedArray kind) index value s).2.heap.backing_store
      = s.heap.backing_store) :
    (∃ r, (AtomicsStore Is64 (.JSTypedArray kind) index value s).1 = .returned r) ∧
    (AtomicsLoad Is64 (.JSTypedArray kind) index2
        (AtomicsStore Is64 (.JSTypedArray kind) index value s).2).1
      = .returned (kind.tag (canonicalize kind v)) := by
  have hstore := AtomicsStore_ok Is64 kind index value s i v hk hnd hi hlt hd hv hvd
  refine ⟨⟨_, congrArg Prod.fst hstore⟩, ?_⟩
  rw [hstore] at hlt2 hb2
  exact AtomicsLoad_after_AtomicsStore Is64 kind index value index2 s i v hk hnd hi hlt hd hv hvd
    hi2 hd2 hlt2 hb2

theorem store_load_roundtrip_witness :
    (∃ r, (AtomicsStore true (.JSTypedArray .Int32) (JSValue.number 0) (JSValue.number 5)
        (State.initial 4)).1 = .returned r) ∧
    (AtomicsLoad true (.JSTypedArray .Int32) (JSValue.number 0)
        (AtomicsStore true (.JSTypedArray .Int32) (JSValue.number 0) (JSValue.number 5)
          (State.initial 4)).2).1
      = .returned (ElementsKind.Int32.tag (canonicalize .Int32 5)) :=
  store_load_roundtrip true .Int32 (JSValue.number 0) (JSValue.number 5) (JSValue.number 0)
    (State.initial 4) 0 5 (by decide) (by decide) (by decide) (by decide) (by decide)
    (by decide) (by decide) (by decide) (by decide) (by decide) (by decide)

/-- C2, amended (compare-and-exchange). On a valid access whose coercions
succeed without detaching and leave the buffer's base in place,
`CompareExchange(view, i, expected, replacement)`
returns the element's pre-call value; if that value equals
`canonicalize kind expected` the element then holds
`canonicalize kind replacement` and every byte outside the element is
unchanged; otherwise the memory is unchanged. -/
theorem compareExchange_correct (Is64 : Bool) (kind : ElementsKind)
    (index expected replacement : JSValue) (s : State) (i : Nat) (e r : Int)
    (hk : kind.isInteger = true) (hnd : s.heap.was_detached = false)
    (hi : index.toInteger.result = .value (i : Int)) (hlt : i < s.heap.length)
    (hd : detaches index.toInteger.effects = false)
    (he : (kind.coercion expected).result = .value e)
    (hed : detaches (kind.coercion expected).effects = false)
    (hr : (kind.coercion replacement).result = .value r)
    (hrd : detaches (kind.coercion replacement).effects = false)
    (hb : (AtomicsCompareExchange Is64 (.JSTypedArray kind) index expected replacement
      s).2.heap.backing_store = s.heap.backing_store) :
    (AtomicsCompareExchange Is64 (.JSTypedArray kind) index expected replacement s).1
        = .returned (kind.tag (elementValue Is64 kind i s)) ∧
    (elementValue Is64 kind i s = canonicalize kind e →
      elementValue Is64 kind i
          (AtomicsCompareExchange Is64 (.JSTypedArray kind) index expected replacement s).2
        = canonicalize kind r ∧
      ∀ a, a < elementAddress Is64 s.heap kind i ∨
          elementAddress Is64 s.heap kind i + kind.bytes ≤ a →
        (AtomicsCompareExchange Is64 (.JSTypedArray kind) index expected replacement s).2.memory a
          = s.memory a) ∧
    (elementValue Is64 kind i s ≠ canonicalize kind e →
      (AtomicsCompareExchange Is64 (.JSTypedArray kind) index expected replacement s).2.memory
        = s.memory) := by
  rw [AtomicsCompareExchange_ok Is64 kind index expected replacement s i e r hk hnd hi hlt hd
    he hed hr hrd] at hb ⊢
  refine ⟨rfl, ?_, ?_⟩
  · intro h
    rw [elementValue_eq_canonicalize_iff] at h
    simp only [h, if_true]
    refine ⟨?_, ?_⟩
    · rw [elementValue_write _ _ _ _ _ _ _ _ hb (by simp)]
    · intro a ha
      exact Memory.write_outside _ _ _ _ _ ha
  · intro h
    rw [Ne, elementValue_eq_canonicalize_iff] at h
    simp only [h, if_false]

theorem compareExchange_correct_witness :
    (AtomicsCompareExchange true (.JSTypedArray .Int32) (JSValue.number 0) (JSValue.number 5)
        (JSValue.number 9) (State.afterStore .Int32 5)).1 = .returned (.number 5) ∧
    (AtomicsLoad true (.JSTypedArray .Int32) (JSValue.number 0)
      (AtomicsCompareExchange true (.JSTypedArray .Int32) (JSValue.number 0) (JSValue.number 5)
        (JSValue.number 9) (State.afterStore .Int32 5)).2).1 = .returned (.number 9) ∧
    (AtomicsCompareExchange true (.JSTypedArray .Int32) (JSValue.number 0) (JSValue.number 5)
        (JSValue.number 1) (State.afterStore .Int32 9)).1 = .returned (.number 9) ∧
    (AtomicsLoad true (.JSTypedArray .Int32) (JSValue.number 0)
      (AtomicsCompareExchange true (.JSTypedArray .Int32) (JSValue.number 0) (JSValue.number 5)
        (JSValue.number 1) (State.afterStore .Int32 9)).2).1 = .returned (.number 9) :=
  ⟨(compareExchange_correct true .Int32 (JSValue.number 0) (JSValue.number 5) (JSValue.number 9)
      (State.afterStore .Int32 5) 0 5 9 (by decide) (by decide) (by decide) (by decide)
      (by decide) (by decide) (by decide) (by decide) (by decide) (by decide)).1,
   by decide, by decide, by decide⟩

/-- C2 as stated fails when an operand lies outside the element's range: on an
Int8 view holding 5, `CompareExchange(view, 0, 261, 9)` returns the pre-call
value 5, which differs from the expected operand 261, and yet the element is
overwritten (a following Load returns 9), because the comparison is made on the
8-bit patterns; and `CompareExchange(view, 0, 5, 300)` leaves the element
holding 44, not the replacement 300. -/
theorem compareExchange_literal_counterexample :
    (AtomicsLoad true (.JSTypedArray .Int8) (JSValue.number 0)
      (State.afterStore .Int8 5)).1 = .returned (.number 5) ∧
    (AtomicsCompareExchange true (.JSTypedArray .Int8) (JSValue.number 0) (JSValue.number 261)
        (JSValue.number 9) (State.afterStore .Int8 5)).1 = .returned (.number 5) ∧
    (5 : Int) ≠ 261 ∧
    (AtomicsLoad true (.JSTypedArray .Int8) (JSValue.number 0)
      (AtomicsCompareExchange true (.JSTypedArray .Int8) (JSValue.number 0)
        (JSValue.number 261) (JSValue.number 9) (State.afterStore .Int8 5)).2).1
      = .returned (.number 9) ∧
    (AtomicsLoad true (.JSTypedArray .Int8) (JSValue.number 0)
      (AtomicsCompareExchange true (.JSTypedArray .Int8) (JSValue.number 0)
        (JSValue.number 5) (JSValue.number 300) (State.afterStore .Int8 5)).2).1
      = .returned (.number 44) := by
  decide

/-- C3 (fetch-and-op). On a valid access whose coercions succeed without
detaching and leave the buffer's base in place, each of Add, Sub, And, Or, Xor returns the element's pre-call value
`x`, signed or unsigned per the kind, and leaves the element holding the bit
pattern `(x op d) mod 2 ^ width`, where `d` is the coerced operand. -/
theorem binop_correct (Is64 : Bool) (b : BinOp) (kind : ElementsKind)
    (index value replacement : JSValue) (s : State) (i : Nat) (d : Int)
    (hk : kind.isInteger = true) (hnd : s.heap.was_detached = false)
    (hi : index.toInteger.result = .value (i : Int)) (hlt : i < s.heap.length)
    (hd : detaches index.toInteger.effects = false)
    (hv : (kind.coercion value).result = .value d)
    (hvd : detaches (kind.coercion value).effects = false)
    (hb : (b.toOperation.run Is64 (.JSTypedArray kind) index value replacement
      s).2.heap.backing_store = s.heap.backing_store) :
    (b.toOperation.run Is64 (.JSTypedArray kind) index value replacement s).1
        = .returned (kind.tag (elementValue Is64 kind i s)) ∧
    ((elementBits Is64 kind i
        (b.toOperation.run Is64 (.JSTypedArray kind) index value replacement s).2 : Nat) : Int)
      = b.eval (elementValue Is64 kind i s) d % 2 ^ kind.bits := by
  rw [BinOp.run_ok Is64 b kind index value replacement s i d hk hnd hi hlt hd hv hvd] at hb ⊢
  refine ⟨rfl, ?_⟩
  have hp : (0 : Int) < 2 ^ kind.bits := by positivity
  simp only [elementBits, elementAddress_congr Is64 _ s.heap kind i hb (by simp),
    Memory.read_write_same]
  rw [← elementBits, BinOp.machine_eval b kind _ d (elementBits_lt Is64 kind i s),
    ← elementValue, ElementsKind.encode, Int.toNat_of_nonneg (Int.emod_nonneg _ (ne_of_gt hp))]

theorem binop_correct_witness :
    (BinOp.Sub.toOperation.run true (.JSTypedArray .Uint8) (JSValue.number 0) (JSValue.number 7)
        (JSValue.number 0) (State.afterStore .Uint8 5)).1
        = .returned (ElementsKind.Uint8.tag (elementValue true .Uint8 0 (State.afterStore .Uint8 5))) ∧
    ((elementBits true .Uint8 0
        (BinOp.Sub.toOperation.run true (.JSTypedArray .Uint8) (JSValue.number 0)
          (JSValue.number 7) (JSValue.number 0) (State.afterStore .Uint8 5)).2 : Nat) : Int)
      = BinOp.Sub.eval (elementValue true .Uint8 0 (State.afterStore .Uint8 5)) 7
          % 2 ^ ElementsKind.Uint8.bits :=
  binop_correct true .Sub .Uint8 (JSValue.number 0) (JSValue.number 7) (JSValue.number 0)
    (State.afterStore .Uint8 5) 0 7 (by decide) (by decide) (by decide) (by decide)
    (by decide) (by decide) (by decide) (by decide)

/-- C4 (exchange). On a valid access whose coercions succeed without detaching
and leave the buffer's base in place, `Exchange(view, i, v)` returns the element's pre-call value, signed or unsigned
per the kind, and leaves the element holding `canonicalize kind v`; every byte
outside the element is unchanged, and so is every other element of a view that
lies within the address space. -/
theorem exchange_correct (Is64 : Bool) (kind : ElementsKind)
    (index value : JSValue) (s : State) (i : Nat) (v : Int)
    (hk : kind.isInteger = true) (hnd : s.heap.was_detached = false)
    (hi : index.toInteger.result = .value (i : Int)) (hlt : i < s.heap.length)
    (hd : detaches index.toInteger.effects = false)
    (hv : (kind.coercion value).result = .value v)
    (hvd : detaches (kind.coercion value).effects = false)
    (hb : (AtomicsExchange Is64 (.JSTypedArray kind) index value s).2.heap.backing_store
      = s.heap.backing_store) :
    (AtomicsExchange Is64 (.JSTypedArray kind) index value s).1
        = .returned (kind.tag (elementValue Is64 kind i s)) ∧
    elementValue Is64 kind i (AtomicsExchange Is64 (.JSTypedArray kind) index value s).2
        = canonicalize kind v ∧
    (∀ a, a < elementAddress Is64 s.heap kind i ∨
        elementAddress Is64 s.heap kind i + kind.bytes ≤ a →
      (AtomicsExchange Is64 (.JSTypedArray kind) index value s).2.memory a = s.memory a) ∧
    (∀ j, j ≠ i →
      s.heap.backing_store + s.heap.byte_offset + (i + 1) * kind.bytes ≤ 2 ^ wordBits Is64 →
      s.heap.backing_store + s.heap.byte_offset + (j + 1) * kind.bytes ≤ 2 ^ wordBits Is64 →
      elementValue Is64 kind j (AtomicsExchange Is64 (.JSTypedArray kind) index value s).2
        = elementValue Is64 kind j s) := by
  rw [AtomicsExchange_ok Is64 kind index value s i v hk hnd hi hlt hd hv hvd] at hb ⊢
  refine ⟨rfl, ?_, ?_, ?_⟩
  · rw [elementValue_write _ _ _ _ _ _ _ _ hb (by simp)]
  · intro a ha
    exact Memory.write_outside _ _ _ _ _ ha
  · intro j hj h1 h2
    simp only [elementValue, elementBits, elementAddress_congr Is64 _ s.heap kind j hb (by simp)]
    rw [Memory.read_write_disjoint]
    have hb : 0 < kind.bytes := by cases kind <;> simp [ElementsKind.bytes]
    simp only [elementAddress]
    rw [Nat.mod_eq_of_lt, Nat.mod_eq_of_lt]
    · rcases Nat.lt_or_gt_of_ne hj with h | h
      · left
        have := Nat.mul_le_mul_right kind.bytes (Nat.succ_le_of_lt h)
        simp only [Nat.succ_eq_add_one, Nat.add_mul, Nat.one_mul] at this
        omega
      · right
        have := Nat.mul_le_mul_right kind.bytes (Nat.succ_le_of_lt h)
        simp only [Nat.succ_eq_add_one, Nat.add_mul, Nat.one_mul] at this
        omega
    · simp only [Nat.add_mul, Nat.one_mul] at h1; omega
    · simp only [Nat.add_mul, Nat.one_mul] at h2; omega

theorem exchange_correct_witness :
    (AtomicsExchange true (.JSTypedArray .Int16) (JSValue.number 1) (JSValue.number 70000)
        (State.afterStore .Int16 5)).1
      = .returned (ElementsKind.Int16.tag (elementValue true .Int16 1 (State.afterStore .Int16 5))) :=
  (exchange_correct true .Int16 (JSValue.number 1) (JSValue.number 70000)
    (State.afterStore .Int16 5) 1 70000 (by decide) (by decide) (by decide) (by decide)
    (by decide) (by decide) (by decide) (by decide)).1

/-- C5 (bounds). On a view of an accepted kind over a non-detached buffer, when
the index coerces to an integer that is negative or not below the view's length
(as read at the call), every operation fails with InvalidIndex right after the
index coercion: the memory is unchanged and no atomic access occurs. -/
theorem bounds_invalid_index (Is64 : Bool) (op : Operation) (kind : ElementsKind)
    (index value replacement : JSValue) (s : State) (z : Int)
    (hk : kind.isInteger = true) (hnd : s.heap.was_detached = false)
    (hi : index.toInteger.result = .value z)
    (hz : z < 0 ∨ (s.heap.length : Int) ≤ z) :
    op.run Is64 (.JSTypedArray kind) index value replacement s
      = (.thrown .kInvalidAtomicAccessIndex,
         s.afterCoercion index.toInteger (.ToIndex index)) ∧
    (op.run Is64 (.JSTypedArray kind) index value replacement s).2.memory = s.memory ∧
    accesses (op.run Is64 (.JSTypedArray kind) index value replacement s).2.trace
      = accesses s.trace := by
  have h : z < 0 ∨ s.heap.length ≤ z.toNat := by omega
  have hrun : op.run Is64 (.JSTypedArray kind) index value replacement s
      = (.thrown .kInvalidAtomicAccessIndex,
         s.afterCoercion index.toInteger (.ToIndex index)) := by
    rw [Operation.run_eq_pipeline]
    simp [pipeline, hk, hnd, hi, h]
  rw [hrun]
  exact ⟨rfl, Quiet_afterCoercion s index.toInteger (.ToIndex index) rfl⟩

theorem bounds_invalid_index_witness :
    Operation.CompareExchange.run true (.JSTypedArray .BigUint64) (JSValue.number 0)
        (JSValue.bigint 1) (JSValue.bigint 2) (State.initial 0)
      = (.thrown .kInvalidAtomicAccessIndex,
         (State.initial 0).afterCoercion (JSValue.number 0).toInteger
           (.ToIndex (JSValue.number 0))) :=
  (bounds_invalid_index true .CompareExchange .BigUint64 (JSValue.number 0) (JSValue.bigint 1)
    (JSValue.bigint 2) (State.initial 0) 0 (by decide) (by decide) (by decide) (by decide)).1

/-- C6, amended (kind gating). For a view whose element kind is Float32,
Float64 or Uint8Clamped, every operation is rejected before any coercion runs
(the state, and with it the trace, is unchanged): with NotIntegerView when the
buffer is not detached, and with Detached when it is. -/
theorem kind_gating (Is64 : Bool) (op : Operation) (kind : ElementsKind)
    (index value replacement : JSValue) (s : State) (hk : kind.isInteger = false) :
    op.run Is64 (.JSTypedArray kind) index value replacement s
      = (if s.heap.was_detached then .thrown (.kDetachedOperation op.method_name)
         else .thrown .kNotIntegerTypedArray, s) ∧
    coercions (op.run Is64 (.JSTypedArray kind) index value replacement s).2.trace
      = coercions s.trace := by
  have hrun : op.run Is64 (.JSTypedArray kind) index value replacement s
      = (if s.heap.was_detached then .thrown (.kDetachedOperation op.method_name)
         else .thrown .kNotIntegerTypedArray, s) := by
    rw [Operation.run_eq_pipeline]
    cases hd : s.heap.was_detached <;> simp [pipeline, hk, hd]
  rw [hrun]
  exact ⟨rfl, rfl⟩

theorem kind_gating_witness :
    Operation.Add.run true (.JSTypedArray .Float64) (JSValue.throwing 1) (JSValue.throwing 2)
        (JSValue.number 0) (State.initial 4)
      = (.thrown .kNotIntegerTypedArray, State.initial 4) :=
  (kind_gating true .Add .Float64 (JSValue.throwing 1) (JSValue.throwing 2) (JSValue.number 0)
    (State.initial 4) (by decide)).1

/-- C6 as stated fails on a detached buffer: Load on a Float32 view whose
buffer is detached fails with Detached, not with NotIntegerView, because the
detachment test of `ValidateIntegerTypedArray` precedes its kind test. -/
theorem kind_gating_detached_counterexample :
    (AtomicsLoad true (.JSTypedArray .Float32) (JSValue.number 0) (State.detached 4)).1
      = .thrown (.kDetachedOperation "Atomics.load") ∧
    (AtomicsLoad true (.JSTypedArray .Float32) (JSValue.number 0) (State.detached 4)).1
      ≠ .thrown .kNotIntegerTypedArray := by
  decide

/-- C7, amended (detach during coercion). On a view of an accepted kind over a
buffer that is not detached at the call, with an index that coerces to an
in-range integer, if the user code of the index coercion or of a value
coercion of the operation detaches the buffer, the operation fails, the memory
is unchanged and no atomic access occurs. The failure is Detached when every
value coercion succeeds; otherwise it is Detached or the failure propagated
from a value coercion that throws. -/
theorem detach_during_coercion (Is64 : Bool) (op : Operation) (kind : ElementsKind)
    (index value replacement : JSValue) (s : State) (i : Nat)
    (hk : kind.isInteger = true) (hnd : s.heap.was_detached = false)
    (hi : index.toInteger.result = .value (i : Int)) (hlt : i < s.heap.length)
    (hdet : detaches index.toInteger.effects = true ∨
      ∃ v ∈ op.operands value replacement, detaches (kind.coercion v).effects = true) :
    ((∀ v ∈ op.operands value replacement, ∃ z, (kind.coercion v).result = .value z) →
      (op.run Is64 (.JSTypedArray kind) index value replacement s).1
        = .thrown (.kDetachedOperation op.method_name)) ∧
    ((op.run Is64 (.JSTypedArray kind) index value replacement s).1
        = .thrown (.kDetachedOperation op.method_name) ∨
      ∃ e, (op.run Is64 (.JSTypedArray kind) index value replacement s).1
          = .thrown (.propagated e) ∧
        ∃ v ∈ op.operands value replacement, (kind.coercion v).result = .exception e) ∧
    (op.run Is64 (.JSTypedArray kind) index value replacement s).2.memory = s.memory ∧
    accesses (op.run Is64 (.JSTypedArray kind) index value replacement s).2.trace
      = accesses s.trace := by
  have hneg : ¬ ((i : Int) < 0) := by omega
  have hlen : ¬ s.heap.length ≤ i := by omega
  have hs1 : (s.afterCoercion index.toInteger (.ToIndex index)).heap.was_detached = true ∨
      ∃ v ∈ op.operands value replacement, detaches (kind.coercion v).effects = true := by
    rcases hdet with h | h
    · left; simp [State.afterCoercion, h]
    · exact Or.inr h
  have hq := Quiet_afterCoercion s index.toInteger (.ToIndex index) rfl
  have hc := Quiet_coerceAll kind (op.operands value replacement)
    (s.afterCoercion index.toInteger (.ToIndex index))
  have hrun : op.run Is64 (.JSTypedArray kind) index value replacement s
      = match coerceAll kind (op.operands value replacement)
          (s.afterCoercion index.toInteger (.ToIndex index)) with
        | (.error e, s2) => (.thrown (.propagated e), s2)
        | (.ok zs, s2) =>
          if s2.heap.was_detached then (.thrown (.kDetachedOperation op.method_name), s2)
          else op.execute Is64 kind s.heap i zs s2 := by
    rw [Operation.run_eq_pipeline]
    simp [pipeline, hk, hnd, hi, hneg, hlen]
  rw [hrun]
  rcases hco : coerceAll kind (op.operands value replacement)
    (s.afterCoercion index.toInteger (.ToIndex index)) with ⟨r, s2⟩
  rw [hco] at hc
  cases r with
  | error e =>
    have herr := coerceAll_error_of kind (op.operands value replacement)
      (s.afterCoercion index.toInteger (.ToIndex index)) e (by rw [hco])
    refine ⟨?_, Or.inr ⟨e, rfl, herr⟩, (Quiet.trans hq hc).1, (Quiet.trans hq hc).2⟩
    intro hall
    obtain ⟨zs, hzs⟩ := coerceAll_ok_of kind (op.operands value replacement)
      (s.afterCoercion index.toInteger (.ToIndex index)) hall
    rw [hco] at hzs
    cases hzs
  | ok zs =>
    have hdt := coerceAll_detached_of kind (op.operands value replacement) _ zs s2 hco hs1
    dsimp only
    rw [if_pos hdt]
    exact ⟨fun _ => rfl, Or.inl rfl, (Quiet.trans hq hc).1, (Quiet.trans hq hc).2⟩

theorem detach_during_coercion_witness :
    (Operation.Exchange.run true (.JSTypedArray .Int32) (JSValue.number 0)
        (JSValue.detaching 5) (JSValue.number 0) (State.initial 4)).1
      = .thrown (.kDetachedOperation "Atomics.exchange") :=
  (detach_during_coercion true .Exchange .Int32 (JSValue.number 0) (JSValue.detaching 5)
    (JSValue.number 0) (State.initial 4) 0 (by decide) (by decide) (by decide) (by decide)
    (Or.inr ⟨JSValue.detaching 5, by decide, by decide⟩)).1
    (by intro v hv; exact ⟨5, by simp [Operation.operands] at hv; subst hv; rfl⟩)

/-- C7 as stated fails when a later coercion throws: in Store on an Int32 view
of length 4, an index operand whose coercion detaches the buffer and yields 0
followed by a value operand whose coercion throws makes the operation fail
with the propagated exception, not with Detached. -/
theorem detach_during_coercion_counterexample :
    (AtomicsStore true (.JSTypedArray .Int32) (JSValue.detaching 0) (JSValue.throwing 7)
        (State.initial 4)).1 = .thrown (.propagated 7) ∧
    detaches (JSValue.detaching 0).toInteger.effects = true ∧
    (AtomicsStore true (.JSTypedArray .Int32) (JSValue.detaching 0) (JSValue.throwing 7)
        (State.initial 4)).1 ≠ .thrown (.kDetachedOperation "Atomics.store") := by
  decide

/-- C8 (64-bit exactness). Splitting a 64-bit value into its (low, high) limbs
and reassembling them is the identity, the result encoders of the 32-bit and
the 64-bit host agree on it, and on an Int64 or Uint64 view a Store followed by
a Load returns the same BigInt on a 32-bit host (limb pair) and on a 64-bit
host (single word): `canonicalize kind v`, which is `v` itself whenever `v` is
in the range of the kind. The view is taken in range and at the same base at
the Load as at the Store. -/
theorem word64_exactness (kind : ElementsKind) (index value index2 : JSValue) (s : State)
    (i : Nat) (v : Int) (x : Nat)
    (hk : kind.isBigInt = true) (hnd : s.heap.was_detached = false)
    (hi : index.toInteger.result = .value (i : Int)) (hlt : i < s.heap.length)
    (hd : detaches index.toInteger.effects = false)
    (hv : value.toBigInt.result = .value v)
    (hvd : detaches value.toBigInt.effects = false)
    (hi2 : index2.toInteger.result = .value (i : Int))
    (hd2 : detaches index2.toInteger.effects = false)
    (hlt2 : i < (applyEffects value.toBigInt.effects
      (applyEffects index.toInteger.effects s.heap)).length)
    (hb2 : (applyEffects value.toBigInt.effects
      (applyEffects index.toInteger.effects s.heap)).backing_store = s.heap.backing_store)
    (hx : x < 2 ^ 64) :
    BigIntFromUint32Pair (BigIntToRawBytes false x).1 (BigIntToRawBytes false x).2
        = .bigint (x : Int) ∧
    BigIntFromInt32Pair (BigIntToRawBytes false x).1 (BigIntToRawBytes false x).2
        = BigIntFromInt64 (BigIntToRawBytes true x).1 ∧
    BigIntFromUnsigned64 false (resultNode false .Uint64 x) = .bigint (x : Int) ∧
    BigIntFromUnsigned64 true (resultNode true .Uint64 x) = .bigint (x : Int) ∧
    (∀ Is64 : Bool,
      (AtomicsLoad Is64 (.JSTypedArray kind) index2
          (AtomicsStore Is64 (.JSTypedArray kind) index value s).2).1
        = .returned (.bigint (canonicalize kind v))) ∧
    (AtomicsLoad false (.JSTypedArray kind) index2
          (AtomicsStore false (.JSTypedArray kind) index value s).2).1
      = (AtomicsLoad true (.JSTypedArray kind) index2
          (AtomicsStore true (.JSTypedArray kind) index value s).2).1 ∧
    (kind = .BigUint64 → 0 ≤ v → v < 2 ^ 64 → canonicalize kind v = v) ∧
    (kind = .BigInt64 → -2 ^ 63 ≤ v → v < 2 ^ 63 → canonicalize kind v = v) := by
  have hki : kind.isInteger = true := by cases kind <;> simp_all [ElementsKind.isBigInt, ElementsKind.isInteger]
  have hcv : (kind.coercion value) = value.toBigInt := by simp [ElementsKind.coercion, hk]
  have hround : ∀ Is64 : Bool,
      (AtomicsLoad Is64 (.JSTypedArray kind) index2
          (AtomicsStore Is64 (.JSTypedArray kind) index value s).2).1
        = .returned (.bigint (canonicalize kind v)) := by
    intro Is64
    have h := AtomicsLoad_after_AtomicsStore Is64 kind index value index2 s i v hki hnd hi hlt
      hd (by rw [hcv]; exact hv) (by rw [hcv]; exact hvd) hi2 hd2 (by rw [hcv]; exact hlt2)
      (by rw [hcv]; exact hb2)
    rw [h]
    simp [ElementsKind.tag, hk]
  have hx2 : x < 18446744073709551616 := by simpa using hx
  refine ⟨?_, ?_, ?_, ?_, hround, ?_, ?_, ?_⟩
  · simp only [BigIntFromUint32Pair, BigIntToRawBytes]
    norm_num
    omega
  · simp only [BigIntFromInt32Pair, BigIntFromInt64, BigIntToRawBytes, toInt64]
    norm_num
    omega
  · rw [convert_BigUint64 false x hx2]
    simp [ElementsKind.decode, ElementsKind.isSigned]
  · rw [convert_BigUint64 true x hx2]
    simp [ElementsKind.decode, ElementsKind.isSigned]
  · rw [hround false, hround true]
  · intro hk1 h0 h1
    subst hk1
    simp only [canonicalize, ElementsKind.decode, ElementsKind.encode, ElementsKind.bits,
      ElementsKind.bytes, ElementsKind.isSigned, Bool.false_and]
    norm_num
    omega
  · intro hk1 h0 h1
    subst hk1
    simp only [canonicalize, ElementsKind.decode, ElementsKind.encode, ElementsKind.bits,
      ElementsKind.bytes, ElementsKind.isSigned, Bool.true_and]
    norm_num
    split <;> omega

theorem word64_exactness_witness :
    (AtomicsLoad false (.JSTypedArray .BigUint64) (JSValue.number 0)
          (AtomicsStore false (.JSTypedArray .BigUint64) (JSValue.number 0)
            (JSValue.bigint (2 ^ 63)) (State.initial 4)).2).1
      = .returned (.bigint (canonicalize .BigUint64 (2 ^ 63))) ∧
    (AtomicsLoad true (.JSTypedArray .BigUint64) (JSValue.number 0)
          (AtomicsStore true (.JSTypedArray .BigUint64) (JSValue.number 0)
            (JSValue.bigint (2 ^ 63)) (State.initial 4)).2).1
      = .returned (.bigint (canonicalize .BigUint64 (2 ^ 63))) ∧
    canonicalize .BigUint64 (2 ^ 63) = 2 ^ 63 :=
  have h := word64_exactness .BigUint64 (JSValue.number 0) (JSValue.bigint (2 ^ 63))
    (JSValue.number 0) (State.initial 4) 0 (2 ^ 63) (2 ^ 63) (by decide) (by decide)
    (by decide) (by decide) (by decide) (by decide) (by decide) (by decide) (by decide)
    (by decide) (by decide) (by decide)
  ⟨h.2.2.2.2.1 false, h.2.2.2.2.1 true, h.2.2.2.2.2.2.1 rfl (by decide) (by decide)⟩

/-- C9, amended (Store result). A successful Store, whose coercions leave the
buffer's base in place, returns the operand as
coerced, the element then holds `canonicalize kind v`, and the two agree, that
is the result is the value a following Load returns, exactly when the coerced
operand is in the range of the kind (`canonicalize kind v = v`). -/
theorem store_result (Is64 : Bool) (kind : ElementsKind) (index value : JSValue) (s : State)
    (i : Nat) (v : Int) (hk : kind.isInteger = true) (hnd : s.heap.was_detached = false)
    (hi : index.toInteger.result = .value (i : Int)) (hlt : i < s.heap.length)
    (hd : detaches index.toInteger.effects = false)
    (hv : (kind.coercion value).result = .value v)
    (hvd : detaches (kind.coercion value).effects = false)
    (hb : (AtomicsStore Is64 (.JSTypedArray kind) index value s).2.heap.backing_store
      = s.heap.backing_store) :
    (AtomicsStore Is64 (.JSTypedArray kind) index value s).1 = .returned (kind.tag v) ∧
    elementValue Is64 kind i (AtomicsStore Is64 (.JSTypedArray kind) index value s).2
      = canonicalize kind v ∧
    ((AtomicsStore Is64 (.JSTypedArray kind) index value s).1
        = .returned (kind.tag (elementValue Is64 kind i
            (AtomicsStore Is64 (.JSTypedArray kind) index value s).2))
      ↔ canonicalize kind v = v) := by
  rw [AtomicsStore_ok Is64 kind index value s i v hk hnd hi hlt hd hv hvd] at hb ⊢
  have he : elementValue Is64 kind i
      { heap := applyEffects (kind.coercion value).effects
          (applyEffects index.toInteger.effects s.heap)
        memory := s.memory.write (elementAddress Is64 s.heap kind i) kind.bytes (kind.encode v)
        trace := s.trace ++ [Event.ToIndex index, kind.coercionEvent value,
           Event.CSA_ASSERT true,
           Event.CSA_ASSERT (decide (i < (applyEffects (kind.coercion value).effects
             (applyEffects index.toInteger.effects s.heap)).length)),
           Event.atomic kind.bytes (elementAddress Is64 s.heap kind i)] }
      = canonicalize kind v := by
    rw [elementValue_write _ _ _ _ _ _ _ _ hb (by simp)]
  refine ⟨rfl, he, ?_⟩
  rw [he]
  constructor
  · intro h
    simp only [Completion.returned.injEq] at h
    exact (ElementsKind.tag_injective kind _ _ h).symm
  · intro h
    rw [h]

theorem store_result_witness :
    (AtomicsStore true (.JSTypedArray .Int32) (JSValue.number 0) (JSValue.number 5)
        (State.initial 4)).1 = .returned (ElementsKind.Int32.tag 5) :=
  (store_result true .Int32 (JSValue.number 0) (JSValue.number 5) (State.initial 4) 0 5
    (by decide) (by decide) (by decide) (by decide) (by decide) (by decide) (by decide)
    (by decide)).1

/-- C9 as stated fails when the coerced operand is outside the element's range:
`Store(view, 0, 300)` on an Int8 view returns 300, while the element then
holds 44, which is what the following Load returns. -/
theorem store_result_counterexample :
    (AtomicsStore true (.JSTypedArray .Int8) (JSValue.number 0) (JSValue.number 300)
        (State.initial 4)).1 = .returned (.number 300) ∧
    (AtomicsLoad true (.JSTypedArray .Int8) (JSValue.number 0)
      (AtomicsStore true (.JSTypedArray .Int8) (JSValue.number 0) (JSValue.number 300)
        (State.initial 4)).2).1 = .returned (.number 44) := by
  decide

/-- C10 (failure atomicity). Whenever an operation does not return a value,
whatever its inputs, the memory after the call equals the memory before it and
the call performed no atomic access. -/
theorem failure_atomicity (Is64 : Bool) (op : Operation) (maybe_array : JSObject)
    (index value replacement : JSValue) (s : State)
    (hfail : (op.run Is64 maybe_array index value replacement s).1.isFailure = true) :
    (op.run Is64 maybe_array index value replacement s).2.memory = s.memory ∧
    accesses (op.run Is64 maybe_array index value replacement s).2.trace = accesses s.trace := by
  rw [Operation.run_eq_pipeline] at hfail ⊢
  rcases pipeline_failure_quiet op.method_name (op.operands value replacement) (op.execute Is64)
    (Operation.execute_returned Is64 op) maybe_array index s with ⟨v, hv⟩ | hq
  · rw [hv] at hfail; cases hfail
  · exact hq

theorem failure_atomicity_witness :
    (Operation.Store.run true (.JSTypedArray .Int32) (JSValue.detaching 0) (JSValue.number 5)
        (JSValue.number 0) (State.afterStore .Int32 7)).2.memory
      = (State.afterStore .Int32 7).memory ∧
    accesses (Operation.Store.run true (.JSTypedArray .Int32) (JSValue.detaching 0)
        (JSValue.number 5) (JSValue.number 0) (State.afterStore .Int32 7)).2.trace
      = accesses (State.afterStore .Int32 7).trace :=
  failure_atomicity true .Store (.JSTypedArray .Int32) (JSValue.detaching 0) (JSValue.number 5)
    (JSValue.number 0) (State.afterStore .Int32 7) (by decide)


/-- C11, amended (Load failure modes). For every input, Load returns a value or
throws exactly one of NotIntegerView, Detached, InvalidIndex or the exception
propagated from the index coercion when that coercion throws; it never ends in
the unreachable arm. -/
theorem load_outcomes (Is64 : Bool) (maybe_array : JSObject) (index : JSValue) (s : State) :
    (∃ v, (AtomicsLoad Is64 maybe_array index s).1 = .returned v) ∨
    (AtomicsLoad Is64 maybe_array index s).1 = .thrown .kNotIntegerTypedArray ∨
    (AtomicsLoad Is64 maybe_array index s).1 = .thrown (.kDetachedOperation "Atomics.load") ∨
    (AtomicsLoad Is64 maybe_array index s).1 = .thrown .kInvalidAtomicAccessIndex ∨
    (∃ e, index.toInteger.result = .exception e ∧
      (AtomicsLoad Is64 maybe_array index s).1 = .thrown (.propagated e)) := by
  rw [AtomicsLoad_eq_pipeline]
  unfold pipeline
  split
  · split
    · exact Or.inr (Or.inr (Or.inl rfl))
    · split
      · exact Or.inr (Or.inl rfl)
      · simp only [coerceAll]
        split
        · rename_i e he
          exact Or.inr (Or.inr (Or.inr (Or.inr ⟨e, he, rfl⟩)))
        · split
          · exact Or.inr (Or.inr (Or.inr (Or.inl rfl)))
          · split
            · exact Or.inr (Or.inr (Or.inl rfl))
            · exact Or.inl ⟨_, rfl⟩
  · exact Or.inr (Or.inl rfl)

/-- C11 as stated fails when the index coercion throws: Load on an Int32 view
with an index operand whose coercion throws exception 7 fails with that
propagated exception, which is none of NotIntegerView, Detached and
InvalidIndex. -/
theorem load_outcomes_counterexample :
    (AtomicsLoad true (.JSTypedArray .Int32) (JSValue.throwing 7) (State.initial 4)).1
      = .thrown (.propagated 7) ∧
    (AtomicsLoad true (.JSTypedArray .Int32) (JSValue.throwing 7) (State.initial 4)).1
      ≠ .thrown .kNotIntegerTypedArray ∧
    (AtomicsLoad true (.JSTypedArray .Int32) (JSValue.throwing 7) (State.initial 4)).1
      ≠ .thrown (.kDetachedOperation "Atomics.load") ∧
    (AtomicsLoad true (.JSTypedArray .Int32) (JSValue.throwing 7) (State.initial 4)).1
      ≠ .thrown .kInvalidAtomicAccessIndex := by
  decide

/-- C12 (accepted kinds). On a buffer that is not detached,
`ValidateIntegerTypedArray` succeeds exactly on the typed arrays whose elements
kind is one of Int8, Uint8, Int16, Uint16, Int32, Uint32, BigInt64, BigUint64,
and then yields that kind and the base address of the view; on a small integer,
on a heap object that is not a typed array and on a Float32, Float64 or
Uint8Clamped array it ends in the NotIntegerView error. The two range tests
select exactly the eight integer kinds among the eleven. -/
theorem accepted_kinds (Is64 : Bool) (maybe_array : JSObject) (heap : Heap)
    (hnd : heap.was_detached = false) :
    ((∃ elements_kind backing_store, ValidateIntegerTypedArray Is64 maybe_array heap
          = .not_float_or_clamped elements_kind backing_store) ↔
      ∃ kind, maybe_array = .JSTypedArray kind ∧
        kind ∈ [ElementsKind.Int8, .Uint8, .Int16, .Uint16, .Int32, .Uint32,
          .BigInt64, .BigUint64]) ∧
    (∀ kind, maybe_array = .JSTypedArray kind →
      kind ∈ [ElementsKind.Int8, .Uint8, .Int16, .Uint16, .Int32, .Uint32,
          .BigInt64, .BigUint64] →
      ValidateIntegerTypedArray Is64 maybe_array heap
        = .not_float_or_clamped kind.code
            (RawPtrAdd Is64 heap.backing_store heap.byte_offset)) ∧
    ((∀ n, maybe_array = .Smi n → ValidateIntegerTypedArray Is64 maybe_array heap = .invalid) ∧
     (maybe_array = .HeapObject → ValidateIntegerTypedArray Is64 maybe_array heap = .invalid) ∧
     (∀ kind, maybe_array = .JSTypedArray kind →
        kind ∈ [ElementsKind.Float32, .Float64, .Uint8Clamped] →
        ValidateIntegerTypedArray Is64 maybe_array heap = .invalid)) ∧
    (∀ kind : ElementsKind,
      (kind.code < FLOAT32_ELEMENTS ∨ kind.code > UINT8_CLAMPED_ELEMENTS) ↔
        kind ∈ [ElementsKind.Int8, .Uint8, .Int16, .Uint16, .Int32, .Uint32,
          .BigInt64, .BigUint64]) := by
  refine ⟨?_, ?_, ⟨?_, ?_, ?_⟩, ?_⟩
  · cases maybe_array with
    | Smi n => simp [ValidateIntegerTypedArray]
    | HeapObject => simp [ValidateIntegerTypedArray]
    | JSTypedArray kind =>
      cases kind <;>
        simp [ValidateIntegerTypedArray, IsDetachedBuffer, hnd, ElementsKind.code,
          FLOAT32_ELEMENTS, UINT8_CLAMPED_ELEMENTS]
  · intro kind hk hmem
    subst hk
    cases kind <;> simp at hmem <;>
      simp [ValidateIntegerTypedArray, IsDetachedBuffer, hnd, ElementsKind.code,
        FLOAT32_ELEMENTS, UINT8_CLAMPED_ELEMENTS]
  · intro n hn; subst hn; rfl
  · intro h; subst h; rfl
  · intro kind hk hmem
    subst hk
    cases kind <;> simp at hmem <;>
      simp [ValidateIntegerTypedArray, IsDetachedBuffer, hnd, ElementsKind.code,
        FLOAT32_ELEMENTS, UINT8_CLAMPED_ELEMENTS]
  · intro kind
    cases kind <;> simp [ElementsKind.code, FLOAT32_ELEMENTS, UINT8_CLAMPED_ELEMENTS]

theorem accepted_kinds_witness :
    ValidateIntegerTypedArray true (.JSTypedArray .BigUint64) (State.initial 4).heap
      = .not_float_or_clamped ElementsKind.BigUint64.code
          (RawPtrAdd true (State.initial 4).heap.backing_store
            (State.initial 4).heap.byte_offset) :=
  (accepted_kinds true (.JSTypedArray .BigUint64) (State.initial 4).heap (by decide)).2.1
    .BigUint64 rfl (by decide)

/-- C13 (access invariant). Assume the collaborator guarantee that the user code
of a coercion does not change the view's length unless it detaches the buffer.
Then in every execution of every operation that performs an atomic access, the
buffer is not detached after the last coercion, the index used by the access is
below the view's length as it stands after the last coercion, the access is the
last entry of the trace, at the address of that index, and each debug
assertion recorded by the call holds. -/
theorem access_invariant (Is64 : Bool) (op : Operation) (maybe_array : JSObject)
    (index value replacement : JSValue) (s : State)
    (hgi : lengthStable index.toInteger.effects = true)
    (hgv : ∀ v ∈ op.operands value replacement,
      lengthStable v.toInteger.effects = true ∧ lengthStable v.toBigInt.effects = true)
    (hacc : accesses (op.run Is64 maybe_array index value replacement s).2.trace
      ≠ accesses s.trace) :
    ∃ (kind : ElementsKind) (i : Nat) (events : List Event),
      maybe_array = .JSTypedArray kind ∧ index.toInteger.result = .value (i : Int) ∧
      (op.run Is64 maybe_array index value replacement s).2.heap.was_detached = false ∧
      i < (op.run Is64 maybe_array index value replacement s).2.heap.length ∧
      (op.run Is64 maybe_array index value replacement s).2.trace = s.trace ++ events ∧
      events.getLast? = some (Event.atomic kind.bytes (elementAddress Is64 s.heap kind i)) ∧
      ∀ b, Event.CSA_ASSERT b ∈ events → b = true := by
  obtain ⟨r, hret⟩ := Operation.run_accessed Is64 op maybe_array index value replacement s hacc
  obtain ⟨kind, i, zs, harr, hk, hnd, hi, hlt, hf, hr, hh, hnd2, ht⟩ :=
    Operation.run_returned Is64 op maybe_array index value replacement s r hret
  have hgk : ∀ v ∈ op.operands value replacement,
      lengthStable (kind.coercion v).effects = true := by
    intro v hv
    unfold ElementsKind.coercion
    split
    · exact (hgv v hv).2
    · exact (hgv v hv).1
  have hnd3 := hnd2
  rw [hh] at hnd3
  obtain ⟨hl1, hd1⟩ := heapAfter_stable kind _ _ hnd3 hgk
  simp only [applyEffects_was_detached, Bool.or_eq_false_iff] at hd1
  have hsi : resizes index.toInteger.effects = false := by
    simpa [lengthStable, hd1.2] using hgi
  have hlen : (op.run Is64 maybe_array index value replacement s).2.heap.length
      = s.heap.length := by
    rw [hh, hl1, applyEffects_length _ _ hsi]
  refine ⟨kind, i, ([Event.ToIndex index] ++ (op.operands value replacement).map
      kind.coercionEvent ++ op.debugChecks i
        (op.run Is64 maybe_array index value replacement s).2.heap) ++
      [Event.atomic kind.bytes (elementAddress Is64 s.heap kind i)],
    harr, hi, hnd2, by rw [hlen]; exact hlt, ?_, List.getLast?_concat _, ?_⟩
  · rw [ht]; simp
  · intro b hb
    rw [List.mem_append, List.mem_append, List.mem_append] at hb
    rcases hb with ((hb | hb) | hb) | hb
    · simp at hb
    · rw [List.mem_map] at hb
      obtain ⟨v, _, hb⟩ := hb
      unfold ElementsKind.coercionEvent at hb
      split at hb <;> cases hb
    · cases op <;> simp [Operation.debugChecks, hnd2, hlen, hlt] at hb <;> exact hb
    · simp at hb

theorem access_invariant_witness :
    ∃ (kind : ElementsKind) (i : Nat) (events : List Event),
      JSObject.JSTypedArray .Int32 = .JSTypedArray kind ∧
      (JSValue.number 1).toInteger.result = .value (i : Int) ∧
      (Operation.Add.run true (.JSTypedArray .Int32) (JSValue.number 1) (JSValue.number 5)
        (JSValue.number 0) (State.initial 4)).2.heap.was_detached = false ∧
      i < (Operation.Add.run true (.JSTypedArray .Int32) (JSValue.number 1) (JSValue.number 5)
        (JSValue.number 0) (State.initial 4)).2.heap.length ∧
      (Operation.Add.run true (.JSTypedArray .Int32) (JSValue.number 1) (JSValue.number 5)
        (JSValue.number 0) (State.initial 4)).2.trace = (State.initial 4).trace ++ events ∧
      events.getLast? = some (Event.atomic kind.bytes
        (elementAddress true (State.initial 4).heap kind i)) ∧
      ∀ b, Event.CSA_ASSERT b ∈ events → b = true :=
  access_invariant true .Add (.JSTypedArray .Int32) (JSValue.number 1) (JSValue.number 5)
    (JSValue.number 0) (State.initial 4) (by decide) (by decide) (by decide)

/-- C14, amended (no re-check between the index and the value coercion). In
every operation that takes a value, on a view of an accepted kind with an
in-range index, when the index coercion detaches the buffer the coercion of the
first value operand is still run, right after the index coercion; the operation
then fails with Detached if every value coercion succeeds, and with the
propagated failure of the first value operand if its coercion throws. -/
theorem value_coerced_after_detaching_index (Is64 : Bool) (op : Operation)
    (kind : ElementsKind) (index value replacement : JSValue) (s : State) (i : Nat)
    (hop : op ≠ .Load)
    (hk : kind.isInteger = true) (hnd : s.heap.was_detached = false)
    (hi : index.toInteger.result = .value (i : Int)) (hlt : i < s.heap.length)
    (hdet : detaches index.toInteger.effects = true) :
    (∃ more, (op.run Is64 (.JSTypedArray kind) index value replacement s).2.trace
      = s.trace ++ Event.ToIndex index :: kind.coercionEvent value :: more) ∧
    (∀ e, (kind.coercion value).result = .exception e →
      (op.run Is64 (.JSTypedArray kind) index value replacement s).1
        = .thrown (.propagated e)) ∧
    ((∀ v ∈ op.operands value replacement, ∃ z, (kind.coercion v).result = .value z) →
      (op.run Is64 (.JSTypedArray kind) index value replacement s).1
        = .thrown (.kDetachedOperation op.method_name)) := by
  rw [Operation.run_detaching Is64 op kind index value replacement s i hk hnd hi hlt hdet]
  obtain ⟨tl, hops⟩ : ∃ tl, op.operands value replacement = value :: tl := by
    cases op <;> first | exact absurd rfl hop | exact ⟨_, rfl⟩
  rw [hops]
  obtain ⟨more, hm⟩ := coerceAll_trace_cons kind value tl
    (s.afterCoercion index.toInteger (.ToIndex index))
  refine ⟨⟨more, ?_⟩, ?_, ?_⟩
  · rcases hco : coerceAll kind (value :: tl)
      (s.afterCoercion index.toInteger (.ToIndex index)) with ⟨r, s2⟩
    rw [hco] at hm
    cases r <;> simp only [] <;> rw [hm] <;> simp [State.afterCoercion]
  · intro e he
    simp [coerceAll, he]
  · intro hall
    obtain ⟨zs, hzs⟩ := coerceAll_ok_of kind (value :: tl)
      (s.afterCoercion index.toInteger (.ToIndex index)) hall
    rcases hco : coerceAll kind (value :: tl)
      (s.afterCoercion index.toInteger (.ToIndex index)) with ⟨r, s2⟩
    rw [hco] at hzs
    cases r with
    | error e => cases hzs
    | ok zs => rfl

theorem value_coerced_after_detaching_index_witness :
    (Operation.Xor.run true (.JSTypedArray .Uint16) (JSValue.detaching 1) (JSValue.number 3)
        (JSValue.number 0) (State.initial 4)).1
      = .thrown (.kDetachedOperation Operation.Xor.method_name) :=
  (value_coerced_after_detaching_index true .Xor .Uint16 (JSValue.detaching 1)
    (JSValue.number 3) (JSValue.number 0) (State.initial 4) 1 (by decide) (by decide)
    (by decide) (by decide) (by decide) (by decide)).2.2
    (by intro v hv; exact ⟨3, by simp [Operation.operands] at hv; subst hv; rfl⟩)

/-- C14 as stated fails: in Exchange on an Int32 view of length 4, after an
index operand whose coercion detaches the buffer, the value operand is still
coerced (its `ToInteger` call is in the trace) and, as that coercion throws,
its exception is the failure reported, not Detached. -/
theorem recheck_before_value_coercion_counterexample :
    (AtomicsExchange true (.JSTypedArray .Int32) (JSValue.detaching 0) (JSValue.throwing 7)
        (State.initial 4)).2.trace
      = [Event.ToIndex (JSValue.detaching 0), Event.ToInteger (JSValue.throwing 7)] ∧
    (AtomicsExchange true (.JSTypedArray .Int32) (JSValue.detaching 0) (JSValue.throwing 7)
        (State.initial 4)).1 = .thrown (.propagated 7) ∧
    (AtomicsStore true (.JSTypedArray .Int32) (JSValue.detaching 0) (JSValue.number 5)
        (State.initial 4)).2.trace
      = [Event.ToIndex (JSValue.detaching 0), Event.ToInteger (JSValue.number 5)] := by
  decide

/-- C15, amended (the base address is computed once). In every execution of
every operation that performs an atomic access, the access is made at
`buffer.base + view.byteOffset + i * W` for the base and byte offset that
`ValidateIntegerTypedArray` read at the start of the call, before any coercion
ran; this is the address computed from the base as read after the last
coercion whenever the coercions have left the buffer's base in place. -/
theorem base_address_cached (Is64 : Bool) (op : Operation) (maybe_array : JSObject)
    (index value replacement : JSValue) (s : State)
    (hacc : accesses (op.run Is64 maybe_array index value replacement s).2.trace
      ≠ accesses s.trace) :
    ∃ (kind : ElementsKind) (i : Nat) (events : List Event),
      maybe_array = .JSTypedArray kind ∧ index.toInteger.result = .value (i : Int) ∧
      ValidateIntegerTypedArray Is64 maybe_array s.heap
        = .not_float_or_clamped kind.code
            (RawPtrAdd Is64 s.heap.backing_store s.heap.byte_offset) ∧
      (op.run Is64 maybe_array index value replacement s).2.trace = s.trace ++ events ∧
      events.getLast? = some (Event.atomic kind.bytes (elementAddress Is64 s.heap kind i)) ∧
      ((op.run Is64 maybe_array index value replacement s).2.heap.backing_store
          = s.heap.backing_store →
        elementAddress Is64 (op.run Is64 maybe_array index value replacement s).2.heap kind i
          = elementAddress Is64 s.heap kind i) := by
  obtain ⟨r, hret⟩ := Operation.run_accessed Is64 op maybe_array index value replacement s hacc
  obtain ⟨kind, i, zs, harr, hk, hnd, hi, hlt, hf, hr, hh, hnd2, ht⟩ :=
    Operation.run_returned Is64 op maybe_array index value replacement s r hret
  refine ⟨kind, i, ([Event.ToIndex index] ++ (op.operands value replacement).map
      kind.coercionEvent ++ op.debugChecks i
        (op.run Is64 maybe_array index value replacement s).2.heap) ++
      [Event.atomic kind.bytes (elementAddress Is64 s.heap kind i)],
    harr, hi, ?_, ?_, List.getLast?_concat _, ?_⟩
  · subst harr
    cases kind <;> simp [ElementsKind.isInteger] at hk <;>
      simp [ValidateIntegerTypedArray, IsDetachedBuffer, hnd, ElementsKind.code,
        FLOAT32_ELEMENTS, UINT8_CLAMPED_ELEMENTS]
  · rw [ht]; simp
  · intro hb
    apply elementAddress_congr _ _ _ _ _ hb
    rw [hh, heapAfter_byte_offset]
    simp

theorem base_address_cached_witness :
    ∃ (kind : ElementsKind) (i : Nat) (events : List Event),
      JSObject.JSTypedArray .Int32 = .JSTypedArray kind ∧
      (JSValue.number 1).toInteger.result = .value (i : Int) ∧
      ValidateIntegerTypedArray true (.JSTypedArray .Int32) (State.initial 4).heap
        = .not_float_or_clamped kind.code
            (RawPtrAdd true (State.initial 4).heap.backing_store
              (State.initial 4).heap.byte_offset) ∧
      (Operation.Store.run true (.JSTypedArray .Int32) (JSValue.number 1)
        (JSValue.relocating 5 8192) (JSValue.number 0) (State.initial 4)).2.trace
          = (State.initial 4).trace ++ events ∧
      events.getLast? = some (Event.atomic kind.bytes
        (elementAddress true (State.initial 4).heap kind i)) ∧
      ((Operation.Store.run true (.JSTypedArray .Int32) (JSValue.number 1)
          (JSValue.relocating 5 8192) (JSValue.number 0) (State.initial 4)).2.heap.backing_store
          = (State.initial 4).heap.backing_store →
        elementAddress true (Operation.Store.run true (.JSTypedArray .Int32) (JSValue.number 1)
          (JSValue.relocating 5 8192) (JSValue.number 0) (State.initial 4)).2.heap kind i
          = elementAddress true (State.initial 4).heap kind i) :=
  base_address_cached true .Store (.JSTypedArray .Int32) (JSValue.number 1)
    (JSValue.relocating 5 8192) (JSValue.number 0) (State.initial 4) (by decide)

/-- C15 as stated fails: in Store on an Int32 view of a buffer based at 4096
(byte offset 16), a value operand whose coercion moves the buffer's base to
8192 without detaching it is followed by an access at 4112, the address
computed before the coercion, not at 8208, the address computed from the base
as read after it; a Load that follows reads the element at the new base and
does not see the stored 5. -/
theorem base_address_recomputed_counterexample :
    (AtomicsStore true (.JSTypedArray .Int32) (JSValue.number 0) (JSValue.relocating 5 8192)
        (State.initial 4)).1 = .returned (.number 5) ∧
    (AtomicsStore true (.JSTypedArray .Int32) (JSValue.number 0) (JSValue.relocating 5 8192)
        (State.initial 4)).2.heap.was_detached = false ∧
    (AtomicsStore true (.JSTypedArray .Int32) (JSValue.number 0) (JSValue.relocating 5 8192)
        (State.initial 4)).2.heap.backing_store = 8192 ∧
    accesses (AtomicsStore true (.JSTypedArray .Int32) (JSValue.number 0)
        (JSValue.relocating 5 8192) (State.initial 4)).2.trace = [Event.atomic 4 4112] ∧
    elementAddress true (AtomicsStore true (.JSTypedArray .Int32) (JSValue.number 0)
        (JSValue.relocating 5 8192) (State.initial 4)).2.heap .Int32 0 = 8208 ∧
    (AtomicsLoad true (.JSTypedArray .Int32) (JSValue.number 0)
      (AtomicsStore true (.JSTypedArray .Int32) (JSValue.number 0) (JSValue.relocating 5 8192)
        (State.initial 4)).2).1 = .returned (.number 0) := by
  decide

/-- C16 (result encoding range). Whenever an operation other than Store returns
a value, that value is the element as it was before the call, decoded from its
`width`-bit pattern: for an unsigned kind the pattern itself, in `[0, 2^w)`;
for a signed kind the integer of `[-2^(w-1), 2^(w-1))` congruent to the
pattern modulo `2^w`. It is a BigInt for the two 64-bit kinds and a Number
otherwise. -/
theorem result_range (Is64 : Bool) (op : Operation) (maybe_array : JSObject)
    (index value replacement : JSValue) (s : State) (r : Tagged)
    (hop : op ≠ .Store)
    (hret : (op.run Is64 maybe_array index value replacement s).1 = .returned r) :
    ∃ (kind : ElementsKind) (i : Nat),
      maybe_array = .JSTypedArray kind ∧ kind.isInteger = true ∧
      index.toInteger.result = .value (i : Int) ∧
      r = kind.tag (kind.decode (elementBits Is64 kind i s)) ∧
      elementBits Is64 kind i s < 2 ^ kind.bits ∧
      (kind.isSigned = false →
        kind.decode (elementBits Is64 kind i s) = (elementBits Is64 kind i s : Int) ∧
        0 ≤ kind.decode (elementBits Is64 kind i s) ∧
        kind.decode (elementBits Is64 kind i s) < 2 ^ kind.bits) ∧
      (kind.isSigned = true →
        kind.decode (elementBits Is64 kind i s) % 2 ^ kind.bits
          = (elementBits Is64 kind i s : Int) ∧
        -2 ^ (kind.bits - 1) ≤ kind.decode (elementBits Is64 kind i s) ∧
        kind.decode (elementBits Is64 kind i s) < 2 ^ (kind.bits - 1)) := by
  obtain ⟨kind, i, zs, harr, hk, hnd, hi, hlt, hf, hr, hh, hnd2, ht⟩ :=
    Operation.run_returned Is64 op maybe_array index value replacement s r hret
  have hlt2 := elementBits_lt Is64 kind i s
  obtain ⟨h1, h2⟩ := ElementsKind.decode_range kind _ hlt2
  refine ⟨kind, i, harr, hk, hi, ?_, ?_, h1, h2⟩
  · rw [hr]
    cases op <;> first | exact absurd rfl hop | rfl
  · rw [pow256] at hlt2
    exact hlt2

theorem result_range_witness :
    ∃ (kind : ElementsKind) (i : Nat),
      JSObject.JSTypedArray .Int8 = .JSTypedArray kind ∧ kind.isInteger = true ∧
      (JSValue.number 0).toInteger.result = .value (i : Int) ∧
      Tagged.number (-56) = kind.tag (kind.decode (elementBits true kind i
        (State.afterStore .Int8 200))) ∧
      elementBits true kind i (State.afterStore .Int8 200) < 2 ^ kind.bits ∧
      (kind.isSigned = false →
        kind.decode (elementBits true kind i (State.afterStore .Int8 200))
          = (elementBits true kind i (State.afterStore .Int8 200) : Int) ∧
        0 ≤ kind.decode (elementBits true kind i (State.afterStore .Int8 200)) ∧
        kind.decode (elementBits true kind i (State.afterStore .Int8 200)) < 2 ^ kind.bits) ∧
      (kind.isSigned = true →
        kind.decode (elementBits true kind i (State.afterStore .Int8 200)) % 2 ^ kind.bits
          = (elementBits true kind i (State.afterStore .Int8 200) : Int) ∧
        -2 ^ (kind.bits - 1) ≤ kind.decode (elementBits true kind i
          (State.afterStore .Int8 200)) ∧
        kind.decode (elementBits true kind i (State.afterStore .Int8 200))
          < 2 ^ (kind.bits - 1)) :=
  result_range true .Load (.JSTypedArray .Int8) (JSValue.number 0) (JSValue.number 0)
    (JSValue.number 0) (State.afterStore .Int8 200) (.number (-56)) (by decide) (by decide)

/-- C17, amended (one primitive for both 64-bit kinds). For every operation,
every state and all operands, running the operation on a BigInt64 view and on a BigUint64
view of the same buffer leaves the same state, hence the same memory and the
same atomic accesses, and the two completions are the same failure, or two
BigInts congruent modulo `2 ^ 64`: for Store the same operand as coerced, for
the other operations the old element read signed and unsigned, the signed
result being the unsigned one reinterpreted in two's complement. -/
theorem signed_unsigned_64 (Is64 : Bool) (op : Operation)
    (index value replacement : JSValue) (s : State) :
    (op.run Is64 (.JSTypedArray .BigInt64) index value replacement s).2
      = (op.run Is64 (.JSTypedArray .BigUint64) index value replacement s).2 ∧
    (((op.run Is64 (.JSTypedArray .BigInt64) index value replacement s).1.isFailure = true ∧
        (op.run Is64 (.JSTypedArray .BigInt64) index value replacement s).1
          = (op.run Is64 (.JSTypedArray .BigUint64) index value replacement s).1) ∨
      ∃ a b : Int,
        (op.run Is64 (.JSTypedArray .BigInt64) index value replacement s).1
          = .returned (.bigint a) ∧
        (op.run Is64 (.JSTypedArray .BigUint64) index value replacement s).1
          = .returned (.bigint b) ∧
        a % 2 ^ 64 = b % 2 ^ 64 ∧
        (op = .Store → a = b) ∧ (op ≠ .Store → a = canonicalize .BigInt64 b)) := by
  rw [Operation.run_eq_pipeline, Operation.run_eq_pipeline]
  simp only [pipeline, ElementsKind.isInteger, coerceAll_BigInt64]
  split
  · exact ⟨rfl, Or.inl ⟨rfl, rfl⟩⟩
  · simp only [Bool.true_eq_false, if_false]
    split
    · exact ⟨rfl, Or.inl ⟨rfl, rfl⟩⟩
    · rename_i z hz
      split
      · exact ⟨rfl, Or.inl ⟨rfl, rfl⟩⟩
      · rcases hco : coerceAll .BigUint64 (op.operands value replacement)
          (s.afterCoercion index.toInteger (.ToIndex index)) with ⟨r, s2⟩
        cases r with
        | error e => exact ⟨rfl, Or.inl ⟨rfl, rfl⟩⟩
        | ok zs =>
          simp only []
          split
          · exact ⟨rfl, Or.inl ⟨rfl, rfl⟩⟩
          · have hraw := elementBits_lt Is64 .BigUint64 z.toNat (s2.withView s.heap)
            obtain ⟨hd1, hd2⟩ := decode_BigInt64 _ hraw
            have hbits : elementBits Is64 .BigInt64 z.toNat (s2.withView s.heap)
                = elementBits Is64 .BigUint64 z.toNat (s2.withView s.heap) := rfl
            cases op
            case Store =>
              refine ⟨rfl, Or.inr ⟨zs.getD 0 0, zs.getD 0 0, rfl, rfl, rfl, fun _ => rfl, ?_⟩⟩
              intro h; exact absurd rfl h
            all_goals
              refine ⟨?_, Or.inr ⟨_, _, rfl, rfl, hd1, ?_, fun _ => hd2⟩⟩
              · simp [Operation.execute, executeLoad, executeReadModifyWrite,
                  executeCompareExchange, accessEvent, elementAddress, elementBits,
                  ElementsKind.bytes, ElementsKind.encode, ElementsKind.bits, State.withView]
              · intro h; cases h

/-- C17 as stated fails for Store: `Store(view, 0, 2^63)` returns `2^63`, the
operand as coerced, on a BigInt64 view and on a BigUint64 view alike, so the
result on the signed view is not the result on the unsigned view read in
two's complement, which is `-2^63`. -/
theorem signed_result_reinterpreted_counterexample :
    (AtomicsStore true (.JSTypedArray .BigInt64) (JSValue.number 0) (JSValue.bigint (2 ^ 63))
        (State.initial 4)).1 = .returned (.bigint (2 ^ 63)) ∧
    (AtomicsStore true (.JSTypedArray .BigUint64) (JSValue.number 0) (JSValue.bigint (2 ^ 63))
        (State.initial 4)).1 = .returned (.bigint (2 ^ 63)) ∧
    canonicalize .BigInt64 (2 ^ 63) = -2 ^ 63 ∧
    (2 : Int) ^ 63 ≠ canonicalize .BigInt64 (2 ^ 63) := by
  decide

/-- C18 (the unreachable arms are unreachable). No operation ever ends in an
`Unreachable()`, whatever its inputs, and an operation that has performed its
atomic access returns a value. For an accepted kind, the eight-way dispatch of
Load selects one of its arms; the test `kind > INT32` is passed by BigInt64 and
BigUint64 only, which are the two kinds tested on the 64-bit path, and for the
other six kinds the six-way dispatches of Store and of the other operations
select one of their arms. -/
theorem unreachable_arms (Is64 : Bool) (op : Operation) (maybe_array : JSObject)
    (index value replacement : JSValue) (s : State) (kind : ElementsKind)
    (hk : kind.isInteger = true) :
    (op.run Is64 maybe_array index value replacement s).1 ≠ .unreachable ∧
    (accesses (op.run Is64 maybe_array index value replacement s).2.trace ≠ accesses s.trace →
      ∃ r, (op.run Is64 maybe_array index value replacement s).1 = .returned r) ∧
    Switch kind.code .other
      [(INT8_ELEMENTS, .i8), (UINT8_ELEMENTS, .u8), (INT16_ELEMENTS, .i16),
       (UINT16_ELEMENTS, .u16), (INT32_ELEMENTS, .i32), (UINT32_ELEMENTS, .u32),
       (BIGINT64_ELEMENTS, .i64), (BIGUINT64_ELEMENTS, .u64)] ≠ .other ∧
    (kind.code > INT32_ELEMENTS →
      kind.code = BIGINT64_ELEMENTS ∨ kind.code = BIGUINT64_ELEMENTS) ∧
    (¬ kind.code > INT32_ELEMENTS →
      Switch kind.code .other
        [(INT8_ELEMENTS, .u8), (UINT8_ELEMENTS, .u8), (INT16_ELEMENTS, .u16),
         (UINT16_ELEMENTS, .u16), (INT32_ELEMENTS, .u32), (UINT32_ELEMENTS, .u32)]
        ∈ [Label.u8, .u16, .u32] ∧
      Switch kind.code .other
        [(INT8_ELEMENTS, .i8), (UINT8_ELEMENTS, .u8), (INT16_ELEMENTS, .i16),
         (UINT16_ELEMENTS, .u16), (INT32_ELEMENTS, .i32), (UINT32_ELEMENTS, .u32)]
        ∈ [Label.i8, .u8, .i16, .u16, .i32, .u32]) := by
  refine ⟨?_, Operation.run_accessed Is64 op maybe_array index value replacement s, ?_, ?_, ?_⟩
  · intro h
    rcases pipeline_failure_quiet op.method_name (op.operands value replacement)
      (op.execute Is64) (Operation.execute_returned Is64 op) maybe_array index s with ⟨v, hv⟩ | _
    · rw [Operation.run_eq_pipeline, hv] at h
      cases h
    · rw [Operation.run_eq_pipeline] at h
      unfold pipeline at h
      split at h
      · split at h
        · cases h
        · split at h
          · cases h
          · simp only [] at h
            split at h
            · cases h
            · split at h
              · cases h
              · split at h
                · cases h
                · split at h
                  · cases h
                  · obtain ⟨v, hv⟩ := Operation.execute_returned Is64 op _ _ _ _ _
                    rw [hv] at h
                    cases h
      · cases h
  all_goals
    cases kind <;> simp [ElementsKind.isInteger] at hk <;>
      simp [Switch, ElementsKind.code, INT8_ELEMENTS, UINT8_ELEMENTS, INT16_ELEMENTS,
        UINT16_ELEMENTS, INT32_ELEMENTS, UINT32_ELEMENTS, BIGINT64_ELEMENTS, BIGUINT64_ELEMENTS]

theorem unreachable_arms_witness :
    (Operation.CompareExchange.run false (.JSTypedArray .BigInt64) (JSValue.number 0)
      (JSValue.bigint 0) (JSValue.bigint 1) (State.initial 4)).1 ≠ .unreachable :=
  (unreachable_arms false .CompareExchange (.JSTypedArray .BigInt64) (JSValue.number 0)
    (JSValue.bigint 0) (JSValue.bigint 1) (State.initial 4) .BigInt64 (by decide)).1

/-- C19 (coercion path selection). For an accepted kind, the test `kind > INT32`
holds exactly for BigInt64 and BigUint64, whose operands are coerced by
`ToBigInt`, while the operands of the six kinds of width at most 32 are
coerced by `ToInteger`. On a valid access, when every value coercion succeeds
the coercion calls of the operation are the index coercion followed by one
call per value operand, in order, on the path of the kind; and when a value
operand throws after the ones before it succeeded, the calls stop at that
operand and its exception is the failure of the operation, unchanged. -/
theorem coercion_path (Is64 : Bool) (op : Operation) (kind : ElementsKind)
    (index value replacement : JSValue) (s : State) (i : Nat)
    (hk : kind.isInteger = true) (hnd : s.heap.was_detached = false)
    (hi : index.toInteger.result = .value (i : Int)) (hlt : i < s.heap.length) :
    ((kind.code > INT32_ELEMENTS) ↔ (kind = .BigInt64 ∨ kind = .BigUint64)) ∧
    (∀ v, kind.coercionEvent v
      = if kind = .BigInt64 ∨ kind = .BigUint64 then Event.ToBigInt v else Event.ToInteger v) ∧
    (∀ v, kind.coercion v
      = if kind = .BigInt64 ∨ kind = .BigUint64 then v.toBigInt else v.toInteger) ∧
    ((∀ v ∈ op.operands value replacement, ∃ z, (kind.coercion v).result = .value z) →
      coercions (op.run Is64 (.JSTypedArray kind) index value replacement s).2.trace
        = coercions s.trace ++
            Event.ToIndex index :: (op.operands value replacement).map kind.coercionEvent) ∧
    (∀ pre v rest e, op.operands value replacement = pre ++ v :: rest →
      (∀ u ∈ pre, ∃ z, (kind.coercion u).result = .value z) →
      (kind.coercion v).result = .exception e →
      (op.run Is64 (.JSTypedArray kind) index value replacement s).1
          = .thrown (.propagated e) ∧
      coercions (op.run Is64 (.JSTypedArray kind) index value replacement s).2.trace
        = coercions s.trace ++
            Event.ToIndex index :: (pre ++ [v]).map kind.coercionEvent) := by
  have hrun := Operation.run_valid Is64 op kind index value replacement s i hk hnd hi hlt
  have hs1 : coercions (s.afterCoercion index.toInteger (.ToIndex index)).trace
      = coercions s.trace ++ [Event.ToIndex index] := by
    simp [State.afterCoercion, coercions, List.filter_cons, Event.isCoercion]
  refine ⟨?_, ?_, ?_, ?_, ?_⟩
  · cases kind <;> simp [ElementsKind.isInteger] at hk <;>
      simp [ElementsKind.code, INT32_ELEMENTS]
  · intro v
    cases kind <;> simp [ElementsKind.coercionEvent, ElementsKind.isBigInt]
  · intro v
    cases kind <;> simp [ElementsKind.coercion, ElementsKind.isBigInt]
  · intro hall
    obtain ⟨zs, hzs⟩ := coerceAll_ok_of kind (op.operands value replacement)
      (s.afterCoercion index.toInteger (.ToIndex index)) hall
    rw [hrun]
    rcases hco : coerceAll kind (op.operands value replacement)
      (s.afterCoercion index.toInteger (.ToIndex index)) with ⟨r, s2⟩
    rw [hco] at hzs
    cases r with
    | error e => cases hzs
    | ok zs1 =>
      obtain ⟨_, ht, _, _⟩ := coerceAll_ok_spec kind _ _ _ _ hco
      have hc2 : coercions s2.trace = coercions s.trace ++
          Event.ToIndex index :: (op.operands value replacement).map kind.coercionEvent := by
        rw [ht, coercions_append, hs1, coercions_map]
        simp
      simp only []
      split
      · exact hc2
      · rw [coercions_execute]
        exact hc2
  · intro pre v rest e hops hpre hv
    obtain ⟨h1, h2, _⟩ := coerceAll_throw kind pre v rest e
      (s.afterCoercion index.toInteger (.ToIndex index)) hpre hv
    rw [hrun, hops]
    rcases hco : coerceAll kind (pre ++ v :: rest)
      (s.afterCoercion index.toInteger (.ToIndex index)) with ⟨r, s2⟩
    rw [hco] at h1 h2
    cases r with
    | ok zs => cases h1
    | error e1 =>
      simp only [Except.error.injEq] at h1
      subst h1
      refine ⟨rfl, ?_⟩
      simp only [] at h2 ⊢
      rw [h2, coercions_append, hs1, coercions_map]
      simp

theorem coercion_path_witness :
    coercions (Operation.CompareExchange.run true (.JSTypedArray .BigUint64)
        (JSValue.number 0) (JSValue.bigint 1) (JSValue.bigint 2) (State.initial 4)).2.trace
      = coercions (State.initial 4).trace ++
          Event.ToIndex (JSValue.number 0) ::
            (Operation.CompareExchange.operands (JSValue.bigint 1) (JSValue.bigint 2)).map
              ElementsKind.BigUint64.coercionEvent :=
  (coercion_path true .CompareExchange .BigUint64 (JSValue.number 0) (JSValue.bigint 1)
    (JSValue.bigint 2) (State.initial 4) 0 (by decide) (by decide) (by decide)
    (by decide)).2.2.2.1
    (by
      intro v hv
      simp only [Operation.operands, List.mem_cons, List.mem_singleton, List.not_mem_nil,
        or_false] at hv
      rcases hv with rfl | rfl
      · exact ⟨1, rfl⟩
      · exact ⟨2, rfl⟩)

/-- C20 (the index is coerced and checked before any value). On a view of an
accepted kind over a non-detached buffer: when the index coerces to an integer
that is out of range, every operation fails with InvalidIndex and the index
coercion is the only entry it adds to the trace, so no value coercion is run,
whatever it would do; and in CompareExchange with an in-range index, when the
coercion of the expected operand throws, that exception is reported and the
replacement operand is not coerced. -/
theorem index_before_values (Is64 : Bool) (op : Operation) (kind : ElementsKind)
    (index value replacement : JSValue) (s : State)
    (hk : kind.isInteger = true) (hnd : s.heap.was_detached = false) :
    (∀ z, index.toInteger.result = .value z → (z < 0 ∨ (s.heap.length : Int) ≤ z) →
      (op.run Is64 (.JSTypedArray kind) index value replacement s).1
          = .thrown .kInvalidAtomicAccessIndex ∧
      (op.run Is64 (.JSTypedArray kind) index value replacement s).2.trace
          = s.trace ++ [Event.ToIndex index]) ∧
    (∀ (i : Nat) e, index.toInteger.result = .value (i : Int) → i < s.heap.length →
      (kind.coercion value).result = .exception e →
      (AtomicsCompareExchange Is64 (.JSTypedArray kind) index value replacement s).1
          = .thrown (.propagated e) ∧
      (AtomicsCompareExchange Is64 (.JSTypedArray kind) index value replacement s).2.trace
          = s.trace ++ [Event.ToIndex index, kind.coercionEvent value]) := by
  constructor
  · intro z hi hz
    have h : z < 0 ∨ s.heap.length ≤ z.toNat := by omega
    rw [Operation.run_eq_pipeline]
    simp [pipeline, hk, hnd, hi, h, State.afterCoercion]
  · intro i e hi hlt hv
    have hneg : ¬ ((i : Int) < 0) := by omega
    have hlen : ¬ s.heap.length ≤ i := by omega
    rw [AtomicsCompareExchange_eq_pipeline]
    simp [pipeline, hk, hnd, hi, hneg, hlen, coerceAll, hv, State.afterCoercion]

theorem index_before_values_witness :
    (Operation.Store.run true (.JSTypedArray .Int32) (JSValue.number 4) (JSValue.throwing 7)
        (JSValue.number 0) (State.initial 4)).1 = .thrown .kInvalidAtomicAccessIndex ∧
    (Operation.Store.run true (.JSTypedArray .Int32) (JSValue.number 4) (JSValue.throwing 7)
        (JSValue.number 0) (State.initial 4)).2.trace
      = (State.initial 4).trace ++ [Event.ToIndex (JSValue.number 4)] :=
  (index_before_values true .Store .Int32 (JSValue.number 4) (JSValue.throwing 7)
    (JSValue.number 0) (State.initial 4) (by decide) (by decide)).1 4 (by decide) (by decide)

/-- C21 (effective address). In every execution of every operation that
performs an atomic access, the view is of an accepted kind of width `W` bytes,
the index `i` is below the length read at validation, and the call makes
exactly one atomic access, of `W` bytes, at the address the code computes as
`RawPtrAdd (RawPtrAdd base byteOffset) (WordShl i shift)` from the base and the
byte offset read at validation, where `shift` is one of 0, 1, 2, 3 and
`2 ^ shift = W`. The shifted index is `i * W`, not wrapped, whenever
`length * W` fits in a machine word; the accessed bytes `[i * W, i * W + W)`
lie inside the view's range `[0, length * W)`; the address is
`base + byteOffset + i * W` itself whenever the view lies inside the address
space; and every byte of the memory outside the `W` accessed bytes is left as
it was. -/
theorem effective_address (Is64 : Bool) (op : Operation) (maybe_array : JSObject)
    (index value replacement : JSValue) (s : State)
    (hacc : accesses (op.run Is64 maybe_array index value replacement s).2.trace
      ≠ accesses s.trace) :
    ∃ (kind : ElementsKind) (i shift : Nat),
      maybe_array = .JSTypedArray kind ∧ kind.isInteger = true ∧
      index.toInteger.result = .value (i : Int) ∧ i < s.heap.length ∧
      shift ≤ 3 ∧ 2 ^ shift = kind.bytes ∧
      accesses (op.run Is64 maybe_array index value replacement s).2.trace
        = accesses s.trace ++ [Event.atomic kind.bytes
            (RawPtrAdd Is64 (RawPtrAdd Is64 s.heap.backing_store s.heap.byte_offset)
              (WordShl Is64 i shift))] ∧
      (s.heap.length * kind.bytes < 2 ^ wordBits Is64 →
        WordShl Is64 i shift = i * kind.bytes) ∧
      i * kind.bytes + kind.bytes ≤ s.heap.length * kind.bytes ∧
      (s.heap.backing_store + s.heap.byte_offset + s.heap.length * kind.bytes
          ≤ 2 ^ wordBits Is64 →
        RawPtrAdd Is64 (RawPtrAdd Is64 s.heap.backing_store s.heap.byte_offset)
            (WordShl Is64 i shift)
          = s.heap.backing_store + s.heap.byte_offset + i * kind.bytes) ∧
      ∀ a, (a < RawPtrAdd Is64 (RawPtrAdd Is64 s.heap.backing_store s.heap.byte_offset)
              (WordShl Is64 i shift) ∨
            RawPtrAdd Is64 (RawPtrAdd Is64 s.heap.backing_store s.heap.byte_offset)
              (WordShl Is64 i shift) + kind.bytes ≤ a) →
        (op.run Is64 maybe_array index value replacement s).2.memory a = s.memory a := by
  obtain ⟨r, hret⟩ := Operation.run_accessed Is64 op maybe_array index value replacement s hacc
  rw [Operation.run_eq_pipeline] at hret ⊢
  obtain ⟨kind, i, zs, s2, harr, hk, hnd, hi, hlt, hco, hnd2, hrun⟩ :=
    pipeline_returned _ _ _ _ _ _ _ hret
  obtain ⟨hm, ht, hh, hf⟩ := coerceAll_ok_spec kind _ _ _ _ hco
  obtain ⟨e1, e2, e3⟩ := Operation.execute_spec Is64 op kind s.heap i zs s2
  obtain ⟨shift, hs3, hs⟩ := ElementsKind.shift_exists kind
  have haddr := address_of_shift Is64 s.heap kind i shift hs
  have hmul : i * kind.bytes + kind.bytes ≤ s.heap.length * kind.bytes := by
    have : (i + 1) * kind.bytes ≤ s.heap.length * kind.bytes :=
      Nat.mul_le_mul_right _ hlt
    rw [Nat.add_mul, Nat.one_mul] at this
    exact this
  have hpos : 0 < kind.bytes := by cases kind <;> decide
  refine ⟨kind, i, shift, harr, hk, hi, hlt, hs3, hs, ?_, ?_, hmul, ?_, ?_⟩
  · rw [hrun, e3, ht, haddr]
    simp only [State.afterCoercion, List.append_assoc, List.singleton_append]
    exact accesses_run_trace op kind index _ i s2.heap s.trace _ _
  · intro hfit
    simp only [WordShl, hs]
    exact Nat.mod_eq_of_lt (by omega)
  · intro hfit
    rw [haddr]
    simp only [elementAddress]
    exact Nat.mod_eq_of_lt (by omega)
  · intro a ha
    rw [haddr] at ha
    rw [hrun, Operation.execute_frame Is64 op kind s.heap i zs s2 a ha, hm]
    rfl

theorem effective_address_witness :
    ∃ (kind : ElementsKind) (i shift : Nat),
      JSObject.JSTypedArray .Uint16 = .JSTypedArray kind ∧ kind.isInteger = true ∧
      (JSValue.number 3).toInteger.result = .value (i : Int) ∧
      i < (State.initial 4).heap.length ∧
      shift ≤ 3 ∧ 2 ^ shift = kind.bytes ∧
      accesses (Operation.Exchange.run true (.JSTypedArray .Uint16) (JSValue.number 3)
          (JSValue.number 5) (JSValue.number 0) (State.initial 4)).2.trace
        = accesses (State.initial 4).trace ++ [Event.atomic kind.bytes
            (RawPtrAdd true (RawPtrAdd true (State.initial 4).heap.backing_store
              (State.initial 4).heap.byte_offset) (WordShl true i shift))] ∧
      ((State.initial 4).heap.length * kind.bytes < 2 ^ wordBits true →
        WordShl true i shift = i * kind.bytes) ∧
      i * kind.bytes + kind.bytes ≤ (State.initial 4).heap.length * kind.bytes ∧
      ((State.initial 4).heap.backing_store + (State.initial 4).heap.byte_offset
          + (State.initial 4).heap.length * kind.bytes ≤ 2 ^ wordBits true →
        RawPtrAdd true (RawPtrAdd true (State.initial 4).heap.backing_store
            (State.initial 4).heap.byte_offset) (WordShl true i shift)
          = (State.initial 4).heap.backing_store + (State.initial 4).heap.byte_offset
              + i * kind.bytes) ∧
      ∀ a, (a < RawPtrAdd true (RawPtrAdd true (State.initial 4).heap.backing_store
              (State.initial 4).heap.byte_offset) (WordShl true i shift) ∨
            RawPtrAdd true (RawPtrAdd true (State.initial 4).heap.backing_store
              (State.initial 4).heap.byte_offset) (WordShl true i shift) + kind.bytes ≤ a) →
        (Operation.Exchange.run true (.JSTypedArray .Uint16) (JSValue.number 3)
          (JSValue.number 5) (JSValue.number 0) (State.initial 4)).2.memory a
          = (State.initial 4).memory a :=
  effective_address true .Exchange (.JSTypedArray .Uint16) (JSValue.number 3)
    (JSValue.number 5) (JSValue.number 0) (State.initial 4) (by decide)

/-- C22 (the name carried by the Detached error). Whenever an operation fails
with Detached, at the first check or at the re-check after the coercions, the
error carries the operation's own name for Load, Store, Exchange, Add, Sub,
And, Or and Xor; for CompareExchange it carries "Atomics.store", which is not
the name of that operation. -/
theorem detached_error_name (Is64 : Bool) (op : Operation) (maybe_array : JSObject)
    (index value replacement : JSValue) (s : State) (name : String)
    (h : (op.run Is64 maybe_array index value replacement s).1
      = .thrown (.kDetachedOperation name)) :
    (op ≠ .CompareExchange → name = op.ownName) ∧
    (op = .CompareExchange → name = "Atomics.store" ∧ name ≠ op.ownName) := by
  rw [Operation.run_eq_pipeline] at h
  have hn := pipeline_detached_name _ _ _ (Operation.execute_returned Is64 op) _ _ _ _ h
  subst hn
  cases op <;> simp [Operation.method_name, Operation.ownName]

theorem detached_error_name_witness :
    (AtomicsCompareExchange true (.JSTypedArray .Int32) (JSValue.number 0) (JSValue.number 0)
        (JSValue.number 0) (State.detached 4)).1
      = .thrown (.kDetachedOperation "Atomics.store") ∧
    "Atomics.store" ≠ Operation.CompareExchange.ownName :=
  ⟨by decide,
   ((detached_error_name true .CompareExchange (.JSTypedArray .Int32) (JSValue.number 0)
      (JSValue.number 0) (JSValue.number 0) (State.detached 4) "Atomics.store"
      (by decide)).2 rfl).2⟩

/-- C23 (Store returns the operand as coerced). A successful Store at index `i`
whose operand coerces to `z` on the path of the kind returns `z` itself: the
Number that `toInteger` gave for the kinds of width at most 32 bits, the BigInt
that `toBigInt` gave for the 64-bit kinds, not truncated; the element written
then holds `canonicalize kind z`; and Store returns that same result on every
accepted kind of the same coercion path, whatever its width and signedness. -/
theorem store_returns_coerced (Is64 : Bool) (kind : ElementsKind) (index value : JSValue)
    (s : State) (i : Nat) (z : Int) (r : Tagged)
    (hi : index.toInteger.result = .value (i : Int))
    (hv : (kind.coercion value).result = .value z)
    (hret : (AtomicsStore Is64 (.JSTypedArray kind) index value s).1 = .returned r) :
    r = kind.tag z ∧
    (kind.bits ≤ 32 → value.toInteger.result = .value z ∧ r = .number z) ∧
    (kind.bits = 64 → value.toBigInt.result = .value z ∧ r = .bigint z) ∧
    elementValue Is64 kind i
        ((AtomicsStore Is64 (.JSTypedArray kind) index value s).2.withView s.heap)
      = canonicalize kind z ∧
    ∀ kind2 : ElementsKind, kind2.isInteger = true → kind2.isBigInt = kind.isBigInt →
      (AtomicsStore Is64 (.JSTypedArray kind2) index value s).1 = .returned r := by
  have hrun2 : ∀ k : ElementsKind, AtomicsStore Is64 (.JSTypedArray k) index value s
      = Operation.Store.run Is64 (.JSTypedArray k) index value value s := fun _ => rfl
  rw [hrun2, Operation.run_eq_pipeline] at hret
  obtain ⟨kind1, i1, zs, s2, harr, hk, hnd, hi1, hlt, hco, hnd2, hrun⟩ :=
    pipeline_returned _ _ _ _ _ _ _ hret
  cases harr
  rw [hi] at hi1
  have hii : i1 = i := by simpa using hi1.symm
  subst hii
  obtain ⟨hm, ht, hh, hf⟩ := coerceAll_ok_spec kind _ _ _ _ hco
  have hzs : zs = [z] := by
    simp only [Operation.operands] at hf
    cases hf with
    | cons h1 h2 =>
      cases h2
      rw [hv] at h1
      simp only [Conversion.value.injEq] at h1
      rw [h1]
  subst hzs
  rw [hrun] at hret
  have hrz : r = kind.tag z := by
    simpa [Operation.execute, executeStore] using hret.symm
  refine ⟨hrz, ?_, ?_, ?_, ?_⟩
  · intro hb
    have hnb : kind.isBigInt = false := by
      cases kind <;> simp [ElementsKind.bits, ElementsKind.bytes] at hb <;> rfl
    simp only [ElementsKind.coercion, hnb] at hv
    exact ⟨by simpa using hv, by rw [hrz]; simp [ElementsKind.tag, hnb]⟩
  · intro hb
    have hnb : kind.isBigInt = true := by
      cases kind <;> simp [ElementsKind.bits, ElementsKind.bytes, ElementsKind.isInteger] at hb hk
        <;> rfl
    simp only [ElementsKind.coercion, hnb] at hv
    exact ⟨by simpa using hv, by rw [hrz]; simp [ElementsKind.tag, hnb]⟩
  · rw [hrun2, Operation.run_eq_pipeline, hrun]
    simp only [Operation.execute, executeStore, State.withView, List.getD_cons_zero]
    exact elementValue_write _ _ _ _ _ _ _ _ rfl rfl
  · intro kind2 hk2 hb2
    rw [hrun2, Operation.run_valid Is64 .Store kind2 index value value s i1 hk2 hnd hi hlt,
      coerceAll_congr kind kind2 hb2, hco]
    simp [hnd2, Operation.execute, executeStore, hrz, ElementsKind.tag, hb2]

theorem store_returns_coerced_witness :
    (Tagged.number 300 = ElementsKind.Int8.tag 300 ∧
      elementValue true .Int8 0
          ((AtomicsStore true (.JSTypedArray .Int8) (JSValue.number 0) (JSValue.number 300)
            (State.initial 4)).2.withView (State.initial 4).heap)
        = canonicalize .Int8 300 ∧
      canonicalize .Int8 300 = 44 ∧
      (AtomicsStore true (.JSTypedArray .Uint8) (JSValue.number 0) (JSValue.number 300)
        (State.initial 4)).1 = .returned (.number 300)) ∧
    (Tagged.bigint (2 ^ 64 + 1) = ElementsKind.BigUint64.tag (2 ^ 64 + 1) ∧
      elementValue true .BigUint64 0
          ((AtomicsStore true (.JSTypedArray .BigUint64) (JSValue.number 0)
            (JSValue.bigint (2 ^ 64 + 1)) (State.initial 4)).2.withView (State.initial 4).heap)
        = canonicalize .BigUint64 (2 ^ 64 + 1) ∧
      canonicalize .BigUint64 (2 ^ 64 + 1) = 1) :=
  have h8 := store_returns_coerced true .Int8 (JSValue.number 0) (JSValue.number 300)
    (State.initial 4) 0 300 (.number 300) (by decide) (by decide) (by decide)
  have h64 := store_returns_coerced true .BigUint64 (JSValue.number 0)
    (JSValue.bigint (2 ^ 64 + 1)) (State.initial 4) 0 (2 ^ 64 + 1) (.bigint (2 ^ 64 + 1))
    (by decide) (by decide) (by decide)
  ⟨⟨h8.1, h8.2.2.2.1, by decide, h8.2.2.2.2 .Uint8 (by decide) (by decide)⟩,
   ⟨h64.1, h64.2.2.2.1, by decide⟩⟩

/-- C24 (operands matter only modulo the element width). For an operation on
a view of a kind of width `w` bits, take two calls from the same state with
the same index that both return, whose coerced operands are congruent modulo
`2 ^ w` (the value operands, and for CompareExchange the replacements too).
The two calls leave identical memory and, unless the operation is Store,
return the same result. Moreover the call leaves the same final state, hence
writes the same bytes, on every accepted kind of the same width, signed or
unsigned. -/
theorem operands_modulo_width (Is64 : Bool) (op : Operation) (kind : ElementsKind)
    (index value replacement value2 replacement2 : JSValue) (s : State) (z z2 : Int)
    (r r2 : Tagged)
    (hv : (kind.coercion value).result = .value z)
    (hv2 : (kind.coercion value2).result = .value z2)
    (hz : z % 2 ^ kind.bits = z2 % 2 ^ kind.bits)
    (hrep : op = .CompareExchange → ∃ y y2, (kind.coercion replacement).result = .value y ∧
      (kind.coercion replacement2).result = .value y2 ∧ y % 2 ^ kind.bits = y2 % 2 ^ kind.bits)
    (hret : (op.run Is64 (.JSTypedArray kind) index value replacement s).1 = .returned r)
    (hret2 : (op.run Is64 (.JSTypedArray kind) index value2 replacement2 s).1 = .returned r2) :
    (op.run Is64 (.JSTypedArray kind) index value2 replacement2 s).2.memory
      = (op.run Is64 (.JSTypedArray kind) index value replacement s).2.memory ∧
    (op ≠ .Store → r2 = r) ∧
    ∀ kind2 : ElementsKind, kind2.isInteger = true → kind2.bytes = kind.bytes →
      (op.run Is64 (.JSTypedArray kind2) index value replacement s).2
        = (op.run Is64 (.JSTypedArray kind) index value replacement s).2 := by
  rw [Operation.run_eq_pipeline] at hret hret2
  obtain ⟨kind1, i, zs, s2, harr, hk, hnd, hi, hlt, hco, hnd2, hrun⟩ :=
    pipeline_returned _ _ _ _ _ _ _ hret
  obtain ⟨kind3, i2, zs2, s3, harr2, _, _, hi2, _, hco2, _, hrun2⟩ :=
    pipeline_returned _ _ _ _ _ _ _ hret2
  cases harr
  cases harr2
  rw [hi] at hi2
  have hii : i2 = i := by simpa using hi2.symm
  subst hii
  obtain ⟨hm, _, _, hf⟩ := coerceAll_ok_spec kind _ _ _ _ hco
  obtain ⟨hm2, _, _, hf2⟩ := coerceAll_ok_spec kind _ _ _ _ hco2
  obtain ⟨a1, a2, a3⟩ := coerced_operands op kind value replacement zs hf
  obtain ⟨b1, b2, b3⟩ := coerced_operands op kind value2 replacement2 zs2 hf2
  have henc := ElementsKind.encode_congr kind z z2 hz
  have h01 : kind.encode (zs2.getD 0 0) = kind.encode (zs.getD 0 0) ∧
      kind.encode (zs2.getD 1 0) = kind.encode (zs.getD 1 0) := by
    by_cases hL : op = .Load
    · rw [a1 hL, b1 hL]; exact ⟨rfl, rfl⟩
    · by_cases hC : op = .CompareExchange
      · obtain ⟨x, y, hx, hy, rfl⟩ := a3 hC
        obtain ⟨x2, y2, hx2, hy2, rfl⟩ := b3 hC
        obtain ⟨u, u2, hu, hu2, huz⟩ := hrep hC
        rw [hv] at hx; rw [hv2] at hx2; rw [hu] at hy; rw [hu2] at hy2
        simp only [Conversion.value.injEq] at hx hx2 hy hy2
        subst hx hx2 hy hy2
        exact ⟨henc.symm, (ElementsKind.encode_congr kind _ _ huz).symm⟩
      · obtain ⟨x, hx, rfl⟩ := a2 hL hC
        obtain ⟨x2, hx2, rfl⟩ := b2 hL hC
        rw [hv] at hx; rw [hv2] at hx2
        simp only [Conversion.value.injEq] at hx hx2
        subst hx hx2
        exact ⟨henc.symm, rfl⟩
  obtain ⟨e1, e2⟩ := Operation.execute_operands Is64 op kind s.heap i2 zs zs2 s2 s3
    (hm2.trans hm.symm) h01.1 h01.2
  refine ⟨?_, ?_, ?_⟩
  · rw [Operation.run_eq_pipeline, Operation.run_eq_pipeline, hrun, hrun2]
    exact e1
  · intro hop
    rw [hrun] at hret
    rw [hrun2, e2 hop, hret] at hret2
    simpa using hret2.symm
  · intro kind2 hk2 hb
    exact Operation.run_width Is64 op kind kind2 index value replacement s hk hk2 hb

theorem operands_modulo_width_witness :
    (Operation.CompareExchange.run true (.JSTypedArray .Int8) (JSValue.number 0)
        (JSValue.number 261) (JSValue.number 9) (State.afterStore .Int8 5)).2.memory
      = (Operation.CompareExchange.run true (.JSTypedArray .Int8) (JSValue.number 0)
        (JSValue.number 5) (JSValue.number 9) (State.afterStore .Int8 5)).2.memory ∧
    (Operation.CompareExchange.run true (.JSTypedArray .Uint8) (JSValue.number 0)
        (JSValue.number 5) (JSValue.number 9) (State.afterStore .Int8 5)).2
      = (Operation.CompareExchange.run true (.JSTypedArray .Int8) (JSValue.number 0)
        (JSValue.number 5) (JSValue.number 9) (State.afterStore .Int8 5)).2 ∧
    elementValue true .Int8 0
      (Operation.CompareExchange.run true (.JSTypedArray .Int8) (JSValue.number 0)
        (JSValue.number 261) (JSValue.number 9) (State.afterStore .Int8 5)).2 = 9 :=
  have h := operands_modulo_width true .CompareExchange .Int8 (JSValue.number 0)
    (JSValue.number 5) (JSValue.number 9) (JSValue.number 261) (JSValue.number 9)
    (State.afterStore .Int8 5) 5 261 (.number 5) (.number 5) (by decide) (by decide)
    (by decide) (fun _ => ⟨9, 9, by decide, by decide, rfl⟩) (by decide) (by decide)
  ⟨h.1, h.2.2 .Uint8 (by decide) (by decide), by decide⟩

/-- C25 (Load is read-only). For every input, whether Load succeeds or fails,
the memory after the call is the memory before it. And when a Load that
returns a value is followed, with nothing in between, by a Load of the same
view with an index operand coercing to the same index, the buffer's base being
where it was, the second Load, if it returns a value, returns the same value as
the first. -/
theorem load_read_only (Is64 : Bool) (maybe_array : JSObject) (index index2 : JSValue)
    (s : State) :
    (AtomicsLoad Is64 maybe_array index s).2.memory = s.memory ∧
    (index2.toInteger.result = index.toInteger.result →
      (AtomicsLoad Is64 maybe_array index s).2.heap.backing_store = s.heap.backing_store →
      (AtomicsLoad Is64 maybe_array index s).1.isFailure = false →
      (AtomicsLoad Is64 maybe_array index2 (AtomicsLoad Is64 maybe_array index s).2).1.isFailure
        = false →
      (AtomicsLoad Is64 maybe_array index2 (AtomicsLoad Is64 maybe_array index s).2).1
        = (AtomicsLoad Is64 maybe_array index s).1) := by
  have hmem : (AtomicsLoad Is64 maybe_array index s).2.memory = s.memory := by
    rw [AtomicsLoad_eq_pipeline]
    unfold pipeline
    split
    · split
      · rfl
      · split
        · rfl
        · simp only [coerceAll]
          split
          · rfl
          · split
            · rfl
            · split <;> rfl
    · rfl
  refine ⟨hmem, ?_⟩
  intro hsame hb hs1 hs2
  obtain ⟨r1, h1⟩ := Completion.returned_of_not_failure _ hs1
  obtain ⟨r2, h2⟩ := Completion.returned_of_not_failure _ hs2
  have hop : ∀ (ix : JSValue) (st : State), AtomicsLoad Is64 maybe_array ix st
      = Operation.Load.run Is64 maybe_array ix ix ix st := fun _ _ => rfl
  obtain ⟨kind, i, zs, harr, hk, hnd, hi, hlt, hf, hr, hh, hnd2, ht⟩ :=
    Operation.run_returned Is64 .Load maybe_array index index index s r1 (by rw [← hop]; exact h1)
  obtain ⟨kind2, i2, zs2, harr2, _, _, hi2, _, _, hr2, _, _, _⟩ :=
    Operation.run_returned Is64 .Load maybe_array index2 index2 index2 _ r2
      (by rw [← hop]; exact h2)
  subst harr
  cases harr2
  rw [hsame, hi] at hi2
  have hii : i2 = i := by simpa using hi2.symm
  subst hii
  rw [h1, h2, hr, hr2]
  simp only [Operation.result, elementValue, elementBits, hmem]
  rw [elementAddress_congr Is64 _ s.heap kind i2 hb (by
    rw [← hop] at hh
    rw [hh]
    simp [heapAfter, Operation.operands])]

theorem load_read_only_witness :
    (AtomicsLoad true (.JSTypedArray .Int32) (JSValue.number 0)
        (State.afterStore .Int32 7)).2.memory = (State.afterStore .Int32 7).memory ∧
    (AtomicsLoad true (.JSTypedArray .Int32) (JSValue.number 0)
        (AtomicsLoad true (.JSTypedArray .Int32) (JSValue.number 0)
          (State.afterStore .Int32 7)).2).1
      = (AtomicsLoad true (.JSTypedArray .Int32) (JSValue.number 0)
          (State.afterStore .Int32 7)).1 ∧
    (AtomicsLoad true (.JSTypedArray .Int32) (JSValue.number 0)
        (State.afterStore .Int32 7)).1 = .returned (.number 7) :=
  have h := load_read_only true (.JSTypedArray .Int32) (JSValue.number 0) (JSValue.number 0)
    (State.afterStore .Int32 7)
  ⟨h.1, h.2 rfl (by decide) (by decide) (by decide), by decide⟩

end Atomics
